import Mathlib

/-!
# Socket.IO server: namespace connection pipeline

A shallow embedding of `socket/namespace.go` (middleware chain, connection
pipeline, server-side emit, counter), of the registry of namespaces and the
construction of the server of `socket/server.go` and of the options of
`socket/server-options.go`, with the properties of their specification. The
adapter, of which `socket/adapter-type.go` declares the interface, is modelled
from the specification.

Go values of type `any` are embedded as the inductive `Any`; nil pointers are
`Option`; mutable receivers are passed as explicit state; every call that leaves
the embedded code (a middleware, a hook of the socket, a listener, the adapter)
is recorded in a trace.
-/

namespace socket

/-! ## Data model -/

/-- Go values of the empty interface `any`, as far as the embedded code inspects them. -/
inductive Any where
  | nil : Any
  | str (s : String) : Any
  | int (v : Int) : Any
  | map (entries : List (String × Any)) : Any
  | func (tag : Nat) : Any

/-- `SocketId` of adapter-type.go: a public id. -/
abbrev SocketId := String

/-- `PrivateSessionId` of adapter-type.go. -/
abbrev PrivateSessionId := String

/-- `Room` of adapter-type.go. -/
abbrev Room := String

/-- `SessionToPersist` of adapter-type.go. -/
structure SessionToPersist where
  Sid : SocketId
  Pid : PrivateSessionId
  Rooms : List Room
  Data : Any

/-- `Session` of adapter-type.go. -/
structure Session where
  toPersist : SessionToPersist
  MissedPackets : List Any

/-- Modelled from the spec: the type `ExtendedError` (declared in another file of the
package), "the middleware error's message/data"; `Error()` is the message and
`Data()` the attached value, `Any.nil` when there is none. -/
structure ExtendedError where
  message : String
  data : Any

/-- Method `Error()` of an `ExtendedError`. -/
def ExtendedError.Error (e : ExtendedError) : String := e.message

/-- Method `Data()` of an `ExtendedError`. -/
def ExtendedError.Data (e : ExtendedError) : Any := e.data

/-- Modelled from the spec: the transport boundary of a connection, "identity,
readiness state"; `Conn().ReadyState()` and `Conn().Protocol()`. -/
structure Conn where
  readyState : String
  protocol : Nat

/-- Modelled from the spec: the type `Client` (declared in another file of the package):
the transport connection and the id the server assigns to a fresh
socket of this transport session ("ConnectionId: opaque, server-assigned"). -/
structure Client where
  conn : Conn
  sid : SocketId

/-- Modelled from the spec: the type `SeesionData` (declared in another file of the
package), the reconnection fields `{privateId, offset}` of an auth payload. -/
structure SeesionData where
  pid : Option String
  offset : Option String

/-- `GetPid()` on the decoded pointer: the value and whether it is present
(a nil receiver has none). -/
def SeesionData.GetPid : Option SeesionData → String × Bool
  | some ⟨some p, _⟩ => (p, true)
  | _ => ("", false)

/-- `GetOffset()` on the decoded pointer: the value and whether it is present. -/
def SeesionData.GetOffset : Option SeesionData → String × Bool
  | some ⟨_, some o⟩ => (o, true)
  | _ => ("", false)

/-- The auth payload (`any`) of a connection request, with the outcome of
`mapstructure.Decode(auth, &_auth)`: `none` when Decode reports an error,
otherwise the decoded pointer (itself nil when nothing was decoded). -/
structure Auth where
  raw : Any
  decoded : Option (Option SeesionData)

/-- Modelled from the spec: the type `Socket` (declared in another file of the package).
A socket keeps what `NewSocket(nsp, client, auth, previousSession)`
was given; it is "recovered" when it was built from a previous session, whose
public id it then takes over. -/
structure Socket where
  nsp : String
  client : Client
  auth : Auth
  previousSession : Option Session

/-- `socket.Id()`. -/
def Socket.Id (s : Socket) : SocketId :=
  match s.previousSession with
  | some session => session.toPersist.Sid
  | none => s.client.sid

/-- `socket.Recovered()`. -/
def Socket.Recovered (s : Socket) : Bool := s.previousSession.isSome

/-- A middleware `func(*Socket, func(*ExtendedError))`, observed through the
calls it makes to its continuation, in order (`none` is `next(nil)`). -/
abbrev Middleware := Socket → List (Option ExtendedError)

/-- What `Namespace.run` does that is visible from outside. -/
inductive RunEvent where
  /-- The middleware `fns[i]` is invoked. -/
  | middleware (i : Nat) : RunEvent
  /-- The middleware `fns[i]` calls its continuation with `err`. -/
  | next (i : Nat) (err : Option ExtendedError) : RunEvent
  /-- The final callback `fn(err)` is called. -/
  | fn (err : Option ExtendedError) : RunEvent
  /-- The index `i` of `fns[i]` is out of range. -/
  | outOfRange (i : Nat) : RunEvent

/-- `types.Map[K, V]` as an association list, most recent store first. -/
structure Map (κ : Type) (ν : Type) where
  entries : List (κ × ν)

/-- `Load(key)`. -/
def Map.Load {κ ν : Type} [DecidableEq κ] (m : Map κ ν) (key : κ) : Option ν :=
  (m.entries.find? fun e => decide (e.1 = key)).map Prod.snd

/-- `Delete(key)`. -/
def Map.Delete {κ ν : Type} [DecidableEq κ] (m : Map κ ν) (key : κ) : Map κ ν :=
  ⟨m.entries.filter fun e => !decide (e.1 = key)⟩

/-- `Store(key, value)`: replaces the entry of `key`. -/
def Map.Store {κ ν : Type} [DecidableEq κ] (m : Map κ ν) (key : κ) (value : ν) : Map κ ν :=
  ⟨(key, value) :: (m.Delete key).entries⟩

/-- Whether `Load(key)` finds an entry. -/
def Map.Has {κ ν : Type} [DecidableEq κ] (m : Map κ ν) (key : κ) : Bool :=
  (m.Load key).isSome

/-- User code run from the connection pipeline (a callback or a listener of the
event emitter), observed through what it does to the namespace's socket map. -/
abbrev Effect := Socket → Map SocketId Socket → Map SocketId Socket

/-- A listener registered on the namespace's event emitter: the identity of the
Go function value and what it does when called. -/
structure Listener where
  tag : Nat
  effect : Effect

/-- Calls that leave the embedded code, in the order they happen. -/
inductive Action where
  /-- An event of the middleware chain. -/
  | chain (e : RunEvent) : Action
  /-- The call `n.sockets.Store(socket.Id(), socket)`. -/
  | store (id : SocketId) : Action
  /-- The call `socket._onconnect()`. -/
  | onconnect (id : SocketId) : Action
  /-- The call `fn(socket)` of the caller's callback. -/
  | callback (id : SocketId) : Action
  /-- The call `n.EmitReserved(ev, socket)`. -/
  | emitReserved (ev : String) (id : SocketId) : Action
  /-- A listener of `ev` runs; `queryable` is whether `Sockets()` holds the socket then. -/
  | listener (ev : String) (tag : Nat) (id : SocketId) (queryable : Bool) : Action
  /-- The call `socket._cleanup()`. -/
  | cleanup (id : SocketId) : Action
  /-- The call `socket._error(payload)`, which sends the connection-error. -/
  | error (id : SocketId) (payload : Any) : Action
  /-- The call `Adapter().ServerSideEmit(packet)`. -/
  | adapterServerSideEmit (packet : List Any) : Action

/-- The methods of the `Adapter` interface (adapter-type.go) that the namespace
calls and whose result it reads; a Go result `(*Session, error)` is a pair. -/
structure Adapter where
  RestoreSession : PrivateSessionId → String → Option Session × Option String
  ServerSideEmit : List Any → Option String

/-- `AdapterConstructor` of adapter-type.go: `New(nsp)` builds the adapter of a
namespace, which is given by its name; `tag` is the identity of the constructor. -/
structure AdapterConstructor where
  tag : Nat
  New : String → Adapter

/-- `ConnectionStateRecovery` of server-options.go. -/
structure ConnectionStateRecovery where
  maxDisconnectionDuration : Option Int := none
  skipMiddlewares : Option Bool := none

/-- `ConnectionStateRecovery.SkipMiddlewares`. -/
def ConnectionStateRecovery.SkipMiddlewares (c : ConnectionStateRecovery) : Bool :=
  match c.skipMiddlewares with
  | none => true
  | some v => v

/-- `ServerOptions` of server-options.go: the path (of the embedded
`config.AttachOptions`), the adapter and the connection-state recovery. -/
structure ServerOptions where
  path : Option String := none
  adapter : Option AdapterConstructor := none
  connectionStateRecovery : Option ConnectionStateRecovery := none

/-- `DefaultServerOptions`. -/
def DefaultServerOptions : ServerOptions := {}

/-- `GetRawPath` of the embedded `config.AttachOptions`. -/
def ServerOptions.GetRawPath (s : ServerOptions) : Option String := s.path

/-- `SetPath` of the embedded `config.AttachOptions`. -/
def ServerOptions.SetPath (s : ServerOptions) (path : String) : ServerOptions :=
  { s with path := some path }

/-- `ServerOptions.Path`. -/
def ServerOptions.Path (s : ServerOptions) : String :=
  match s.GetRawPath with
  | none => "/socket.io"
  | some path => path

/-- `ServerOptions.SetAdapter`. -/
def ServerOptions.SetAdapter (s : ServerOptions) (adapter : AdapterConstructor) :
    ServerOptions :=
  { s with adapter := some adapter }

/-- `ServerOptions.GetRawAdapter`. -/
def ServerOptions.GetRawAdapter (s : ServerOptions) : Option AdapterConstructor := s.adapter

/-- `ServerOptions.Adapter`; `AdapterBuilder` is the value `&AdapterBuilder{}`. -/
def ServerOptions.Adapter (s : ServerOptions) (AdapterBuilder : AdapterConstructor) :
    AdapterConstructor :=
  match s.adapter with
  | none => AdapterBuilder
  | some adapter => adapter

/-- `ServerOptions.Assign`, for the path: a field that is not set takes the value
that `data` answers for it. The other fields that `Assign` merges are merged in
the same way and are not read by what follows. -/
def ServerOptions.Assign (s : ServerOptions) (data : Option ServerOptions) : ServerOptions :=
  match data with
  | none => s
  | some data =>
    if s.GetRawPath.isNone then s.SetPath data.Path else s

/-- `ServerOptions.GetRawConnectionStateRecovery`. -/
def ServerOptions.GetRawConnectionStateRecovery (s : ServerOptions) :
    Option ConnectionStateRecovery :=
  s.connectionStateRecovery

/-- `ServerOptions.ConnectionStateRecovery`. -/
def ServerOptions.ConnectionStateRecovery (s : ServerOptions) : ConnectionStateRecovery :=
  match s.connectionStateRecovery with
  | none => {}
  | some c => c

/-- `Namespace` of namespace.go; `serverOpts` is `n.server.Opts()` and `trace`
records the calls made so far. -/
structure Namespace where
  _ids : Nat
  name : String
  sockets : Map SocketId Socket
  adapter : Adapter
  serverOpts : ServerOptions
  _fns : List Middleware
  listeners : List (String × Listener)
  trace : List Action

/-- Appends actions to the trace. -/
def Namespace.log (n : Namespace) (as : List Action) : Namespace :=
  { n with trace := n.trace ++ as }

/-- `NAMESPACE_RESERVED_EVENTS`. -/
def NAMESPACE_RESERVED_EVENTS : List String := ["connect", "connection", "new_namespace"]

/-! ## The middleware chain: `Namespace.Use`, `Namespace.run` -/

/-- `Namespace.Use`: `n._fns.Push(fn)`. -/
def Namespace.Use (n : Namespace) (fn : Middleware) : Namespace :=
  { n with _fns := n._fns ++ [fn] }

/-- The local closure `run` of `Namespace.run`: `run(i)` invokes `fns[i]` with a
continuation that short-circuits on an error, summons the callback after the
last middleware and otherwise goes on to `run(i + 1)`. `fuel` bounds the nesting
of the recursive calls. -/
def Namespace.run.inner (fns : List Middleware) (socket : Socket) : Nat → Nat → List RunEvent
  | 0, _ => []
  | fuel + 1, i =>
    match fns[i]? with
    | none => [RunEvent.outOfRange i]
    | some f =>
      RunEvent.middleware i :: (f socket).flatMap fun err =>
        RunEvent.next i err ::
          (match err with
          | some e => [RunEvent.fn (some e)]
          | none =>
            if i ≥ fns.length - 1 then [RunEvent.fn none]
            else Namespace.run.inner fns socket fuel (i + 1))

/-- `Namespace.run(socket, fn)`: the events of the chain over `fns := n._fns.All()`. -/
def Namespace.run (n : Namespace) (socket : Socket) : List RunEvent :=
  let fns := n._fns
  if fns.length > 0 then Namespace.run.inner fns socket fns.length 0
  else [RunEvent.fn none]

/-- The arguments of the calls of the final callback, in order. -/
def fnCalls : List RunEvent → List (Option ExtendedError)
  | [] => []
  | RunEvent.fn err :: es => err :: fnCalls es
  | _ :: es => fnCalls es

/-! ## The connection pipeline: `Namespace.Add` -/

/-- `NewSocket(n, client, auth, previousSession)`. -/
def NewSocket (n : Namespace) (client : Client) (auth : Auth)
    (previousSession : Option Session) : Socket :=
  { nsp := n.name, client := client, auth := auth, previousSession := previousSession }

/-- `Namespace._createSocket`. -/
def Namespace._createSocket (n : Namespace) (client : Client) (auth : Auth) : Socket :=
  match auth.decoded with
  | some _auth =>
    let (sessionId, has_sessionId) := SeesionData.GetPid _auth
    let (offset, has_offset) := SeesionData.GetOffset _auth
    if has_sessionId && has_offset && n.serverOpts.GetRawConnectionStateRecovery.isSome then
      match n.adapter.RestoreSession sessionId offset with
      | (_, some _) => NewSocket n client auth none
      | (some session, none) => NewSocket n client auth (some session)
      | (none, none) => NewSocket n client auth none
    else NewSocket n client auth none
  | none => NewSocket n client auth none

/-- `Namespace.namespace_remove`, reached through `Namespace.remove`. -/
def Namespace.remove (n : Namespace) (socket : Socket) : Namespace :=
  { n with sockets := n.sockets.Delete socket.Id }

/-- Modelled from the spec: `socket._cleanup()` (declared in another file of the
package), "the socket is cleaned up": the socket takes itself out of its
namespace through `Namespace.remove` ("Called by each Socket"). -/
def Socket._cleanup (socket : Socket) (n : Namespace) : Namespace :=
  (n.log [Action.cleanup socket.Id]).remove socket

/-- Modelled from the spec: `socket._error(payload)` (declared in another file of the
package), "the client receives a connection-error" carrying `payload`. -/
def Socket._error (socket : Socket) (payload : Any) (n : Namespace) : Namespace :=
  n.log [Action.error socket.Id payload]

/-- Modelled from the spec: `socket._onconnect()` (declared in another file of the
package), the "internal connect hooks" of the socket. -/
def Socket._onconnect (socket : Socket) (n : Namespace) : Namespace :=
  n.log [Action.onconnect socket.Id]

/-- `n.EmitReserved(ev, socket)` of the event emitter: the listeners of `ev` run
one after the other, in the order they were registered. -/
def Namespace.EmitReserved (n : Namespace) (ev : String) (socket : Socket) : Namespace :=
  ((n.listeners.filter fun l => l.1 == ev).map Prod.snd).foldl
    (fun n l =>
      { n.log [Action.listener ev l.tag socket.Id (n.sockets.Has socket.Id)] with
        sockets := l.effect socket n.sockets })
    (n.log [Action.emitReserved ev socket.Id])

/-- `Namespace._doConnect`. -/
def Namespace._doConnect (n : Namespace) (socket : Socket) (fn : Option Effect) : Namespace :=
  -- track socket
  let n := { n with sockets := n.sockets.Store socket.Id socket }.log [Action.store socket.Id]
  let n := socket._onconnect n
  let n :=
    match fn with
    | some fn => { n.log [Action.callback socket.Id] with sockets := fn socket n.sockets }
    | none => n
  -- fire user-set events
  let n := n.EmitReserved "connect" socket
  n.EmitReserved "connection" socket

/-- The body of the goroutine that the final callback of `Namespace.Add` starts;
`client` is the client as the goroutine finds it. -/
def Namespace.Add.go (n : Namespace) (client : Client) (socket : Socket) (fn : Option Effect)
    (err : Option ExtendedError) : Namespace :=
  if "open" != client.conn.readyState then
    socket._cleanup n
  else
    match err with
    | some err =>
      let n := socket._cleanup n
      if client.conn.protocol == 3 then
        match err.Data with
        | Any.nil => socket._error (Any.str err.Error) n
        | e => socket._error e n
      else
        socket._error (Any.map [("message", Any.str err.Error), ("data", err.Data)]) n
    | none => n._doConnect socket fn

/-- `Namespace.Add`. The final callback only starts a goroutine; the goroutines
run once the chain has returned, in the order they were started, and find the
connection in the state `later`. -/
def Namespace.Add (n : Namespace) (client : Client) (later : Conn) (auth : Auth)
    (fn : Option Effect) : Namespace :=
  let socket := n._createSocket client auth
  if n.serverOpts.ConnectionStateRecovery.SkipMiddlewares && socket.Recovered
      && client.conn.readyState == "open" then
    n._doConnect socket fn
  else
    let events := n.run socket
    (fnCalls events).foldl
      (fun n err => Namespace.Add.go n { client with conn := later } socket fn err)
      (n.log (events.map Action.chain))

/-! ## Server-side emit -/

/-- `Namespace.ServerSideEmit`: the new state and the returned `error`. -/
def Namespace.ServerSideEmit (n : Namespace) (ev : String) (args : List Any) :
    Namespace × Option String :=
  if NAMESPACE_RESERVED_EVENTS.contains ev then
    (n, some ("\"" ++ ev ++ "\" is a reserved event name"))
  else
    let packet := [Any.str ev] ++ args
    let _ := n.adapter.ServerSideEmit packet
    (n.log [Action.adapterServerSideEmit packet], none)

/-- `Namespace.ServerSideEmitWithAck(ev, args...)(ack)`: the closure returns
nothing, so the result is the new state alone. -/
def Namespace.ServerSideEmitWithAck (n : Namespace) (ev : String) (args : List Any)
    (ack : Any) : Namespace :=
  (n.ServerSideEmit ev (args ++ [ack])).1

/-! ## Counter and options -/

/-- `Namespace.Ids`: `n._ids.Add(1)` on the `atomic.Uint64` counter; the new state
and the value returned. -/
def Namespace.Ids (n : Namespace) : Namespace × Nat :=
  let v := (n._ids + 1) % 2 ^ 64
  ({ n with _ids := v }, v)

/-- The namespace after `k` calls of `Ids`. -/
def Namespace.IdsTimes : Nat → Namespace → Namespace
  | 0, n => n
  | k + 1, n => (Namespace.IdsTimes k n).Ids.1

/-- `ConnectionStateRecovery.SetMaxDisconnectionDuration`. -/
def ConnectionStateRecovery.SetMaxDisconnectionDuration (c : ConnectionStateRecovery)
    (maxDisconnectionDuration : Int) : ConnectionStateRecovery :=
  { c with maxDisconnectionDuration := some maxDisconnectionDuration }

/-- `ConnectionStateRecovery.GetRawMaxDisconnectionDuration`. -/
def ConnectionStateRecovery.GetRawMaxDisconnectionDuration (c : ConnectionStateRecovery) :
    Option Int :=
  c.maxDisconnectionDuration

/-- `ConnectionStateRecovery.MaxDisconnectionDuration`. -/
def ConnectionStateRecovery.MaxDisconnectionDuration (c : ConnectionStateRecovery) : Int :=
  match c.maxDisconnectionDuration with
  | none => 120000
  | some v => v

/-! ## The server: registry of namespaces -/

/-- A `*regexp.Regexp`: the identity of the pointer and `MatchString`. -/
structure Regexp where
  tag : Nat
  MatchString : String → Bool

/-- The identity of a `ParentNspNameMatchFn`, a pointer to a function: a pointer
handed in by the caller, or the closure `nfn` that `Server.Of` allocates for a
regular expression. -/
inductive MatchFnKey where
  | ptr (tag : Nat) : MatchFnKey
  | closure (serial : Nat) : MatchFnKey
  deriving DecidableEq

/-- `ParentNspNameMatchFn`, a `*func(string, any, func(error, bool))`, observed
through the calls `(err, allow)` it makes to its callback: those made before it
returns, and those made after it has returned. -/
structure ParentNspNameMatchFn where
  key : MatchFnKey
  before : String → Any → List (Option String × Bool)
  after : String → Any → List (Option String × Bool)

/-- Modelled from the spec: the type `ParentNamespace` (declared in another file of
the package), the "factory" of a "(predicate, factory)" pair: a namespace that
creates the namespaces matching a predicate; its name and its listeners are kept. -/
structure ParentNamespace where
  name : String
  listeners : List (String × Listener)

/-- The order in which `Range` of a `types.Map` visits the entries. The map does
not record the order of the stores, so the order is left open: any rearrangement
of the entries. -/
structure RangeOrder where
  visit : {α : Type} → List α → List α
  perm : ∀ {α : Type} (l : List α), List.Perm (visit l) l

/-- What the server does that is visible from outside, in the order it happens. -/
inductive ServerEvent where
  /-- The predicate `(*nextFn)(name, auth, ...)` is invoked. -/
  | predicate (key : MatchFnKey) (name : String) : ServerEvent
  /-- The callback `fn(nsp)` of `_checkNamespace` is called. -/
  | fn (nsp : Option Namespace) : ServerEvent
  /-- The call `pnsp.CreateChild(name)` on the parent namespace `parent`. -/
  | CreateChild (parent : String) (name : String) : ServerEvent
  /-- The call `NewNamespace(s, name)` of `Server.Of`. -/
  | NewNamespace (name : String) : ServerEvent
  /-- The call `s.sockets.EmitReserved(ev, namespace)`. -/
  | EmitReserved (ev : String) (name : String) : ServerEvent
  /-- The call `nsp.InitAdapter()` on the namespace `name`. -/
  | InitAdapter (name : String) : ServerEvent

/-- `Server` of server.go: the registries, the adapter constructor and the
options; `parentCount` counts the parent namespaces created, `_closures` the
closures allocated for regular expressions, `trace` records the events so far;
`eio` is the engine, given by the options it was created with. -/
structure Server where
  _nsps : Map String Namespace
  parentNsps : Map MatchFnKey (ParentNspNameMatchFn × ParentNamespace)
  parentNamespacesFromRegExp : Map Nat (Regexp × ParentNamespace)
  _adapter : AdapterConstructor
  opts : ServerOptions
  parentCount : Nat
  _closures : Nat
  trace : List ServerEvent
  _path : String := ""
  eio : Option ServerOptions := none

/-- Appends events to the trace of the server. -/
def Server.log (s : Server) (es : List ServerEvent) : Server :=
  { s with trace := s.trace ++ es }

/-- `Server.Adapter`. -/
def Server.Adapter (s : Server) : AdapterConstructor := s._adapter

/-- `Server.Opts`. -/
def Server.Opts (s : Server) : ServerOptions := s.opts

/-- `Namespace.InitAdapter`: `n.adapter = n.server.Adapter().New(n)`. -/
def Namespace.InitAdapter (n : Namespace) (server : Server) : Namespace :=
  { n with adapter := server.Adapter.New n.name }

/-- `NewNamespace(server, name)`: `MakeNamespace` followed by `Construct`. -/
def NewNamespace (server : Server) (name : String) : Namespace :=
  { _ids := 0, name := name, sockets := ⟨[]⟩, adapter := server.Adapter.New name,
    serverOpts := server.Opts, _fns := [], listeners := [], trace := [] }

/-- `n.On(ev, fn)` of the event emitter: registers a listener. -/
def Namespace.On (n : Namespace) (ev : String) (fn : Listener) : Namespace :=
  { n with listeners := n.listeners ++ [(ev, fn)] }

/-- `parentNsp.On(ev, fn)` of the event emitter: registers a listener. -/
def ParentNamespace.On (p : ParentNamespace) (ev : String) (fn : Listener) : ParentNamespace :=
  { p with listeners := p.listeners ++ [(ev, fn)] }

/-- Modelled from the spec: `NewParentNamespace(s)` (declared in another file of
the package): a new parent namespace, named after a counter. -/
def NewParentNamespace (s : Server) : Server × ParentNamespace :=
  ({ s with parentCount := s.parentCount + 1 },
    { name := "/_" ++ toString s.parentCount, listeners := [] })

/-- Modelled from the spec: `pnsp.CreateChild(name)` (declared in another file of
the package), the factory: the namespace is created and "cached by exact name
thereafter" in the registry of the server. -/
def ParentNamespace.CreateChild (p : ParentNamespace) (s : Server) (name : String) :
    Server × Namespace :=
  let namespace_ := NewNamespace s name
  ({ s with _nsps := s._nsps.Store name namespace_ }.log [ServerEvent.CreateChild p.name name],
    namespace_)

/-- The callback that `_checkNamespace` hands to the predicate of the parent
`pnsp`, called with `(err, allow)`; the state is the server and the variables
`status` and `end`. -/
def Server._checkNamespace.next (name : String) (pnsp : ParentNamespace)
    (st : Server × Bool × Bool) (call : Option String × Bool) : Server × Bool × Bool :=
  let (s, status, end_) := st
  if call.1.isSome || !call.2 then
    (s, true, end_)
  else
    match s._nsps.Load name with
    | some nsp =>
      -- the namespace was created in the meantime
      (s.log [ServerEvent.fn (some nsp)], status, false)
    | none =>
      let (s, namespace_) := pnsp.CreateChild s name
      (s.log [ServerEvent.fn (some namespace_)], status, false)

/-- The traversal `s.parentNsps.Range(...)` of `_checkNamespace` over the entries
in the order of the visit: the server, the variable `end` and the entries whose
predicate was invoked. The traversal goes on while `status` is true. -/
def Server._checkNamespace.Range (name : String) (auth : Any) :
    List (MatchFnKey × ParentNspNameMatchFn × ParentNamespace) → Server × Bool →
      Server × Bool × List (ParentNspNameMatchFn × ParentNamespace)
  | [], (s, end_) => (s, end_, [])
  | (_, nextFn, pnsp) :: rest, (s, end_) =>
    let r := (nextFn.before name auth).foldl (Server._checkNamespace.next name pnsp)
      (s.log [ServerEvent.predicate nextFn.key name], false, end_)
    if r.2.1 then
      let r' := Server._checkNamespace.Range name auth rest (r.1, r.2.2)
      (r'.1, r'.2.1, (nextFn, pnsp) :: r'.2.2)
    else (r.1, r.2.2, [(nextFn, pnsp)])

/-- `Server._checkNamespace`. The predicates are invoked during the traversal;
the calls that a predicate makes to its callback after it has returned reach the
callback once `_checkNamespace` is through. -/
def Server._checkNamespace (s : Server) (order : RangeOrder) (name : String) (auth : Any) :
    Server :=
  let r := Server._checkNamespace.Range name auth (order.visit s.parentNsps.entries) (s, true)
  let s := if r.2.1 then r.1.log [ServerEvent.fn none] else r.1
  r.2.2.foldl
    (fun s visited =>
      ((visited.1.after name auth).foldl (Server._checkNamespace.next name visited.2)
        (s, false, r.2.1)).1)
    s

/-- `Server.SetAdapter`: every namespace of the registry is visited and
initialises its adapter anew. -/
def Server.SetAdapter (s : Server) (order : RangeOrder) (v : AdapterConstructor) : Server :=
  let s := { s with _adapter := v }
  { s with
      _nsps := ⟨s._nsps.entries.map fun (e : String × Namespace) => (e.1, e.2.InitAdapter s)⟩ }.log
    ((order.visit s._nsps.entries).map fun (e : String × Namespace) =>
      ServerEvent.InitAdapter e.1)

/-- The first argument `name any` of `Server.Of`. -/
inductive Name where
  | matchFn (n : ParentNspNameMatchFn) : Name
  | regexp (n : Regexp) : Name
  | string (n : String) : Name
  | other : Name

/-- `NamespaceInterface`, the result of `Server.Of`. -/
inductive NamespaceInterface where
  | parent (p : ParentNamespace) : NamespaceInterface
  | nsp (n : Namespace) : NamespaceInterface

/-- The name `n` under which `Server.Of` looks a namespace up. -/
def Server.Of.n : Name → String
  | Name.string n =>
    if n.length > 0 then
      if n.front != '/' then "/" ++ n else n
    else "/"
  | _ => "/"

/-- `Server.Of`. The registries hold pointers, so a listener registered after a
`Store` is seen through the registry as well. -/
def Server.Of (s : Server) (order : RangeOrder) (name : Name) (fn : Option Listener) :
    Server × NamespaceInterface :=
  match name with
  | Name.matchFn n =>
    let (s, parentNsp) := NewParentNamespace s
    let parentNsp :=
      match fn with
      | some fn => parentNsp.On "connect" fn
      | none => parentNsp
    ({ s with parentNsps := s.parentNsps.Store n.key (n, parentNsp) },
      NamespaceInterface.parent parentNsp)
  | Name.regexp n =>
    let (s, parentNsp) := NewParentNamespace s
    let nfn : ParentNspNameMatchFn :=
      { key := MatchFnKey.closure s._closures,
        before := fun nsp _ => [(none, n.MatchString nsp)],
        after := fun _ _ => [] }
    let parentNsp :=
      match fn with
      | some fn => parentNsp.On "connect" fn
      | none => parentNsp
    ({ s with
        _closures := s._closures + 1,
        parentNsps := s.parentNsps.Store nfn.key (nfn, parentNsp),
        parentNamespacesFromRegExp := s.parentNamespacesFromRegExp.Store n.tag (n, parentNsp) },
      NamespaceInterface.parent parentNsp)
  | name =>
    let n := Server.Of.n name
    match s._nsps.Load n with
    | some nsp =>
      match fn with
      | some fn =>
        let namespace_ := nsp.On "connect" fn
        ({ s with _nsps := s._nsps.Store n namespace_ }, NamespaceInterface.nsp namespace_)
      | none => (s, NamespaceInterface.nsp nsp)
    | none =>
      match (order.visit s.parentNamespacesFromRegExp.entries).find?
          fun e => e.2.1.MatchString n with
      | some (_, _, parentNamespace) =>
        let (s, namespace_) := parentNamespace.CreateChild s n
        (s, NamespaceInterface.nsp namespace_)
      | none =>
        let namespace_ := NewNamespace s n
        let namespace_ :=
          match fn with
          | some fn => namespace_.On "connect" fn
          | none => namespace_
        let s := { s with _nsps := s._nsps.Store n namespace_ }.log [ServerEvent.NewNamespace n]
        let s := if n != "/" then s.log [ServerEvent.EmitReserved "new_namespace" n] else s
        (s, NamespaceInterface.nsp namespace_)

/-! ## The server: construction and attachment -/

/-- `strings.TrimRight(v, "/")`. -/
def TrimRight (v : String) : String :=
  String.mk (v.data.reverse.dropWhile fun c => c == '/').reverse

/-- `Server.SetPath` (the regular expression of the client files is left out). -/
def Server.SetPath (s : Server) (v : String) : Server :=
  { s with _path := TrimRight v }

/-- `Server.Path`. -/
def Server.Path (s : Server) : String := s._path

/-- The first argument `srv any` of `Server.Attach`. -/
inductive Srv where
  | port (address : Int) : Srv
  | address (address : String) : Srv
  | httpServer : Srv
  | other : Srv

/-- `Server.initEngine`: the engine is created with `opts`. -/
def Server.initEngine (s : Server) (opts : ServerOptions) : Server :=
  { s with eio := some opts }

/-- `Server.Attach`; `none` is the panic on a value that is no port, address or
http server. -/
def Server.Attach (s : Server) (srv : Srv) (opts : Option ServerOptions) : Option Server :=
  match srv with
  | Srv.other => none
  | _ =>
    let opts :=
      match opts with
      | none => DefaultServerOptions
      | some opts => opts
    -- merge the options passed to the Socket.IO server
    let opts := opts.Assign (some s.opts)
    -- set engine.io path to `/socket.io`
    let opts := if opts.GetRawPath.isNone then opts.SetPath s._path else opts
    some (s.initEngine opts)

/-- `Server.ServeHandler`: the server and the options of the engine that serves. -/
def Server.ServeHandler (s : Server) (opts : Option ServerOptions) : Server × ServerOptions :=
  match s.eio with
  | some eio =>
    -- If an instance already exists, reuse it.
    (s, eio)
  | none =>
    let opts :=
      match opts with
      | none => DefaultServerOptions
      | some opts => opts
    let opts := opts.Assign (some s.opts)
    let opts := if opts.GetRawPath.isNone then opts.SetPath s._path else opts
    ({ s with eio := some opts }, opts)

/-- The values `&AdapterBuilder{}` and `&SessionAwareAdapterBuilder{}`, the
constructors of the in-memory adapter and of the session-aware adapter. -/
structure Builders where
  AdapterBuilder : AdapterConstructor
  SessionAwareAdapterBuilder : AdapterConstructor

/-- `Server.Construct` (connect timeout, client serving, parser and CORS are left
out); `none` is the panic of `Attach`. -/
def Server.Construct (s : Server) (order : RangeOrder) (builders : Builders)
    (srv : Option Srv) (opts : Option ServerOptions) : Option Server :=
  let opts :=
    match opts with
    | none => DefaultServerOptions
    | some opts => opts
  let s := s.SetPath opts.Path
  let s := { s with opts := opts }
  let s :=
    if opts.GetRawAdapter.isSome then
      s.SetAdapter order (opts.Adapter builders.AdapterBuilder)
    else
      if opts.GetRawConnectionStateRecovery.isSome then
        s.SetAdapter order builders.SessionAwareAdapterBuilder
      else
        s.SetAdapter order builders.AdapterBuilder
  let s := (s.Of order (Name.string "/") none).1
  match srv with
  | some srv => s.Attach srv none
  | none => some s

/-! ## The adapter: room registry and broadcast targets -/

/-- `BroadcastFlags` of adapter-type.go, with the `WriteOptions` it embeds. -/
structure BroadcastFlags where
  Volatile : Bool := false
  PreEncoded : Bool := false
  Local : Bool := false
  Broadcast : Bool := false
  Binary : Bool := false
  Timeout : Option Int := none
  ExpectSingleResponse : Bool := false

/-- `BroadcastOptions` of adapter-type.go; a `types.Set` is the list of its
elements, a nil set is the empty list. -/
structure BroadcastOptions where
  Rooms : List Room := []
  Except : List Room := []
  Flags : Option BroadcastFlags := none

/-- `PersistedPacket` of adapter-type.go. -/
structure PersistedPacket where
  Id : String
  EmittedAt : Int
  Data : Any
  Opts : Option BroadcastOptions := none

/-- Modelled from the spec: the room registry of the adapter (declared in another
file of the package), "two synchronized maps, room→set(ConnectionId) and
ConnectionId→set(Room)": `Rooms()` and `Sids()` of the `Adapter` interface. -/
structure RoomRegistry where
  rooms : Map Room (List SocketId)
  sids : Map SocketId (List Room)

/-- The registry without rooms and sockets. -/
def RoomRegistry.empty : RoomRegistry := ⟨⟨[]⟩, ⟨[]⟩⟩

/-- The sockets registered in a room, none if the room is not known. -/
def RoomRegistry.socketsOf (a : RoomRegistry) (room : Room) : List SocketId :=
  (a.rooms.Load room).getD []

/-- Modelled from the spec: `Adapter.SocketRooms(id)`, "RoomsOf(id) → set(Room)". -/
def RoomRegistry.SocketRooms (a : RoomRegistry) (id : SocketId) : List Room :=
  (a.sids.Load id).getD []

/-- Modelled from the spec: `Adapter.AddAll(id, rooms)`, "AddToRooms(id, rooms)":
the rooms are added to the rooms of the socket and the socket to each room. -/
def RoomRegistry.AddAll (a : RoomRegistry) (id : SocketId) (rooms : List Room) : RoomRegistry :=
  rooms.foldl
    (fun a room =>
      { rooms := a.rooms.Store room ((a.socketsOf room).insert id),
        sids := a.sids.Store id ((a.SocketRooms id).insert room) })
    { a with sids := a.sids.Store id (a.SocketRooms id) }

/-- Takes a socket out of a room of the room-to-sockets map; a room left without
sockets is deleted. -/
def RoomRegistry._del (rooms : Map Room (List SocketId)) (room : Room) (id : SocketId) :
    Map Room (List SocketId) :=
  match rooms.Load room with
  | some ids =>
    if (ids.filter fun x => x != id).isEmpty then rooms.Delete room
    else rooms.Store room (ids.filter fun x => x != id)
  | none => rooms

/-- Modelled from the spec: `Adapter.Del(id, room)`, "RemoveFromRoom(id, room)". -/
def RoomRegistry.Del (a : RoomRegistry) (id : SocketId) (room : Room) : RoomRegistry :=
  { rooms := RoomRegistry._del a.rooms room id,
    sids :=
      match a.sids.Load id with
      | some rooms => a.sids.Store id (rooms.filter fun x => x != room)
      | none => a.sids }

/-- Modelled from the spec: `Adapter.DelAll(id)`, "RemoveFromAllRooms(id)": the
socket is taken out of every room it has joined and forgotten. -/
def RoomRegistry.DelAll (a : RoomRegistry) (id : SocketId) : RoomRegistry :=
  match a.sids.Load id with
  | some rooms =>
    { rooms := rooms.foldl (fun m room => RoomRegistry._del m room id) a.rooms,
      sids := a.sids.Delete id }
  | none => a

/-- The sockets that are in one of the rooms (the union). -/
def RoomRegistry.inRooms (a : RoomRegistry) (rooms : List Room) : List SocketId :=
  (rooms.flatMap a.socketsOf).dedup

/-- Modelled from the spec: `Adapter.Sockets(rooms)`, "ConnectionsInRooms(rooms) →
set(ConnectionId) (union; empty input = everyone known)". -/
def RoomRegistry.Sockets (a : RoomRegistry) (rooms : List Room) : List SocketId :=
  if rooms.isEmpty then (a.sids.entries.map Prod.fst).dedup else a.inRooms rooms

/-- Modelled from the spec: the receivers of `Adapter.Broadcast(packet, opts)`,
"Resolve(target) → set(ConnectionId): start from `rooms` (or all), remove
connections in any `except` room". -/
def RoomRegistry.Resolve (a : RoomRegistry) (opts : BroadcastOptions) : List SocketId :=
  (a.Sockets opts.Rooms).filter fun id =>
    !(opts.Except.any fun room => (a.socketsOf room).contains id)

/-- An operation on the room registry. -/
inductive RegistryOp where
  | AddAll (id : SocketId) (rooms : List Room) : RegistryOp
  | Del (id : SocketId) (room : Room) : RegistryOp
  | DelAll (id : SocketId) : RegistryOp

/-- One operation on the room registry. -/
def RoomRegistry.apply (a : RoomRegistry) : RegistryOp → RoomRegistry
  | RegistryOp.AddAll id rooms => a.AddAll id rooms
  | RegistryOp.Del id room => a.Del id room
  | RegistryOp.DelAll id => a.DelAll id

/-- A sequence of operations on the registry of a new adapter. -/
def RoomRegistry.after (ops : List RegistryOp) : RoomRegistry :=
  ops.foldl RoomRegistry.apply RoomRegistry.empty

/-! ## The adapter: session store -/

/-- Modelled from the spec: a "RecoverableSession (= SessionToPersist +
disconnectedAt)" with its "missed-packet list", in the order the packets were
recorded. -/
structure RecoverableSession where
  toPersist : SessionToPersist
  DisconnectedAt : Int
  missedPackets : List PersistedPacket

/-- Modelled from the spec: the session store of the session-aware adapter
(declared in another file of the package), "keyed by privateId", with the window
`maxDisconnectionDuration`. -/
structure SessionStore where
  sessions : Map PrivateSessionId RecoverableSession
  maxDisconnectionDuration : Int

/-- Modelled from the spec: the packets to replay, the "missed-packet buffer is
filtered to entries after the packet whose id equals `offset` (unknown offset ⇒
replay everything)". -/
def missedAfter (buffer : List PersistedPacket) (offset : String) : List PersistedPacket :=
  if buffer.any fun p => p.Id == offset then
    (buffer.dropWhile fun p => p.Id != offset).tail
  else buffer

/-- Modelled from the spec: `Adapter.RestoreSession(pid, offset)` at the time
`now`: the "session must exist and be unexpired"; a session is "destroyed at
window expiry ... or on successful restoration". The result is the new store and
the Go result `(*Session, error)`. -/
def SessionStore.RestoreSession (store : SessionStore) (now : Int) (pid : PrivateSessionId)
    (offset : String) : SessionStore × Option Session × Option String :=
  match store.sessions.Load pid with
  | none => (store, none, none)
  | some session =>
    if session.DisconnectedAt + store.maxDisconnectionDuration < now then
      ({ store with sessions := store.sessions.Delete pid }, none, none)
    else
      ({ store with sessions := store.sessions.Delete pid },
        some ⟨session.toPersist,
          (missedAfter session.missedPackets offset).map fun p => p.Data⟩,
        none)

/-! ## Auxiliary definitions for the statements -/

/-- The events of middlewares `i, ..., i + d - 1` when each of them calls its
continuation once, with no error. -/
def passEvents (i d : Nat) : List RunEvent :=
  (List.range' i d).flatMap fun j => [RunEvent.middleware j, RunEvent.next j none]

/-- The indices of the middlewares invoked, in order. -/
def middlewareCalls : List RunEvent → List Nat
  | [] => []
  | RunEvent.middleware i :: es => i :: middlewareCalls es
  | _ :: es => middlewareCalls es

/-- The errors passed to a continuation, in order. -/
def nextErrors : List RunEvent → List ExtendedError
  | [] => []
  | RunEvent.next _ (some e) :: es => e :: nextErrors es
  | _ :: es => nextErrors es

/-- The relation between an event and the event right after it, by which a
middleware other than the first is invoked right after the continuation of the
middleware before it was called with no error. -/
def invokedAfterPass (a b : RunEvent) : Prop :=
  ∀ j, b = RunEvent.middleware (j + 1) → a = RunEvent.next j none

/-- The ways a chain ends in which every middleware calls its continuation at
most once, `k` being the last middleware invoked. -/
inductive ChainEnd (length k : Nat) : List RunEvent → Prop where
  /-- Every middleware passed. -/
  | accepted : k = length → ChainEnd length k [RunEvent.fn none]
  /-- Middleware `k` never called its continuation. -/
  | stalled : k < length → ChainEnd length k [RunEvent.middleware k]
  /-- Middleware `k` called its continuation with an error. -/
  | rejected (e : ExtendedError) : k < length →
      ChainEnd length k
        [RunEvent.middleware k, RunEvent.next k (some e), RunEvent.fn (some e)]

/-- User code `g` keeps the socket registered: it does not take the socket out
of the namespace's socket map. -/
def keepsSocket (socket : Socket) (g : Effect) : Prop :=
  ∀ m : Map SocketId Socket, m.Has socket.Id = true → (g socket m).Has socket.Id = true

/-- The payload of the connection-error for the middleware error `err`: for
protocol 3 (legacy) `err.Data()` if that is non-nil and otherwise the message
`err.Error()`; for every other protocol the map of `message` and `data`. -/
def connectErrorPayload (protocol : Nat) (err : ExtendedError) : Any :=
  if protocol = 3 then
    match err.Data with
    | Any.nil => Any.str err.Error
    | d => d
  else Any.map [("message", Any.str err.Error), ("data", err.Data)]

/-- Whether the action is a `Store` into the socket map (the socket is connected). -/
def Action.isStore : Action → Bool
  | Action.store _ => true
  | _ => false

/-- Whether the action sends a connection-error (the socket is rejected). -/
def Action.isError : Action → Bool
  | Action.error _ _ => true
  | _ => false

/-- The number of outcomes recorded in a trace: how many times a socket was
connected (stored) or rejected (sent a connection-error). -/
def outcomes (t : List Action) : Nat :=
  t.countP Action.isStore + t.countP Action.isError

/-- The previous session can be restored: connection-state recovery is
configured, the auth payload carries both a pid and an offset, and the adapter's
`RestoreSession` returns `session` with no error. -/
def restorable (n : Namespace) (auth : Auth) (session : Session) : Prop :=
  ∃ d pid offset, auth.decoded = some d
    ∧ SeesionData.GetPid d = (pid, true) ∧ SeesionData.GetOffset d = (offset, true)
    ∧ n.serverOpts.GetRawConnectionStateRecovery.isSome = true
    ∧ n.adapter.RestoreSession pid offset = (some session, none)

/-- The arguments of the calls of the callback `fn` of `_checkNamespace`, in order. -/
def fnArgs : List ServerEvent → List (Option Namespace)
  | [] => []
  | ServerEvent.fn nsp :: es => nsp :: fnArgs es
  | _ :: es => fnArgs es

/-- The predicate calls its callback once before it returns, with an error or
with `allow = false`, and not again. -/
def denies (name : String) (auth : Any) (f : ParentNspNameMatchFn) : Prop :=
  ∃ err allow, f.before name auth = [(err, allow)] ∧ f.after name auth = []
    ∧ (err.isSome = true ∨ allow = false)

/-- The predicate calls its callback once before it returns, with no error and
`allow = true`, and not again. -/
def allows (name : String) (auth : Any) (f : ParentNspNameMatchFn) : Prop :=
  f.before name auth = [(none, true)] ∧ f.after name auth = []

/-- The events of an allowing answer: the callback `fn` gets the namespace
registered under the name if there is one, else the child that the parent creates. -/
def allowEvents (s : Server) (name : String) (pnsp : ParentNamespace) : List ServerEvent :=
  match s._nsps.Load name with
  | some nsp => [ServerEvent.fn (some nsp)]
  | none => [ServerEvent.CreateChild pnsp.name name, ServerEvent.fn (some (NewNamespace s name))]

/-! ## Example values -/

/-- A middleware that calls `next(nil)`. -/
def pass : Middleware := fun _ => [none]

/-- A middleware that calls `next(err)` with the message `msg`. -/
def reject (msg : String) : Middleware := fun _ => [some ⟨msg, Any.nil⟩]

/-- A middleware that calls `next(nil)` twice. -/
def passTwice : Middleware := fun _ => [none, none]

/-- An adapter without sessions. -/
def exampleAdapter : Adapter := ⟨fun _ _ => (none, none), fun _ => none⟩

/-- An empty namespace `/`. -/
def exampleNamespace : Namespace :=
  { _ids := 0, name := "/", sockets := ⟨[]⟩, adapter := exampleAdapter, serverOpts := {},
    _fns := [], listeners := [], trace := [] }

/-- An open connection of the current protocol. -/
def exampleClient : Client := ⟨⟨"open", 4⟩, "sid-1"⟩

/-- An auth payload without reconnection fields. -/
def exampleAuth : Auth := ⟨Any.nil, some none⟩

/-- A fresh socket of the example client. -/
def exampleSocket : Socket := NewSocket exampleNamespace exampleClient exampleAuth none

/-- The namespace of the short-circuit scenario: `[pass, reject("nope"), pass]`. -/
def shortCircuitNamespace : Namespace :=
  ((exampleNamespace.Use pass).Use (reject "nope")).Use pass

/-- A listener that leaves the socket map as it is. -/
def idleListener (tag : Nat) : Listener := ⟨tag, fun _ m => m⟩

/-- The example namespace with a listener of `connect` and one of `connection`. -/
def listeningNamespace : Namespace :=
  { exampleNamespace with listeners := [("connect", idleListener 1), ("connection", idleListener 2)] }

/-- User code that takes the socket out of the socket map, which is what
`Namespace.remove` does to it (the `LoadAndDelete` of the socket's id). -/
def removingEffect : Effect := fun socket m => m.Delete socket.Id

/-- A listener that removes the socket from the namespace. -/
def removingListener (tag : Nat) : Listener := ⟨tag, removingEffect⟩

/-- The example namespace with a listener of `connect` that removes the socket and
a listener of `connection` that leaves the map alone. -/
def removingNamespace : Namespace :=
  { exampleNamespace with
    listeners := [("connect", removingListener 1), ("connection", idleListener 2)] }

/-- A middleware that calls `next(nil)` and then `next(err)`. -/
def passThenReject : Middleware := fun _ => [none, some ⟨"late", Any.nil⟩]

/-- A connection of the legacy protocol. -/
def legacyConn : Conn := ⟨"open", 3⟩

/-- The namespace whose only middleware calls `next(nil)` twice. -/
def twiceNamespace : Namespace := exampleNamespace.Use passTwice

/-- The namespace whose only middleware calls `next(nil)` and then `next(err)`. -/
def lateRejectNamespace : Namespace := exampleNamespace.Use passThenReject

/-- A session kept by the adapter. -/
def storedSession : Session := ⟨⟨"sid-0", "pid-0", ["room-1"], Any.nil⟩, []⟩

/-- An adapter that restores `storedSession` for the private id `pid-0`. -/
def recoveringAdapter : Adapter :=
  ⟨fun pid _ => if pid = "pid-0" then (some storedSession, none) else (none, none),
    fun _ => none⟩

/-- A namespace of a server with connection-state recovery configured. -/
def recoveringNamespace : Namespace :=
  { exampleNamespace with
    adapter := recoveringAdapter, serverOpts := { connectionStateRecovery := some {} } }

/-- The auth payload of a reconnection. -/
def reconnectAuth : Auth := ⟨Any.nil, some (some ⟨some "pid-0", some "offset-0"⟩)⟩

/-- An adapter constructor. -/
def exampleConstructor : AdapterConstructor := ⟨0, fun _ => exampleAdapter⟩

/-- Another adapter constructor. -/
def otherConstructor : AdapterConstructor := ⟨1, fun _ => recoveringAdapter⟩

/-- A server without namespaces (`MakeServer`). -/
def emptyServer : Server :=
  { _nsps := ⟨[]⟩, parentNsps := ⟨[]⟩, parentNamespacesFromRegExp := ⟨[]⟩,
    _adapter := exampleConstructor, opts := {}, parentCount := 0, _closures := 0, trace := [] }

/-- A visit of the entries of a map, the most recently stored first. -/
def newestFirst : RangeOrder := ⟨fun l => l, fun l => List.Perm.refl l⟩

/-- A visit of the entries of a map in the order of the stores. -/
def oldestFirst : RangeOrder := ⟨fun l => l.reverse, fun l => List.reverse_perm l⟩

/-- A predicate that allows every name, at once. -/
def allowAll (tag : Nat) : ParentNspNameMatchFn :=
  ⟨MatchFnKey.ptr tag, fun _ _ => [(none, true)], fun _ _ => []⟩

/-- A predicate that denies every name, at once. -/
def denyAll (tag : Nat) : ParentNspNameMatchFn :=
  ⟨MatchFnKey.ptr tag, fun _ _ => [(none, false)], fun _ _ => []⟩

/-- A predicate that allows every name, but only after it has returned. -/
def allowLater (tag : Nat) : ParentNspNameMatchFn :=
  ⟨MatchFnKey.ptr tag, fun _ _ => [], fun _ _ => [(none, true)]⟩

/-- A regular expression that matches the name `/dyn-1`. -/
def dynRegexp : Regexp := ⟨0, fun name => name == "/dyn-1"⟩

/-- A server with two parent namespaces, registered one after the other, whose
predicates both allow every name. -/
def twoParentsServer : Server :=
  ((emptyServer.Of newestFirst (Name.matchFn (allowAll 1)) none).1.Of newestFirst
    (Name.matchFn (allowAll 2)) none).1

/-- A server with one parent namespace whose predicate answers after it has returned. -/
def asyncServer : Server := (emptyServer.Of newestFirst (Name.matchFn (allowLater 1)) none).1

/-- A server with one parent namespace registered for a regular expression. -/
def regexServer : Server := (emptyServer.Of newestFirst (Name.regexp dynRegexp) none).1

/-- A server with the namespace `/chat`. -/
def chatServer : Server := (emptyServer.Of newestFirst (Name.string "/chat") none).1

/-- Two adapter constructors standing for `&AdapterBuilder{}` and
`&SessionAwareAdapterBuilder{}`. -/
def exampleBuilders : Builders :=
  ⟨⟨10, fun _ => exampleAdapter⟩, ⟨11, fun _ => recoveringAdapter⟩⟩

/-- A server constructed with the path `/custom/` in its options. -/
def customPathServer : Option Server :=
  emptyServer.Construct newestFirst exampleBuilders none (some { path := some "/custom/" })

/-- A server constructed with the default options whose path is set afterwards. -/
def movedPathServer : Option Server :=
  (emptyServer.Construct newestFirst exampleBuilders none none).map fun s => s.SetPath "/moved"

/-- Three missed packets. -/
def examplePackets : List PersistedPacket :=
  [⟨"p1", 1, Any.str "one", none⟩, ⟨"p2", 2, Any.str "two", none⟩,
    ⟨"p3", 3, Any.str "three", none⟩]

/-- A store with one session that was disconnected at the time 1000. -/
def exampleStore : SessionStore :=
  ⟨⟨[("pid-0", ⟨⟨"sid-0", "pid-0", ["room-1"], Any.nil⟩, 1000, examplePackets⟩)]⟩,
    120000⟩

/-- A registry: `s1` in the rooms `A` and `B`, `s2` in `A`, `s3` in `B`. -/
def exampleRegistry : RoomRegistry :=
  RoomRegistry.after [RegistryOp.AddAll "s1" ["A", "B"], RegistryOp.AddAll "s2" ["A"],
    RegistryOp.AddAll "s3" ["B"]]


/-! ## Lemmas on the middleware chain -/

/-- One unfolding of the closure at an index in range. -/
theorem run_inner_succ (fns : List Middleware) (socket : Socket) (fuel i : Nat)
    (h : i < fns.length) :
    Namespace.run.inner fns socket (fuel + 1) i =
      RunEvent.middleware i :: (fns[i] socket).flatMap fun err =>
        RunEvent.next i err ::
          (match err with
          | some e => [RunEvent.fn (some e)]
          | none =>
            if i ≥ fns.length - 1 then [RunEvent.fn none]
            else Namespace.run.inner fns socket fuel (i + 1)) := by
  simp [Namespace.run.inner, List.getElem?_eq_getElem h]

theorem fnCalls_append (a b : List RunEvent) : fnCalls (a ++ b) = fnCalls a ++ fnCalls b := by
  induction a with
  | nil => rfl
  | cons x xs ih => cases x <;> simp [fnCalls, ih]

theorem passEvents_succ (i d : Nat) :
    passEvents i (d + 1) =
      RunEvent.middleware i :: RunEvent.next i none :: passEvents (i + 1) d := by
  simp [passEvents, List.range'_succ]

theorem fnCalls_passEvents (i d : Nat) : fnCalls (passEvents i d) = [] := by
  induction d generalizing i with
  | zero => rfl
  | succ d ih => rw [passEvents_succ]; simpa [fnCalls] using ih (i + 1)

/-- While the middlewares call their continuation once with no error, the chain
moves on by one middleware at a time. -/
theorem run_inner_pass (fns : List Middleware) (socket : Socket) (d : Nat) :
    ∀ (fuel i : Nat), i + d < fns.length →
      (∀ j f, i ≤ j → j < i + d → fns[j]? = some f → f socket = [none]) →
      Namespace.run.inner fns socket (fuel + d) i =
        passEvents i d ++ Namespace.run.inner fns socket fuel (i + d) := by
  induction d with
  | zero => intro fuel i _ _; simp [passEvents]
  | succ d ih =>
    intro fuel i hlen hpass
    have hi : i < fns.length := by omega
    have hcalls : fns[i] socket = [none] :=
      hpass i fns[i] (le_refl i) (by omega) (List.getElem?_eq_getElem hi)
    have hnot : ¬ (i ≥ fns.length - 1) := by omega
    have hrec := ih fuel (i + 1) (by omega)
      (fun j f h1 h2 h3 => hpass j f (by omega) (by omega) h3)
    have e1 : fuel + (d + 1) = (fuel + d) + 1 := by omega
    have e2 : i + 1 + d = i + (d + 1) := by omega
    rw [e1, run_inner_succ fns socket (fuel + d) i hi, hcalls]
    simp only [List.flatMap_singleton, if_neg hnot, hrec, e2]
    simp [passEvents_succ]

theorem mem_passEvents_middleware (i d j : Nat) :
    RunEvent.middleware j ∈ passEvents i d ↔ i ≤ j ∧ j < i + d := by
  simp [passEvents, List.mem_flatMap, List.mem_range'_1]

/-! ## Properties of the middleware chain -/

/-- C1: `Namespace.run` short-circuits on the first middleware error. When the
middlewares before index `k` each call their continuation with no error and
middleware `k` calls it with the error `e`, the chain invokes the middlewares
`0, ..., k` in turn and then calls the final callback with `e`: no middleware
after `k` is invoked and the final callback receives exactly `e`. -/
theorem run_short_circuits_on_first_error (n : Namespace) (socket : Socket) (k : Nat)
    (fk : Middleware) (e : ExtendedError)
    (hk : n._fns[k]? = some fk) (hfail : fk socket = [some e])
    (hpass : ∀ j f, j < k → n._fns[j]? = some f → f socket = [none]) :
    n.run socket =
        passEvents 0 k ++
          [RunEvent.middleware k, RunEvent.next k (some e), RunEvent.fn (some e)]
      ∧ (∀ j, k < j → RunEvent.middleware j ∉ n.run socket)
      ∧ fnCalls (n.run socket) = [some e] := by
  have hlt : k < n._fns.length := (List.getElem?_eq_some.mp hk).1
  have hget : n._fns[k] = fk := (List.getElem?_eq_some.mp hk).2
  have hrun : n.run socket =
      passEvents 0 k ++
        [RunEvent.middleware k, RunEvent.next k (some e), RunEvent.fn (some e)] := by
    obtain ⟨fuel, hfuel⟩ : ∃ fuel, n._fns.length = (fuel + 1) + k := ⟨n._fns.length - k - 1, by omega⟩
    have hpos : n._fns.length > 0 := by omega
    simp only [Namespace.run, if_pos hpos]
    rw [hfuel, run_inner_pass n._fns socket k (fuel + 1) 0 (by omega)
      (fun j f _ h2 h3 => hpass j f (by omega) h3)]
    rw [Nat.zero_add, run_inner_succ n._fns socket fuel k hlt, hget, hfail]
    simp
  refine ⟨hrun, ?_, ?_⟩
  · intro j hj hmem
    rw [hrun] at hmem
    simp [mem_passEvents_middleware] at hmem
    omega
  · rw [hrun, fnCalls_append, fnCalls_passEvents]
    rfl

/-- C1, witness: `[pass, reject("nope"), pass]`. -/
theorem run_short_circuits_on_first_error_witness :
    shortCircuitNamespace.run exampleSocket =
        passEvents 0 1 ++
          [RunEvent.middleware 1, RunEvent.next 1 (some ⟨"nope", Any.nil⟩),
            RunEvent.fn (some ⟨"nope", Any.nil⟩)]
      ∧ (∀ j, 1 < j → RunEvent.middleware j ∉ shortCircuitNamespace.run exampleSocket)
      ∧ fnCalls (shortCircuitNamespace.run exampleSocket) = [some ⟨"nope", Any.nil⟩] :=
  run_short_circuits_on_first_error shortCircuitNamespace exampleSocket 1 (reject "nope")
    ⟨"nope", Any.nil⟩ rfl rfl
    (by
      intro j f hj h
      obtain rfl : j = 0 := by omega
      have : f = pass := by
        simpa [shortCircuitNamespace, exampleNamespace, Namespace.Use] using h.symm
      rw [this]; rfl)

/-! ## Induction along the chain -/

/-- A property of the events of `run(i)` holds as soon as it carries over from
the events `rest` of `run(i + 1)` to those of `run(i)`. -/
theorem run_inner_induction (fns : List Middleware) (socket : Socket)
    (P : Nat → List RunEvent → Prop)
    (step : ∀ (i : Nat) (h : i < fns.length) (rest : List RunEvent),
      (i + 1 < fns.length → P (i + 1) rest) →
      P i (RunEvent.middleware i :: (fns[i] socket).flatMap fun err =>
        RunEvent.next i err ::
          (match err with
          | some e => [RunEvent.fn (some e)]
          | none => if i ≥ fns.length - 1 then [RunEvent.fn none] else rest))) :
    ∀ (fuel i : Nat), i + fuel = fns.length → 0 < fuel →
      P i (Namespace.run.inner fns socket fuel i) := by
  intro fuel
  induction fuel with
  | zero => intro i _ h; omega
  | succ fuel ih =>
    intro i hlen _
    have hi : i < fns.length := by omega
    rw [run_inner_succ fns socket fuel i hi]
    exact step i hi _ (fun h => ih (i + 1) (by omega) (by omega))

/-- Every event of `run(i)` belongs to a middleware of index at least `i`. -/
theorem run_inner_index (fns : List Middleware) (socket : Socket) (fuel i : Nat)
    (hlen : i + fuel = fns.length) (hpos : 0 < fuel) :
    (∀ j, RunEvent.middleware j ∈ Namespace.run.inner fns socket fuel i → i ≤ j)
      ∧ (∀ j err, RunEvent.next j err ∈ Namespace.run.inner fns socket fuel i → i ≤ j) := by
  refine run_inner_induction fns socket
    (fun i T => (∀ j, RunEvent.middleware j ∈ T → i ≤ j)
      ∧ (∀ j err, RunEvent.next j err ∈ T → i ≤ j)) ?_ fuel i hlen hpos
  intro i hi rest ih
  constructor
  · intro j hj
    simp only [List.mem_cons, RunEvent.middleware.injEq, List.mem_flatMap] at hj
    rcases hj with h | ⟨c, _, hc⟩
    · omega
    · rcases hc with hc | hc
      · cases hc
      · cases c with
        | some e => simp at hc
        | none =>
          by_cases hlast : i ≥ fns.length - 1
          · simp [hlast] at hc
          · simp only [if_neg hlast] at hc
            have := (ih (by omega)).1 j hc
            omega
  · intro j err hj
    simp only [List.mem_cons, List.mem_flatMap] at hj
    rcases hj with h | ⟨c, _, hc⟩
    · cases h
    · rcases hc with hc | hc
      · cases hc; exact le_refl _
      · cases c with
        | some e => simp at hc
        | none =>
          by_cases hlast : i ≥ fns.length - 1
          · simp [hlast] at hc
          · simp only [if_neg hlast] at hc
            have := (ih (by omega)).2 j err hc
            omega

/-- The final callback is called with no error exactly when every middleware
from `i` on has called its continuation with no error. -/
theorem run_inner_fn_none_iff (fns : List Middleware) (socket : Socket) :
    ∀ (fuel i : Nat), i + fuel = fns.length → 0 < fuel →
      (RunEvent.fn none ∈ Namespace.run.inner fns socket fuel i ↔
        ∀ j, i ≤ j → j < fns.length →
          RunEvent.next j none ∈ Namespace.run.inner fns socket fuel i) := by
  intro fuel
  induction fuel with
  | zero => intro i _ h; omega
  | succ fuel ih =>
    intro i hlen _
    have hi : i < fns.length := by omega
    rw [run_inner_succ fns socket fuel i hi]
    by_cases hlast : i ≥ fns.length - 1
    · simp only [if_pos hlast]
      constructor
      · intro h j hj1 hj2
        obtain rfl : j = i := by omega
        simp only [List.mem_cons, List.mem_flatMap] at h ⊢
        rcases h with h | ⟨c, hc, h⟩
        · cases h
        · cases c with
          | some e => simp at h
          | none => exact Or.inr ⟨none, hc, Or.inl rfl⟩
      · intro h
        have h := h i (le_refl i) hi
        simp only [List.mem_cons, List.mem_flatMap] at h ⊢
        rcases h with h | ⟨c, hc, h⟩
        · cases h
        · cases c with
          | some e => simp at h
          | none => exact Or.inr ⟨none, hc, Or.inr (by simp)⟩
    · simp only [if_neg hlast]
      have hidx := run_inner_index fns socket fuel (i + 1) (by omega) (by omega)
      have ih := ih (i + 1) (by omega) (by omega)
      constructor
      · intro h j hj1 hj2
        simp only [List.mem_cons, List.mem_flatMap] at h ⊢
        rcases h with h | ⟨c, hc, h⟩
        · cases h
        · cases c with
          | some e => simp at h
          | none =>
            rcases h with h | h
            · cases h
            · refine Or.inr ⟨none, hc, ?_⟩
              by_cases hji : j = i
              · subst hji; exact Or.inl rfl
              · exact Or.inr (ih.mp h j (by omega) hj2)
      · intro h
        have hnone : none ∈ fns[i] socket := by
          have h := h i (le_refl i) hi
          simp only [List.mem_cons, List.mem_flatMap] at h
          rcases h with h | ⟨c, hc, h⟩
          · cases h
          · cases c with
            | some e => simp at h
            | none => exact hc
        have hrest : RunEvent.fn none ∈ Namespace.run.inner fns socket fuel (i + 1) := by
          apply ih.mpr
          intro j hj1 hj2
          have h := h j (by omega) hj2
          simp only [List.mem_cons, List.mem_flatMap] at h
          rcases h with h | ⟨c, hc, h⟩
          · cases h
          · cases c with
            | some e =>
              rcases h with h | h
              · cases h
              · simp at h
            | none =>
              rcases h with h | h
              · cases h; omega
              · exact h
        simp only [List.mem_cons, List.mem_flatMap]
        exact Or.inr ⟨none, hnone, Or.inr hrest⟩

/-- C4: `Namespace.run` calls the final callback with no error exactly when every
registered middleware has called its continuation with no error; with an empty
middleware list it calls the final callback with no error at once, and only once. -/
theorem run_accepts_iff_all_pass (n : Namespace) (socket : Socket) :
    (RunEvent.fn none ∈ n.run socket ↔
        ∀ j, j < n._fns.length → RunEvent.next j none ∈ n.run socket)
      ∧ (n._fns = [] → n.run socket = [RunEvent.fn none]) := by
  constructor
  · by_cases hpos : n._fns.length > 0
    · simp only [Namespace.run, if_pos hpos]
      have := run_inner_fn_none_iff n._fns socket n._fns.length 0 (by omega) hpos
      simpa using this
    · simp only [Namespace.run, if_neg hpos]
      constructor
      · intro _ j hj; omega
      · intro _; simp
  · intro h
    simp [Namespace.run, h]

/-- C4, witness: the empty chain and the chain `[pass, pass]`. -/
theorem run_accepts_iff_all_pass_witness :
    exampleNamespace.run exampleSocket = [RunEvent.fn none]
      ∧ RunEvent.fn none ∈ ((exampleNamespace.Use pass).Use pass).run exampleSocket :=
  ⟨(run_accepts_iff_all_pass exampleNamespace exampleSocket).2 rfl,
    (run_accepts_iff_all_pass ((exampleNamespace.Use pass).Use pass) exampleSocket).1.mpr
      (by
        intro j hj
        have hj : j < 2 := hj
        have e : ((exampleNamespace.Use pass).Use pass).run exampleSocket =
            [RunEvent.middleware 0, RunEvent.next 0 none, RunEvent.middleware 1,
              RunEvent.next 1 none, RunEvent.fn none] := rfl
        rw [e]
        interval_cases j <;> simp)⟩

/-! ## Chains in which every middleware calls its continuation at most once -/

/-- Such a chain is a run of passing middlewares followed by one of three endings. -/
theorem run_inner_shape (fns : List Middleware) (socket : Socket)
    (honce : ∀ f ∈ fns, (f socket).length ≤ 1) (fuel i : Nat)
    (hlen : i + fuel = fns.length) (hpos : 0 < fuel) :
    ∃ d ending, Namespace.run.inner fns socket fuel i = passEvents i d ++ ending
      ∧ ChainEnd fns.length (i + d) ending := by
  refine run_inner_induction fns socket
    (fun i T => ∃ d ending, T = passEvents i d ++ ending ∧ ChainEnd fns.length (i + d) ending)
    ?_ fuel i hlen hpos
  intro i hi rest ih
  have hle := honce fns[i] (List.getElem_mem hi)
  match hcalls : fns[i] socket with
  | [] => exact ⟨0, _, by simp [passEvents], ChainEnd.stalled hi⟩
  | [some e] => exact ⟨0, _, by simp [passEvents], ChainEnd.rejected e hi⟩
  | [none] =>
    by_cases hlast : i ≥ fns.length - 1
    · refine ⟨1, [RunEvent.fn none], ?_, ChainEnd.accepted (by omega)⟩
      simp [passEvents_succ, passEvents, hlast]
    · obtain ⟨d, ending, hrest, hend⟩ := ih (by omega)
      refine ⟨d + 1, ending, ?_, ?_⟩
      · simp [passEvents_succ, hlast, hrest]
      · have e : i + (d + 1) = i + 1 + d := by omega
        rw [e]; exact hend
  | _ :: _ :: _ => rw [hcalls] at hle; simp at hle

/-- The shape of the whole chain. -/
theorem run_shape (n : Namespace) (socket : Socket)
    (honce : ∀ f ∈ n._fns, (f socket).length ≤ 1) :
    ∃ d ending, n.run socket = passEvents 0 d ++ ending ∧ ChainEnd n._fns.length d ending := by
  by_cases hpos : n._fns.length > 0
  · obtain ⟨d, ending, h1, h2⟩ :=
      run_inner_shape n._fns socket honce n._fns.length 0 (by omega) hpos
    refine ⟨d, ending, ?_, ?_⟩
    · simp only [Namespace.run, if_pos hpos]; exact h1
    · simpa using h2
  · refine ⟨0, [RunEvent.fn none], ?_, ChainEnd.accepted (by omega)⟩
    simp [Namespace.run, hpos, passEvents]

theorem middlewareCalls_append (a b : List RunEvent) :
    middlewareCalls (a ++ b) = middlewareCalls a ++ middlewareCalls b := by
  induction a with
  | nil => rfl
  | cons x xs ih => cases x <;> simp [middlewareCalls, ih]

theorem middlewareCalls_passEvents (i d : Nat) :
    middlewareCalls (passEvents i d) = List.range' i d := by
  induction d generalizing i with
  | zero => rfl
  | succ d ih => rw [passEvents_succ]; simp [middlewareCalls, ih (i + 1), List.range'_succ]

theorem nextErrors_append (a b : List RunEvent) :
    nextErrors (a ++ b) = nextErrors a ++ nextErrors b := by
  induction a with
  | nil => rfl
  | cons x xs ih =>
    cases x with
    | next j err => cases err <;> simp [nextErrors, ih]
    | _ => simp [nextErrors, ih]

theorem nextErrors_passEvents (i d : Nat) : nextErrors (passEvents i d) = [] := by
  induction d generalizing i with
  | zero => rfl
  | succ d ih => rw [passEvents_succ]; simpa [nextErrors] using ih (i + 1)

/-- The events after the calls of a continuation form a chain when each call does. -/
theorem chain_flatMap_next (i : Nat) (tail : Option ExtendedError → List RunEvent)
    (calls : List (Option ExtendedError))
    (h : ∀ c ∈ calls, List.Chain' invokedAfterPass (RunEvent.next i c :: tail c)) :
    List.Chain' invokedAfterPass (calls.flatMap fun err => RunEvent.next i err :: tail err)
      ∧ ∀ y ∈ (calls.flatMap fun err => RunEvent.next i err :: tail err).head?,
          ∃ c, y = RunEvent.next i c := by
  induction calls with
  | nil => simp
  | cons c cs ih =>
    have ih := ih (fun c hc => h c (List.mem_cons_of_mem _ hc))
    constructor
    · rw [List.flatMap_cons, List.chain'_append]
      refine ⟨h c (List.mem_cons_self _ _), ih.1, ?_⟩
      intro x _ y hy j hj
      obtain ⟨c', hc'⟩ := ih.2 y hy
      rw [hc'] at hj
      cases hj
    · intro y hy
      simp only [List.flatMap_cons, List.cons_append, List.head?_cons, Option.mem_def,
        Option.some.injEq] at hy
      exact ⟨c, hy.symm⟩

/-- In the events of `run(i)` every middleware after `i` is invoked right after
the continuation of the one before it was called with no error. -/
theorem run_inner_chain (fns : List Middleware) (socket : Socket) (fuel i : Nat)
    (hlen : i + fuel = fns.length) (hpos : 0 < fuel) :
    List.Chain' invokedAfterPass (Namespace.run.inner fns socket fuel i)
      ∧ (Namespace.run.inner fns socket fuel i).head? = some (RunEvent.middleware i) := by
  refine run_inner_induction fns socket
    (fun i T => List.Chain' invokedAfterPass T ∧ T.head? = some (RunEvent.middleware i))
    ?_ fuel i hlen hpos
  intro i hi rest ih
  refine ⟨?_, rfl⟩
  have key := chain_flatMap_next i
    (fun err => match err with
      | some e => [RunEvent.fn (some e)]
      | none => if i ≥ fns.length - 1 then [RunEvent.fn none] else rest)
    (fns[i] socket) ?_
  · rw [List.chain'_cons']
    refine ⟨?_, key.1⟩
    intro y hy j hj
    obtain ⟨c, hc⟩ := key.2 y hy
    rw [hc] at hj
    cases hj
  · intro c _
    cases c with
    | some e =>
      simp only [List.chain'_cons, List.chain'_singleton, and_true]
      intro j hj; cases hj
    | none =>
      by_cases hlast : i ≥ fns.length - 1
      · simp only [if_pos hlast, List.chain'_cons, List.chain'_singleton, and_true]
        intro j hj; cases hj
      · simp only [if_neg hlast]
        obtain ⟨h1, h2⟩ := ih (by omega)
        rw [List.chain'_cons']
        refine ⟨?_, h1⟩
        intro y hy j hj
        rw [h2] at hy
        simp only [Option.mem_def, Option.some.injEq] at hy
        rw [← hy] at hj
        cases hj
        rfl

/-- C3: `Namespace.run` invokes the middlewares one at a time, in the order in
which `Use` registered them. `Use` appends to the list; middleware `j + 1` is
invoked only right after middleware `j` has called its continuation with no
error; and when every middleware calls its continuation at most once, the
middlewares invoked are `0, 1, ..., m - 1` in this order, each of them once. -/
theorem run_invokes_in_registration_order (n : Namespace) (socket : Socket) :
    (∀ fn, (n.Use fn)._fns = n._fns ++ [fn])
      ∧ (∀ pre j post, n.run socket = pre ++ RunEvent.middleware (j + 1) :: post →
          ∃ pre', pre = pre' ++ [RunEvent.next j none])
      ∧ ((∀ f ∈ n._fns, (f socket).length ≤ 1) →
          ∃ m, m ≤ n._fns.length ∧ middlewareCalls (n.run socket) = List.range m) := by
  refine ⟨fun _ => rfl, ?_, ?_⟩
  · have hchain : List.Chain' invokedAfterPass (n.run socket)
        ∧ ∀ j, (n.run socket).head? ≠ some (RunEvent.middleware (j + 1)) := by
      by_cases hpos : n._fns.length > 0
      · simp only [Namespace.run, if_pos hpos]
        obtain ⟨h1, h2⟩ := run_inner_chain n._fns socket n._fns.length 0 (by omega) hpos
        refine ⟨h1, ?_⟩
        intro j hj
        rw [h2] at hj
        cases hj
      · simp only [Namespace.run, if_neg hpos]
        refine ⟨List.chain'_singleton _, ?_⟩
        intro j hj
        cases hj
    intro pre j post hrun
    rcases List.eq_nil_or_concat pre with hnil | ⟨pre', a, hpre⟩
    · subst hnil
      rw [hrun] at hchain
      exact absurd rfl (hchain.2 j)
    · rw [List.concat_eq_append] at hpre
      subst hpre
      refine ⟨pre', ?_⟩
      rw [hrun, List.append_assoc, List.singleton_append, List.chain'_split] at hchain
      have := (List.chain'_cons.mp hchain.1.2).1 j rfl
      rw [this]
  · intro honce
    obtain ⟨d, ending, hrun, hend⟩ := run_shape n socket honce
    rw [hrun, middlewareCalls_append, middlewareCalls_passEvents, ← List.range_eq_range']
    cases hend with
    | accepted h => exact ⟨d, by omega, by simp [middlewareCalls]⟩
    | stalled h => exact ⟨d + 1, by omega, by simp [middlewareCalls, List.range_succ]⟩
    | rejected e h => exact ⟨d + 1, by omega, by simp [middlewareCalls, List.range_succ]⟩

/-- C3, witness: in `[pass, reject("nope"), pass]` the second middleware is
invoked right after the first one passed, and the middlewares invoked are 0 and 1. -/
theorem run_invokes_in_registration_order_witness :
    (∃ pre', [RunEvent.middleware 0, RunEvent.next 0 none] = pre' ++ [RunEvent.next 0 none])
      ∧ ∃ m, m ≤ shortCircuitNamespace._fns.length
          ∧ middlewareCalls (shortCircuitNamespace.run exampleSocket) = List.range m :=
  ⟨(run_invokes_in_registration_order shortCircuitNamespace exampleSocket).2.1
      [RunEvent.middleware 0, RunEvent.next 0 none] 0
      [RunEvent.next 1 (some ⟨"nope", Any.nil⟩), RunEvent.fn (some ⟨"nope", Any.nil⟩)] rfl,
    (run_invokes_in_registration_order shortCircuitNamespace exampleSocket).2.2
      (by
        intro f hf
        simp only [shortCircuitNamespace, exampleNamespace, Namespace.Use, List.nil_append,
          List.cons_append, List.mem_cons, List.mem_singleton, List.not_mem_nil, or_false] at hf
        rcases hf with h | h | h <;> rw [h] <;> simp [pass, reject])⟩

/-! ## The socket map -/

theorem Map.Has_Store {κ ν : Type} [DecidableEq κ] (m : Map κ ν) (key : κ) (value : ν) :
    (m.Store key value).Has key = true := by
  simp [Map.Has, Map.Load, Map.Store]

theorem Map.Load_Store {κ ν : Type} [DecidableEq κ] (m : Map κ ν) (key : κ) (value : ν) :
    (m.Store key value).Load key = some value := by
  simp [Map.Load, Map.Store]

theorem Map.Load_Delete {κ ν : Type} [DecidableEq κ] (m : Map κ ν) (key : κ) :
    (m.Delete key).Load key = none := by
  simp [Map.Load, Map.Delete, List.find?_eq_none]

/-! ## The connection pipeline -/

/-- The listeners called by one `EmitReserved` add listener actions only. -/
theorem emit_listeners (ev : String) (socket : Socket) (ls : List Listener) :
    ∀ n0 : Namespace,
      ∃ L, (ls.foldl
            (fun n l =>
              { n.log [Action.listener ev l.tag socket.Id (n.sockets.Has socket.Id)] with
                sockets := l.effect socket n.sockets }) n0).trace = n0.trace ++ L
        ∧ (ls.foldl
            (fun n l =>
              { n.log [Action.listener ev l.tag socket.Id (n.sockets.Has socket.Id)] with
                sockets := l.effect socket n.sockets }) n0).listeners = n0.listeners
        ∧ (∀ a ∈ L, ∃ tag q, a = Action.listener ev tag socket.Id q)
        ∧ ((∀ l ∈ ls, keepsSocket socket l.effect) → n0.sockets.Has socket.Id = true →
            (∀ a ∈ L, ∃ tag, a = Action.listener ev tag socket.Id true)
              ∧ (ls.foldl
                  (fun n l =>
                    { n.log [Action.listener ev l.tag socket.Id (n.sockets.Has socket.Id)] with
                      sockets := l.effect socket n.sockets }) n0).sockets.Has socket.Id
                  = true) := by
  induction ls with
  | nil => intro n0; exact ⟨[], by simp, rfl, by simp, fun _ h => ⟨by simp, h⟩⟩
  | cons l ls ih =>
    intro n0
    obtain ⟨L, h1, h2, h3, h4⟩ := ih
      { n0.log [Action.listener ev l.tag socket.Id (n0.sockets.Has socket.Id)] with
        sockets := l.effect socket n0.sockets }
    refine ⟨Action.listener ev l.tag socket.Id (n0.sockets.Has socket.Id) :: L, ?_, ?_, ?_, ?_⟩
    · rw [List.foldl_cons, h1]; simp [Namespace.log]
    · rw [List.foldl_cons, h2]; rfl
    · intro a ha
      rcases List.mem_cons.mp ha with h | h
      · exact ⟨l.tag, _, h⟩
      · exact h3 a h
    · intro hkeep hhas
      have hl := hkeep l (List.mem_cons_self _ _)
      obtain ⟨h5, h6⟩ := h4 (fun l' hl' => hkeep l' (List.mem_cons_of_mem _ hl')) (hl _ hhas)
      refine ⟨?_, by rw [List.foldl_cons]; exact h6⟩
      intro a ha
      rcases List.mem_cons.mp ha with h | h
      · exact ⟨l.tag, by rw [h, hhas]⟩
      · exact h5 a h

/-- One `EmitReserved`: the emit, then the listeners of the event. -/
theorem EmitReserved_trace (n : Namespace) (ev : String) (socket : Socket) :
    ∃ L, (n.EmitReserved ev socket).trace = n.trace ++ Action.emitReserved ev socket.Id :: L
      ∧ (n.EmitReserved ev socket).listeners = n.listeners
      ∧ (∀ a ∈ L, ∃ tag q, a = Action.listener ev tag socket.Id q)
      ∧ ((∀ l ∈ n.listeners, l.1 = ev → keepsSocket socket l.2.effect) →
          n.sockets.Has socket.Id = true →
          (∀ a ∈ L, ∃ tag, a = Action.listener ev tag socket.Id true)
            ∧ (n.EmitReserved ev socket).sockets.Has socket.Id = true) := by
  obtain ⟨L, h1, h2, h3, h4⟩ := emit_listeners ev socket
    ((n.listeners.filter fun l => l.1 == ev).map Prod.snd) (n.log [Action.emitReserved ev socket.Id])
  refine ⟨L, ?_, ?_, h3, ?_⟩
  · simp only [Namespace.EmitReserved, h1]; simp [Namespace.log]
  · simp only [Namespace.EmitReserved, h2]; rfl
  · intro hkeep hhas
    apply h4
    · intro l hl
      obtain ⟨p, hp, rfl⟩ := List.mem_map.mp hl
      exact hkeep p (List.mem_of_mem_filter hp) (by simpa using (List.mem_filter.mp hp).2)
    · exact hhas

/-- The first steps of `_doConnect`: the state once the socket is tracked and
the hook and the callback have run, from which the two events are emitted. -/
theorem doConnect_prelude (n : Namespace) (socket : Socket) (fn : Option Effect) :
    ∃ n1 : Namespace,
      n._doConnect socket fn = (n1.EmitReserved "connect" socket).EmitReserved "connection" socket
        ∧ n1.trace = n.trace ++ [Action.store socket.Id, Action.onconnect socket.Id]
            ++ (fn.map fun _ => Action.callback socket.Id).toList
        ∧ n1.listeners = n.listeners
        ∧ ((∀ g, fn = some g → keepsSocket socket g) → n1.sockets.Has socket.Id = true) := by
  cases fn with
  | none =>
    refine ⟨_, rfl, ?_, rfl, ?_⟩
    · simp [Socket._onconnect, Namespace.log]
    · intro _; exact Map.Has_Store _ _ _
  | some g =>
    refine ⟨_, rfl, ?_, rfl, ?_⟩
    · simp [Socket._onconnect, Namespace.log]
    · intro hg; exact hg g rfl _ (Map.Has_Store _ _ _)

/-- The effect `removingEffect` on the socket map is that of `Namespace.remove`. -/
theorem removingEffect_eq_remove (n : Namespace) (socket : Socket) :
    removingEffect socket n.sockets = (n.remove socket).sockets := rfl

/-- C2, as the claim states it, fails: `_doConnect` does not keep the socket in
the map while the callback and the listeners run. When a listener of `connect`
removes the socket, the listener of `connection` runs while the socket is not in
`Sockets()`; when the caller's callback removes it, no listener finds it there. -/
theorem doConnect_listener_after_removal :
    (removingNamespace._doConnect exampleSocket none).trace =
        [Action.store "sid-1", Action.onconnect "sid-1", Action.emitReserved "connect" "sid-1",
          Action.listener "connect" 1 "sid-1" true, Action.emitReserved "connection" "sid-1",
          Action.listener "connection" 2 "sid-1" false]
      ∧ (listeningNamespace._doConnect exampleSocket (some removingEffect)).trace =
        [Action.store "sid-1", Action.onconnect "sid-1", Action.callback "sid-1",
          Action.emitReserved "connect" "sid-1", Action.listener "connect" 1 "sid-1" false,
          Action.emitReserved "connection" "sid-1",
          Action.listener "connection" 2 "sid-1" false] :=
  ⟨rfl, rfl⟩

/-- C2, amended: `Namespace._doConnect` works in a fixed order: it stores the
socket in the socket map, runs the socket's `_onconnect` hook, calls the caller's
callback (if there is one), and only then emits `connect` and after it
`connection`, each followed by its listeners, so the socket has been stored before
any listener runs. Provided the callback and the listeners of `connect` and of
`connection` do not themselves take the socket out of the map, every listener that
runs finds the socket in `Sockets()` under its id, and so does the caller
afterwards. -/
theorem doConnect_order (n : Namespace) (socket : Socket) (fn : Option Effect) :
    ∃ L1 L2,
      (n._doConnect socket fn).trace =
          n.trace ++ [Action.store socket.Id, Action.onconnect socket.Id]
            ++ (fn.map fun _ => Action.callback socket.Id).toList
            ++ Action.emitReserved "connect" socket.Id :: L1
            ++ Action.emitReserved "connection" socket.Id :: L2
        ∧ (∀ a ∈ L1, ∃ tag q, a = Action.listener "connect" tag socket.Id q)
        ∧ (∀ a ∈ L2, ∃ tag q, a = Action.listener "connection" tag socket.Id q)
        ∧ ((∀ g, fn = some g → keepsSocket socket g) →
            (∀ l ∈ n.listeners, l.1 = "connect" ∨ l.1 = "connection" →
              keepsSocket socket l.2.effect) →
            (∀ a ∈ L1 ++ L2, ∃ ev tag, a = Action.listener ev tag socket.Id true)
              ∧ (n._doConnect socket fn).sockets.Has socket.Id = true) := by
  obtain ⟨n1, hn1, ht1, hl1, hs1⟩ := doConnect_prelude n socket fn
  obtain ⟨L1, a1, a2, a3, a4⟩ := EmitReserved_trace n1 "connect" socket
  obtain ⟨L2, b1, b2, b3, b4⟩ := EmitReserved_trace (n1.EmitReserved "connect" socket)
    "connection" socket
  refine ⟨L1, L2, ?_, a3, b3, ?_⟩
  · rw [hn1, b1, a1, ht1]
  · intro hfn hls
    have c1 := a4 (by rw [hl1]; exact fun l hl he => hls l hl (Or.inl he)) (hs1 hfn)
    have c2 := b4 (by rw [a2, hl1]; exact fun l hl he => hls l hl (Or.inr he)) c1.2
    refine ⟨?_, by rw [hn1]; exact c2.2⟩
    intro a ha
    rcases List.mem_append.mp ha with h | h
    · obtain ⟨tag, ht⟩ := c1.1 a h; exact ⟨_, tag, ht⟩
    · obtain ⟨tag, ht⟩ := c2.1 a h; exact ⟨_, tag, ht⟩

/-- C2, witness: a namespace with a listener of `connect` and one of `connection`. -/
theorem doConnect_order_witness :
    (listeningNamespace._doConnect exampleSocket none).trace =
      [Action.store "sid-1", Action.onconnect "sid-1", Action.emitReserved "connect" "sid-1",
        Action.listener "connect" 1 "sid-1" true, Action.emitReserved "connection" "sid-1",
        Action.listener "connection" 2 "sid-1" true]
      ∧ (listeningNamespace._doConnect exampleSocket none).sockets.Has exampleSocket.Id = true := by
  obtain ⟨_, _, _, _, _, h⟩ := doConnect_order listeningNamespace exampleSocket none
  refine ⟨rfl, (h (fun g hg => by cases hg) ?_).2⟩
  intro l hl
  simp only [listeningNamespace, List.mem_cons, List.mem_singleton, List.not_mem_nil,
    or_false] at hl
  rcases hl with h | h <;> rw [h] <;> exact fun _ m hm => hm

/-- The goroutine on a connection that is no longer open: clean-up only. -/
theorem Add_go_closed (n : Namespace) (client : Client) (socket : Socket) (fn : Option Effect)
    (err : Option ExtendedError) (hclosed : client.conn.readyState ≠ "open") :
    Namespace.Add.go n client socket fn err = socket._cleanup n := by
  have : ("open" != client.conn.readyState) = true := by
    simp only [bne_iff_ne, ne_eq]; exact fun h => hclosed h.symm
  simp [Namespace.Add.go, this]

/-- The goroutine on an open connection after a middleware error: clean-up, then
the connection-error. -/
theorem Add_go_error (n : Namespace) (client : Client) (socket : Socket) (fn : Option Effect)
    (err : ExtendedError) (hopen : client.conn.readyState = "open") :
    Namespace.Add.go n client socket fn (some err) =
      socket._error (connectErrorPayload client.conn.protocol err) (socket._cleanup n) := by
  have : ("open" != client.conn.readyState) = false := by simp [hopen]
  simp only [Namespace.Add.go, this, connectErrorPayload]
  by_cases hp : client.conn.protocol = 3
  · simp only [hp, beq_self_eq_true, if_true, Bool.false_eq_true, if_false]
    cases err.Data <;> rfl
  · have : (client.conn.protocol == 3) = false := by simpa using hp
    simp [this, hp]

/-- The goroutine after a middleware error, whatever the connection: clean-up,
then at most the connection-error. -/
theorem Add_go_some (n : Namespace) (client : Client) (socket : Socket) (fn : Option Effect)
    (err : ExtendedError) :
    ∃ rest, (Namespace.Add.go n client socket fn (some err)).trace =
        n.trace ++ Action.cleanup socket.Id :: rest
      ∧ (rest = [] ∨ ∃ p, rest = [Action.error socket.Id p])
      ∧ (Namespace.Add.go n client socket fn (some err)).sockets = n.sockets.Delete socket.Id := by
  by_cases hopen : client.conn.readyState = "open"
  · rw [Add_go_error n client socket fn err hopen]
    exact ⟨[Action.error socket.Id (connectErrorPayload client.conn.protocol err)],
      by simp [Socket._error, Socket._cleanup, Namespace.log, Namespace.remove],
      Or.inr ⟨_, rfl⟩, rfl⟩
  · rw [Add_go_closed n client socket fn (some err) hopen]
    exact ⟨[], by simp [Socket._cleanup, Namespace.log, Namespace.remove], Or.inl rfl, rfl⟩

/-- `Namespace.Add` when the middlewares are not skipped. -/
theorem Add_chain (n : Namespace) (client : Client) (later : Conn) (auth : Auth)
    (fn : Option Effect)
    (hchain : (n.serverOpts.ConnectionStateRecovery.SkipMiddlewares
      && (n._createSocket client auth).Recovered && client.conn.readyState == "open") = false) :
    n.Add client later auth fn =
      (fnCalls (n.run (n._createSocket client auth))).foldl
        (fun m err =>
          Namespace.Add.go m { client with conn := later } (n._createSocket client auth) fn err)
        (n.log ((n.run (n._createSocket client auth)).map Action.chain)) := by
  simp only [Namespace.Add, hchain, Bool.false_eq_true, if_false]

theorem Map.Delete_Delete {κ ν : Type} [DecidableEq κ] (m : Map κ ν) (key : κ) :
    (m.Delete key).Delete key = m.Delete key := by
  simp [Map.Delete, List.filter_filter]

/-- The goroutines started by final callbacks that all carry an error. -/
theorem Add_go_foldl_errors (client : Client) (socket : Socket) (fn : Option Effect) :
    ∀ (calls : List (Option ExtendedError)) (n0 : Namespace), (∀ c ∈ calls, c ≠ none) →
      ∃ added,
        (calls.foldl (fun m err => Namespace.Add.go m client socket fn err) n0).trace =
            n0.trace ++ added
          ∧ (∀ a ∈ added, a = Action.cleanup socket.Id ∨ ∃ p, a = Action.error socket.Id p)
          ∧ (calls ≠ [] → Action.cleanup socket.Id ∈ added
              ∧ (calls.foldl (fun m err => Namespace.Add.go m client socket fn err) n0).sockets =
                  n0.sockets.Delete socket.Id) := by
  intro calls
  induction calls with
  | nil => intro n0 _; exact ⟨[], by simp, by simp, fun h => absurd rfl h⟩
  | cons c cs ih =>
    intro n0 herr
    cases c with
    | none => exact absurd rfl (herr none (List.mem_cons_self _ _))
    | some e =>
      obtain ⟨rest, h1, h2, h3⟩ := Add_go_some n0 client socket fn e
      obtain ⟨added, k1, k2, k3⟩ := ih (Namespace.Add.go n0 client socket fn (some e))
        (fun c hc => herr c (List.mem_cons_of_mem _ hc))
      refine ⟨Action.cleanup socket.Id :: rest ++ added, ?_, ?_, ?_⟩
      · rw [List.foldl_cons, k1, h1]; simp
      · intro a ha
        rcases List.mem_append.mp ha with h | h
        · rcases List.mem_cons.mp h with h | h
          · exact Or.inl h
          · rcases h2 with h2 | ⟨p, h2⟩
            · rw [h2] at h; cases h
            · rw [h2] at h; exact Or.inr ⟨p, List.mem_singleton.mp h⟩
        · exact k2 a h
      · intro _
        refine ⟨by simp, ?_⟩
        rw [List.foldl_cons]
        by_cases hcs : cs = []
        · rw [hcs]; exact h3
        · rw [(k3 hcs).2, h3, Map.Delete_Delete]

/-- C6: when the middleware chain ends with the error `err` and the connection is
open, `Namespace.Add` cleans the socket up and sends one connection-error. Its
payload is, for protocol 3, `err.Data()` if that is non-nil and else the message
`err.Error()`; for every other protocol it is the map of `message = err.Error()`
and `data = err.Data()`. -/
theorem Add_sends_connect_error (n : Namespace) (client : Client) (later : Conn) (auth : Auth)
    (fn : Option Effect) (err : ExtendedError)
    (hchain : (n.serverOpts.ConnectionStateRecovery.SkipMiddlewares
      && (n._createSocket client auth).Recovered && client.conn.readyState == "open") = false)
    (hend : fnCalls (n.run (n._createSocket client auth)) = [some err])
    (hopen : later.readyState = "open") :
    ∃ payload,
      (n.Add client later auth fn).trace =
          n.trace ++ (n.run (n._createSocket client auth)).map Action.chain
            ++ [Action.cleanup (n._createSocket client auth).Id,
                Action.error (n._createSocket client auth).Id payload]
        ∧ (later.protocol = 3 → err.Data ≠ Any.nil → payload = err.Data)
        ∧ (later.protocol = 3 → err.Data = Any.nil → payload = Any.str err.Error)
        ∧ (later.protocol ≠ 3 →
            payload = Any.map [("message", Any.str err.Error), ("data", err.Data)]) := by
  refine ⟨connectErrorPayload later.protocol err, ?_, ?_, ?_, ?_⟩
  · rw [Add_chain n client later auth fn hchain, hend, List.foldl_cons, List.foldl_nil,
      Add_go_error _ _ _ _ _ hopen]
    simp [Socket._error, Socket._cleanup, Namespace.log, Namespace.remove]
  · intro hp hd
    simp only [connectErrorPayload, hp, if_true]
  · intro hp hd
    simp only [connectErrorPayload, hp, if_true, hd]
  · intro hp
    simp only [connectErrorPayload, hp, if_false]

/-- C6, witness: `[pass, reject("nope"), pass]` on an open connection of the
current protocol. -/
theorem Add_sends_connect_error_witness :
    ∃ payload,
      (shortCircuitNamespace.Add exampleClient exampleClient.conn exampleAuth none).trace =
          shortCircuitNamespace.trace
            ++ (shortCircuitNamespace.run
                (shortCircuitNamespace._createSocket exampleClient exampleAuth)).map Action.chain
            ++ [Action.cleanup (shortCircuitNamespace._createSocket exampleClient exampleAuth).Id,
                Action.error (shortCircuitNamespace._createSocket exampleClient exampleAuth).Id
                  payload]
        ∧ (exampleClient.conn.protocol = 3 → (⟨"nope", Any.nil⟩ : ExtendedError).Data ≠ Any.nil →
            payload = (⟨"nope", Any.nil⟩ : ExtendedError).Data)
        ∧ (exampleClient.conn.protocol = 3 → (⟨"nope", Any.nil⟩ : ExtendedError).Data = Any.nil →
            payload = Any.str (⟨"nope", Any.nil⟩ : ExtendedError).Error)
        ∧ (exampleClient.conn.protocol ≠ 3 →
            payload = Any.map [("message", Any.str (⟨"nope", Any.nil⟩ : ExtendedError).Error),
              ("data", (⟨"nope", Any.nil⟩ : ExtendedError).Data)]) :=
  Add_sends_connect_error shortCircuitNamespace exampleClient exampleClient.conn exampleAuth none
    ⟨"nope", Any.nil⟩ rfl rfl rfl

/-- C7: when the middleware chain ends with an error, `Namespace.Add` cleans the
socket up and never connects it. After the events of the chain it only calls
`_cleanup` and at most `_error`: there is no `Store`, the caller's callback is
not called and neither `connect` nor `connection` is emitted; the socket map
holds no socket under the id afterwards. -/
theorem Add_rejected_never_connects (n : Namespace) (client : Client) (later : Conn)
    (auth : Auth) (fn : Option Effect)
    (hchain : (n.serverOpts.ConnectionStateRecovery.SkipMiddlewares
      && (n._createSocket client auth).Recovered && client.conn.readyState == "open") = false)
    (hne : fnCalls (n.run (n._createSocket client auth)) ≠ [])
    (herr : ∀ c ∈ fnCalls (n.run (n._createSocket client auth)), c ≠ none) :
    ∃ added,
      (n.Add client later auth fn).trace =
          n.trace ++ (n.run (n._createSocket client auth)).map Action.chain ++ added
        ∧ (∀ a ∈ added, a = Action.cleanup (n._createSocket client auth).Id
            ∨ ∃ p, a = Action.error (n._createSocket client auth).Id p)
        ∧ Action.cleanup (n._createSocket client auth).Id ∈ added
        ∧ (n.Add client later auth fn).sockets = n.sockets.Delete (n._createSocket client auth).Id
        ∧ (n.Add client later auth fn).sockets.Load (n._createSocket client auth).Id = none := by
  obtain ⟨added, h1, h2, h3⟩ := Add_go_foldl_errors { client with conn := later }
    (n._createSocket client auth) fn _
    (n.log ((n.run (n._createSocket client auth)).map Action.chain)) herr
  obtain ⟨h4, h5⟩ := h3 hne
  rw [Add_chain n client later auth fn hchain]
  refine ⟨added, ?_, h2, h4, h5, ?_⟩
  · rw [h1]; rfl
  · rw [h5]; exact Map.Load_Delete _ _

/-- C7, witness: `[pass, reject("nope"), pass]`. -/
theorem Add_rejected_never_connects_witness :
    (shortCircuitNamespace.Add exampleClient exampleClient.conn exampleAuth none).trace =
        [Action.chain (RunEvent.middleware 0), Action.chain (RunEvent.next 0 none),
          Action.chain (RunEvent.middleware 1),
          Action.chain (RunEvent.next 1 (some ⟨"nope", Any.nil⟩)),
          Action.chain (RunEvent.fn (some ⟨"nope", Any.nil⟩)),
          Action.cleanup "sid-1",
          Action.error "sid-1" (Any.map [("message", Any.str "nope"), ("data", Any.nil)])]
      ∧ (shortCircuitNamespace.Add exampleClient exampleClient.conn exampleAuth none).sockets.Load
          (shortCircuitNamespace._createSocket exampleClient exampleAuth).Id = none := by
  obtain ⟨_, _, _, _, _, h⟩ := Add_rejected_never_connects shortCircuitNamespace exampleClient
    exampleClient.conn exampleAuth none rfl (by intro h; cases h)
    (by
      intro c hc
      have e : fnCalls (shortCircuitNamespace.run
          (shortCircuitNamespace._createSocket exampleClient exampleAuth)) =
          [some ⟨"nope", Any.nil⟩] := rfl
      rw [e] at hc
      rw [List.mem_singleton.mp hc]
      exact fun h => by cases h)
  exact ⟨rfl, h⟩

/-! ## At most one outcome -/

theorem outcomes_append (a b : List Action) : outcomes (a ++ b) = outcomes a + outcomes b := by
  simp only [outcomes, List.countP_append]; omega

theorem outcomes_listeners (L : List Action)
    (h : ∀ a ∈ L, ∃ ev tag id q, a = Action.listener ev tag id q) : outcomes L = 0 := by
  have h1 : L.countP Action.isStore = 0 := by
    rw [List.countP_eq_zero]
    intro a ha
    obtain ⟨ev, tag, id, q, rfl⟩ := h a ha
    simp [Action.isStore]
  have h2 : L.countP Action.isError = 0 := by
    rw [List.countP_eq_zero]
    intro a ha
    obtain ⟨ev, tag, id, q, rfl⟩ := h a ha
    simp [Action.isError]
  simp [outcomes, h1, h2]

theorem outcomes_chain (es : List RunEvent) : outcomes (es.map Action.chain) = 0 := by
  have h1 : (es.map Action.chain).countP Action.isStore = 0 := by
    rw [List.countP_eq_zero]
    intro a ha
    obtain ⟨e, _, rfl⟩ := List.mem_map.mp ha
    simp [Action.isStore]
  have h2 : (es.map Action.chain).countP Action.isError = 0 := by
    rw [List.countP_eq_zero]
    intro a ha
    obtain ⟨e, _, rfl⟩ := List.mem_map.mp ha
    simp [Action.isError]
  simp [outcomes, h1, h2]

/-- Connecting a socket records one outcome. -/
theorem doConnect_outcomes (n : Namespace) (socket : Socket) (fn : Option Effect) :
    outcomes (n._doConnect socket fn).trace = outcomes n.trace + 1 := by
  obtain ⟨n1, hn1, ht1, _, _⟩ := doConnect_prelude n socket fn
  obtain ⟨L1, a1, _, h1, _⟩ := EmitReserved_trace n1 "connect" socket
  obtain ⟨L2, b1, _, h2, _⟩ := EmitReserved_trace (n1.EmitReserved "connect" socket)
    "connection" socket
  have h : (n._doConnect socket fn).trace =
      n.trace ++ [Action.store socket.Id, Action.onconnect socket.Id]
        ++ (fn.map fun _ => Action.callback socket.Id).toList
        ++ Action.emitReserved "connect" socket.Id :: L1
        ++ Action.emitReserved "connection" socket.Id :: L2 := by
    rw [hn1, b1, a1, ht1]
  have e1 : outcomes L1 = 0 := outcomes_listeners L1 (fun a ha => by
    obtain ⟨tag, q, rfl⟩ := h1 a ha; exact ⟨_, _, _, _, rfl⟩)
  have e2 : outcomes L2 = 0 := outcomes_listeners L2 (fun a ha => by
    obtain ⟨tag, q, rfl⟩ := h2 a ha; exact ⟨_, _, _, _, rfl⟩)
  have e3 : outcomes (fn.map fun _ => Action.callback socket.Id).toList = 0 := by
    cases fn <;> simp [outcomes, Action.isStore, Action.isError]
  rw [h]
  simp only [outcomes_append, e3]
  rw [show Action.emitReserved "connect" socket.Id :: L1 =
      [Action.emitReserved "connect" socket.Id] ++ L1 from rfl,
    show Action.emitReserved "connection" socket.Id :: L2 =
      [Action.emitReserved "connection" socket.Id] ++ L2 from rfl]
  simp only [outcomes_append, e1, e2]
  simp [outcomes, Action.isStore, Action.isError]

/-- One goroutine records at most one outcome. -/
theorem Add_go_outcomes (n : Namespace) (client : Client) (socket : Socket)
    (fn : Option Effect) (err : Option ExtendedError) :
    outcomes (Namespace.Add.go n client socket fn err).trace ≤ outcomes n.trace + 1 := by
  cases err with
  | some e =>
    obtain ⟨rest, h1, h2, _⟩ := Add_go_some n client socket fn e
    rw [h1, outcomes_append]
    rcases h2 with h2 | ⟨p, h2⟩ <;> rw [h2] <;> simp [outcomes, Action.isStore, Action.isError]
  | none =>
    by_cases hopen : client.conn.readyState = "open"
    · have : ("open" != client.conn.readyState) = false := by simp [hopen]
      simp only [Namespace.Add.go, this, Bool.false_eq_true, if_false]
      rw [doConnect_outcomes]
    · rw [Add_go_closed n client socket fn none hopen]
      simp [Socket._cleanup, Namespace.log, Namespace.remove, outcomes_append, outcomes,
        Action.isStore, Action.isError]

/-- C5, as the claim states it, fails: a middleware that calls its continuation
twice makes `Namespace.run` call the final callback twice, and a middleware that
calls `next(nil)` and then `next(err)` makes `Namespace.Add` both connect the
socket and reject it. -/
theorem run_final_callback_called_twice :
    fnCalls (twiceNamespace.run exampleSocket) = [none, none]
      ∧ ¬ (fnCalls (twiceNamespace.run exampleSocket)).length ≤ 1
      ∧ (lateRejectNamespace.Add exampleClient exampleClient.conn exampleAuth none).trace =
          [Action.chain (RunEvent.middleware 0), Action.chain (RunEvent.next 0 none),
            Action.chain (RunEvent.fn none),
            Action.chain (RunEvent.next 0 (some ⟨"late", Any.nil⟩)),
            Action.chain (RunEvent.fn (some ⟨"late", Any.nil⟩)),
            Action.store "sid-1", Action.onconnect "sid-1",
            Action.emitReserved "connect" "sid-1", Action.emitReserved "connection" "sid-1",
            Action.cleanup "sid-1",
            Action.error "sid-1" (Any.map [("message", Any.str "late"), ("data", Any.nil)])] := by
  refine ⟨rfl, ?_, rfl⟩
  show ¬ (2 ≤ 1)
  omega

/-- C5, amended: when every middleware calls its continuation at most once,
`Namespace.run` calls the final callback at most once, an error it passes to the
final callback is the first error passed to a continuation, and `Namespace.Add`
records at most one outcome: the socket is connected or rejected, never both. -/
theorem run_final_callback_at_most_once (n : Namespace)
    (honce : ∀ f ∈ n._fns, ∀ s, (f s).length ≤ 1) :
    (∀ socket, (fnCalls (n.run socket)).length ≤ 1
        ∧ ∀ e, some e ∈ fnCalls (n.run socket) → (nextErrors (n.run socket)).head? = some e)
      ∧ ∀ client later auth fn,
          outcomes (n.Add client later auth fn).trace ≤ outcomes n.trace + 1 := by
  have hshape : ∀ socket, fnCalls (n.run socket) = [] ∨ fnCalls (n.run socket) = [none] ∨
      ∃ e, fnCalls (n.run socket) = [some e] ∧ nextErrors (n.run socket) = [e] := by
    intro socket
    obtain ⟨d, ending, hrun, hend⟩ := run_shape n socket (fun f hf => honce f hf socket)
    rw [hrun, fnCalls_append, fnCalls_passEvents, nextErrors_append, nextErrors_passEvents]
    cases hend with
    | accepted h => exact Or.inr (Or.inl rfl)
    | stalled h => exact Or.inl rfl
    | rejected e h => exact Or.inr (Or.inr ⟨e, rfl, rfl⟩)
  constructor
  · intro socket
    rcases hshape socket with h | h | ⟨e, h, h'⟩
    · rw [h]; simp
    · rw [h]; simp
    · rw [h, h']; simp
  · intro client later auth fn
    by_cases hchain : (n.serverOpts.ConnectionStateRecovery.SkipMiddlewares
        && (n._createSocket client auth).Recovered && client.conn.readyState == "open") = false
    · rw [Add_chain n client later auth fn hchain]
      have hlog : outcomes (n.log ((n.run (n._createSocket client auth)).map Action.chain)).trace
          = outcomes n.trace := by
        simp [Namespace.log, outcomes_append, outcomes_chain]
      rcases hshape (n._createSocket client auth) with h | h | ⟨e, h, _⟩
      · rw [h, List.foldl_nil, hlog]; omega
      · rw [h, List.foldl_cons, List.foldl_nil, ← hlog]; exact Add_go_outcomes _ _ _ _ _
      · rw [h, List.foldl_cons, List.foldl_nil, ← hlog]; exact Add_go_outcomes _ _ _ _ _
    · have hskip : (n.serverOpts.ConnectionStateRecovery.SkipMiddlewares
          && (n._createSocket client auth).Recovered && client.conn.readyState == "open") = true :=
        (Bool.not_eq_false _).mp hchain
      simp only [Namespace.Add, hskip, if_true]
      rw [doConnect_outcomes]

/-- C5, witness: `[pass, reject("nope"), pass]`. -/
theorem run_final_callback_at_most_once_witness :
    (fnCalls (shortCircuitNamespace.run exampleSocket)).length ≤ 1
      ∧ outcomes (shortCircuitNamespace.Add exampleClient exampleClient.conn exampleAuth
          none).trace ≤ outcomes shortCircuitNamespace.trace + 1 := by
  have h := run_final_callback_at_most_once shortCircuitNamespace
    (by
      intro f hf s
      simp only [shortCircuitNamespace, exampleNamespace, Namespace.Use, List.nil_append,
        List.cons_append, List.mem_cons, List.mem_singleton, List.not_mem_nil, or_false] at hf
      rcases hf with h | h | h <;> rw [h] <;> simp [pass, reject])
  exact ⟨(h.1 exampleSocket).1, h.2 exampleClient exampleClient.conn exampleAuth none⟩

/-! ## Server-side emit -/

/-- C8: `Namespace.ServerSideEmit` rejects each of the reserved names `connect`,
`connection` and `new_namespace` at once and with no side effect: it returns the
error `"<name>" is a reserved event name` and leaves the namespace as it is, so
the adapter's `ServerSideEmit` is not called. -/
theorem ServerSideEmit_rejects_reserved (n : Namespace) (ev : String) (args : List Any)
    (h : ev = "connect" ∨ ev = "connection" ∨ ev = "new_namespace") :
    n.ServerSideEmit ev args = (n, some ("\"" ++ ev ++ "\" is a reserved event name"))
      ∧ (n.ServerSideEmit ev args).1.trace = n.trace := by
  have hmem : ev ∈ NAMESPACE_RESERVED_EVENTS := by
    rcases h with h | h | h <;> rw [h] <;> simp [NAMESPACE_RESERVED_EVENTS]
  simp [Namespace.ServerSideEmit, hmem]

/-- C8, witness: the reserved name `connection`. -/
theorem ServerSideEmit_rejects_reserved_witness :
    exampleNamespace.ServerSideEmit "connection" [Any.str "x"] =
        (exampleNamespace, some ("\"" ++ "connection" ++ "\" is a reserved event name"))
      ∧ (exampleNamespace.ServerSideEmit "connection" [Any.str "x"]).1.trace
          = exampleNamespace.trace :=
  ServerSideEmit_rejects_reserved exampleNamespace "connection" [Any.str "x"]
    (Or.inr (Or.inl rfl))

/-- C9: for the reserved name `connect`, `Namespace.ServerSideEmitWithAck` does
not call the adapter, and the error that `ServerSideEmit` returns is dropped: the
namespace is left as it is, nothing is returned and the ack callback is never
called. -/
theorem ServerSideEmitWithAck_drops_reserved_error :
    (exampleNamespace.ServerSideEmit "connect" ([] ++ [Any.func 0])).2 =
        some "\"connect\" is a reserved event name"
      ∧ exampleNamespace.ServerSideEmitWithAck "connect" [] (Any.func 0) = exampleNamespace
      ∧ (exampleNamespace.ServerSideEmitWithAck "connect" [] (Any.func 0)).trace = [] := by
  refine ⟨?_, rfl, rfl⟩
  decide

/-! ## Connection-state recovery in `_createSocket` -/

/-- C10: `Namespace._createSocket` builds a recovered socket, carrying the
previous session, if and only if connection-state recovery is configured, the
auth payload carries both a pid and an offset, and the adapter's
`RestoreSession` returns a session with no error; in every other case it builds
a fresh socket with no session. It always returns a socket. -/
theorem createSocket_recovered_iff (n : Namespace) (client : Client) (auth : Auth) :
    (∀ session, restorable n auth session →
        n._createSocket client auth = NewSocket n client auth (some session))
      ∧ ((¬ ∃ session, restorable n auth session) →
        n._createSocket client auth = NewSocket n client auth none)
      ∧ ((n._createSocket client auth).Recovered = true ↔ ∃ session, restorable n auth session) := by
  have hcases : (∃ session, restorable n auth session
        ∧ n._createSocket client auth = NewSocket n client auth (some session))
      ∨ ((¬ ∃ session, restorable n auth session)
        ∧ n._createSocket client auth = NewSocket n client auth none) := by
    unfold restorable Namespace._createSocket
    rcases hd : auth.decoded with _ | d
    · exact Or.inr ⟨by simp, rfl⟩
    · rcases d with _ | ⟨_ | pid, _ | offset⟩
      · exact Or.inr ⟨by simp [SeesionData.GetPid], by simp [SeesionData.GetPid]⟩
      · exact Or.inr ⟨by simp [SeesionData.GetPid], by simp [SeesionData.GetPid]⟩
      · exact Or.inr ⟨by simp [SeesionData.GetPid], by simp [SeesionData.GetPid]⟩
      · exact Or.inr ⟨by simp [SeesionData.GetOffset],
          by simp [SeesionData.GetPid, SeesionData.GetOffset]⟩
      · rcases hr : n.serverOpts.GetRawConnectionStateRecovery.isSome
        · exact Or.inr ⟨by simp,
            by simp [SeesionData.GetPid, SeesionData.GetOffset, hr]⟩
        · rcases hs : n.adapter.RestoreSession pid offset with ⟨_ | session, _ | err⟩
          · exact Or.inr ⟨by simp [SeesionData.GetPid, SeesionData.GetOffset, hs],
              by simp [SeesionData.GetPid, SeesionData.GetOffset, hs]⟩
          · exact Or.inr ⟨by simp [SeesionData.GetPid, SeesionData.GetOffset, hs],
              by simp [SeesionData.GetPid, SeesionData.GetOffset, hs]⟩
          · exact Or.inl ⟨session, ⟨_, pid, offset, rfl, rfl, rfl, rfl, hs⟩,
              by simp [SeesionData.GetPid, SeesionData.GetOffset, hs]⟩
          · exact Or.inr ⟨by simp [SeesionData.GetPid, SeesionData.GetOffset, hs],
              by simp [SeesionData.GetPid, SeesionData.GetOffset, hs]⟩
  refine ⟨?_, ?_, ?_⟩
  · intro session hsession
    rcases hcases with ⟨s, hs, heq⟩ | ⟨hno, _⟩
    · obtain ⟨d, pid, offset, a1, a2, a3, _, a5⟩ := hsession
      obtain ⟨d', pid', offset', b1, b2, b3, _, b5⟩ := hs
      rw [a1] at b1
      cases b1
      rw [a2] at b2
      rw [a3] at b3
      cases b2
      cases b3
      rw [a5] at b5
      cases b5
      exact heq
    · exact absurd ⟨session, hsession⟩ hno
  · intro hno
    rcases hcases with ⟨s, hs, _⟩ | ⟨_, heq⟩
    · exact absurd ⟨s, hs⟩ hno
    · exact heq
  · rcases hcases with ⟨s, hs, heq⟩ | ⟨hno, heq⟩
    · rw [heq]
      exact ⟨fun _ => ⟨s, hs⟩, fun _ => rfl⟩
    · rw [heq]
      exact ⟨fun h => by simp [NewSocket, Socket.Recovered] at h, fun h => absurd h hno⟩

/-- C10, witness: a reconnection whose session the adapter restores, and a first
connection. -/
theorem createSocket_recovered_iff_witness :
    recoveringNamespace._createSocket exampleClient reconnectAuth =
        NewSocket recoveringNamespace exampleClient reconnectAuth (some storedSession)
      ∧ recoveringNamespace._createSocket exampleClient exampleAuth =
        NewSocket recoveringNamespace exampleClient exampleAuth none :=
  ⟨(createSocket_recovered_iff recoveringNamespace exampleClient reconnectAuth).1 storedSession
      ⟨_, "pid-0", "offset-0", rfl, rfl, rfl, rfl, rfl⟩,
    (createSocket_recovered_iff recoveringNamespace exampleClient exampleAuth).2.1
      (by
        rintro ⟨s, d, pid, offset, h1, h2, _⟩
        cases h1
        cases h2)⟩

/-! ## Skipping the middlewares -/

theorem mem_fnCalls (c : Option ExtendedError) (es : List RunEvent) :
    c ∈ fnCalls es ↔ RunEvent.fn c ∈ es := by
  induction es with
  | nil => simp [fnCalls]
  | cons x xs ih => cases x <;> simp [fnCalls, ih]

/-- The chain accepts only after every registered middleware has passed. -/
theorem run_all_pass_of_fn_none (n : Namespace) (socket : Socket)
    (h : RunEvent.fn none ∈ n.run socket) :
    ∀ j, j < n._fns.length → RunEvent.next j none ∈ n.run socket := by
  by_cases hpos : n._fns.length > 0
  · simp only [Namespace.run, if_pos hpos] at h ⊢
    intro j hj
    exact (run_inner_fn_none_iff n._fns socket n._fns.length 0 (by omega) hpos).mp h j
      (Nat.zero_le j) hj
  · intro j hj; omega

/-- The chain always produces an event. -/
theorem run_ne_nil (n : Namespace) (socket : Socket) : n.run socket ≠ [] := by
  by_cases hpos : n._fns.length > 0
  · simp only [Namespace.run, if_pos hpos]
    obtain ⟨fuel, hfuel⟩ : ∃ fuel, n._fns.length = fuel + 1 := ⟨n._fns.length - 1, by omega⟩
    rw [hfuel, run_inner_succ n._fns socket fuel 0 hpos]
    exact List.cons_ne_nil _ _
  · simp [Namespace.run, hpos]

/-- What `_doConnect` adds to the trace holds the `Store` and no event of a chain. -/
theorem doConnect_added (n : Namespace) (socket : Socket) (fn : Option Effect) :
    ∃ added, (n._doConnect socket fn).trace = n.trace ++ added
      ∧ (∀ e, Action.chain e ∉ added) ∧ Action.store socket.Id ∈ added := by
  obtain ⟨n1, hn1, ht1, _, _⟩ := doConnect_prelude n socket fn
  obtain ⟨L1, a1, _, h1, _⟩ := EmitReserved_trace n1 "connect" socket
  obtain ⟨L2, b1, _, h2, _⟩ := EmitReserved_trace (n1.EmitReserved "connect" socket)
    "connection" socket
  refine ⟨[Action.store socket.Id, Action.onconnect socket.Id]
      ++ (fn.map fun _ => Action.callback socket.Id).toList
      ++ Action.emitReserved "connect" socket.Id :: L1
      ++ Action.emitReserved "connection" socket.Id :: L2, ?_, ?_, by simp⟩
  · rw [hn1, b1, a1, ht1]; simp
  · intro e he
    simp only [List.mem_append, List.mem_cons, List.mem_singleton, List.not_mem_nil,
      or_false] at he
    rcases he with (((he | he) | he) | he | he) | he | he
    · cases he
    · cases he
    · cases fn <;> simp at he
    · cases he
    · obtain ⟨_, _, h⟩ := h1 _ he; cases h
    · cases he
    · obtain ⟨_, _, h⟩ := h2 _ he; cases h

/-- What one goroutine adds to the trace: a `Store` only after `fn(nil)` on an
open connection, and no event of a chain. -/
theorem Add_go_added (n : Namespace) (client : Client) (socket : Socket)
    (fn : Option Effect) (c : Option ExtendedError) :
    ∃ added, (Namespace.Add.go n client socket fn c).trace = n.trace ++ added
      ∧ (∀ e, Action.chain e ∉ added)
      ∧ (∀ id, Action.store id ∈ added → c = none ∧ client.conn.readyState = "open") := by
  cases c with
  | some err =>
    obtain ⟨rest, h1, h2, _⟩ := Add_go_some n client socket fn err
    refine ⟨_, h1, ?_, ?_⟩
    · intro e he
      rcases h2 with h2 | ⟨p, h2⟩ <;> rw [h2] at he <;> simp at he
    · intro id he
      rcases h2 with h2 | ⟨p, h2⟩ <;> rw [h2] at he <;> simp at he
  | none =>
    by_cases hopen : client.conn.readyState = "open"
    · have : ("open" != client.conn.readyState) = false := by simp [hopen]
      simp only [Namespace.Add.go, this, Bool.false_eq_true, if_false]
      obtain ⟨added, h1, h2, _⟩ := doConnect_added n socket fn
      exact ⟨added, h1, h2, fun _ _ => ⟨by trivial, hopen⟩⟩
    · rw [Add_go_closed n client socket fn none hopen]
      refine ⟨[Action.cleanup socket.Id], ?_, ?_, ?_⟩
      · simp [Socket._cleanup, Namespace.log, Namespace.remove]
      · intro e he; simp at he
      · intro id he; simp at he

/-- What the goroutines of a list of final calls add to the trace. -/
theorem Add_go_foldl_added (client : Client) (socket : Socket) (fn : Option Effect) :
    ∀ (calls : List (Option ExtendedError)) (n0 : Namespace),
      ∃ added,
        (calls.foldl (fun m err => Namespace.Add.go m client socket fn err) n0).trace =
            n0.trace ++ added
          ∧ (∀ e, Action.chain e ∉ added)
          ∧ (∀ id, Action.store id ∈ added →
              none ∈ calls ∧ client.conn.readyState = "open") := by
  intro calls
  induction calls with
  | nil => intro n0; exact ⟨[], by simp, by simp, by simp⟩
  | cons c cs ih =>
    intro n0
    obtain ⟨a1, h1, h2, h3⟩ := Add_go_added n0 client socket fn c
    obtain ⟨a2, k1, k2, k3⟩ := ih (Namespace.Add.go n0 client socket fn c)
    refine ⟨a1 ++ a2, ?_, ?_, ?_⟩
    · rw [List.foldl_cons, k1, h1, List.append_assoc]
    · intro e he
      rcases List.mem_append.mp he with h | h
      · exact h2 e h
      · exact k2 e h
    · intro id he
      rcases List.mem_append.mp he with h | h
      · obtain ⟨hc, ho⟩ := h3 id h
        exact ⟨by rw [hc]; exact List.mem_cons_self _ _, ho⟩
      · obtain ⟨hc, ho⟩ := k3 id h
        exact ⟨List.mem_cons_of_mem _ hc, ho⟩

/-- C11: `Namespace.Add` skips the middleware chain and connects the socket
directly exactly when `SkipMiddlewares()` is true, the socket was recovered and
the ready state of the connection is `open`: then it is `_doConnect` and no
middleware runs. In every other case the chain runs first, and a socket is
stored only after every registered middleware has called its continuation with
no error. -/
theorem Add_skips_chain_iff (n : Namespace) (client : Client) (later : Conn) (auth : Auth)
    (fn : Option Effect) :
    ((n.serverOpts.ConnectionStateRecovery.SkipMiddlewares = true
          ∧ (n._createSocket client auth).Recovered = true
          ∧ client.conn.readyState = "open") →
        n.Add client later auth fn = n._doConnect (n._createSocket client auth) fn
          ∧ ∃ added, (n.Add client later auth fn).trace = n.trace ++ added
              ∧ (∀ e, Action.chain e ∉ added)
              ∧ Action.store (n._createSocket client auth).Id ∈ added)
      ∧ (¬ (n.serverOpts.ConnectionStateRecovery.SkipMiddlewares = true
          ∧ (n._createSocket client auth).Recovered = true
          ∧ client.conn.readyState = "open") →
        n.run (n._createSocket client auth) ≠ []
          ∧ ∃ added,
              (n.Add client later auth fn).trace =
                  n.trace ++ (n.run (n._createSocket client auth)).map Action.chain ++ added
              ∧ (∀ e, Action.chain e ∉ added)
              ∧ (∀ id, Action.store id ∈ added →
                  ∀ j, j < n._fns.length →
                    RunEvent.next j none ∈ n.run (n._createSocket client auth))) := by
  constructor
  · rintro ⟨h1, h2, h3⟩
    have hskip : (n.serverOpts.ConnectionStateRecovery.SkipMiddlewares
        && (n._createSocket client auth).Recovered && client.conn.readyState == "open") = true := by
      simp [h1, h2, h3]
    have heq : n.Add client later auth fn = n._doConnect (n._createSocket client auth) fn := by
      simp only [Namespace.Add, hskip, if_true]
    refine ⟨heq, ?_⟩
    rw [heq]
    exact doConnect_added n _ fn
  · intro hno
    have hchain : (n.serverOpts.ConnectionStateRecovery.SkipMiddlewares
        && (n._createSocket client auth).Recovered && client.conn.readyState == "open") = false := by
      rw [Bool.eq_false_iff]
      intro h
      simp only [Bool.and_eq_true, beq_iff_eq] at h
      exact hno ⟨h.1.1, h.1.2, h.2⟩
    refine ⟨run_ne_nil n _, ?_⟩
    obtain ⟨added, h1, h2, h3⟩ := Add_go_foldl_added { client with conn := later }
      (n._createSocket client auth) fn (fnCalls (n.run (n._createSocket client auth)))
      (n.log ((n.run (n._createSocket client auth)).map Action.chain))
    rw [Add_chain n client later auth fn hchain]
    refine ⟨added, by rw [h1]; rfl, h2, ?_⟩
    intro id hid
    exact run_all_pass_of_fn_none n _ ((mem_fnCalls _ _).mp (h3 id hid).1)

/-- C11, witness: a recovered socket on an open connection is connected directly;
for a first connection the chain `[pass, reject("nope"), pass]` runs. -/
theorem Add_skips_chain_iff_witness :
    recoveringNamespace.Add exampleClient exampleClient.conn reconnectAuth none =
        recoveringNamespace._doConnect
          (recoveringNamespace._createSocket exampleClient reconnectAuth) none
      ∧ shortCircuitNamespace.run (shortCircuitNamespace._createSocket exampleClient exampleAuth)
        ≠ [] :=
  ⟨((Add_skips_chain_iff recoveringNamespace exampleClient exampleClient.conn reconnectAuth
      none).1 ⟨rfl, rfl, rfl⟩).1,
    ((Add_skips_chain_iff shortCircuitNamespace exampleClient exampleClient.conn exampleAuth
      none).2 (by rintro ⟨_, h, _⟩; exact absurd h (by decide))).1⟩

/-- C17: for every event name outside the reserved set, `Namespace.ServerSideEmit`
calls the adapter's `ServerSideEmit` once, with the list `[ev, args...]`, and
returns nil, whatever the adapter is and returns. -/
theorem ServerSideEmit_calls_adapter_once (n : Namespace) (ev : String) (args : List Any)
    (h1 : ev ≠ "connect") (h2 : ev ≠ "connection") (h3 : ev ≠ "new_namespace") :
    n.ServerSideEmit ev args =
        (n.log [Action.adapterServerSideEmit (Any.str ev :: args)], none)
      ∧ (n.ServerSideEmit ev args).1.trace =
        n.trace ++ [Action.adapterServerSideEmit (Any.str ev :: args)]
      ∧ ∀ adapter : Adapter, ({ n with adapter := adapter }.ServerSideEmit ev args).2 = none := by
  have hmem : ev ∉ NAMESPACE_RESERVED_EVENTS := by
    simp [NAMESPACE_RESERVED_EVENTS, h1, h2, h3]
  refine ⟨?_, ?_, ?_⟩
  · simp [Namespace.ServerSideEmit, hmem]
  · simp [Namespace.ServerSideEmit, hmem, Namespace.log]
  · intro adapter
    simp [Namespace.ServerSideEmit, hmem]

/-- C17, witness: the event `hello` with the argument `world`. -/
theorem ServerSideEmit_calls_adapter_once_witness :
    exampleNamespace.ServerSideEmit "hello" [Any.str "world"] =
        (exampleNamespace.log [Action.adapterServerSideEmit [Any.str "hello", Any.str "world"]],
          none)
      ∧ (exampleNamespace.ServerSideEmit "hello" [Any.str "world"]).1.trace =
        exampleNamespace.trace
          ++ [Action.adapterServerSideEmit [Any.str "hello", Any.str "world"]]
      ∧ ∀ adapter : Adapter,
        ({ exampleNamespace with adapter := adapter }.ServerSideEmit "hello"
          [Any.str "world"]).2 = none :=
  ServerSideEmit_calls_adapter_once exampleNamespace "hello" [Any.str "world"]
    (by decide) (by decide) (by decide)

/-! ## The counter `Ids` -/

theorem IdsTimes_ids (n : Namespace) (h : n._ids = 0) (k : Nat) :
    (n.IdsTimes k)._ids = k % 2 ^ 64 := by
  induction k with
  | zero => simp [Namespace.IdsTimes, h]
  | succ k ih => simp [Namespace.IdsTimes, Namespace.Ids, ih, Nat.add_mod]

/-- Two calls of `Ids` next to the wrap of the counter. -/
theorem Ids_at_wrap (m : Namespace) (hm : m._ids = 2 ^ 64 - 2) :
    m.Ids.2 = 2 ^ 64 - 1 ∧ m.Ids.1.Ids.2 = 0 := by
  constructor
  · simp only [Namespace.Ids, hm]; norm_num
  · simp only [Namespace.Ids, hm]; norm_num

/-- C19, as the claim states it, fails at the wrap of the counter: after
`2 ^ 64 - 2` calls on a fresh namespace the next call returns `2 ^ 64 - 1` and the
one after it returns 0, which is not greater. -/
theorem Ids_wraps_to_zero :
    ((exampleNamespace.IdsTimes (2 ^ 64 - 2)).Ids).2 = 2 ^ 64 - 1
      ∧ ((exampleNamespace.IdsTimes (2 ^ 64 - 2)).Ids.1.Ids).2 = 0
      ∧ ¬ ((exampleNamespace.IdsTimes (2 ^ 64 - 2)).Ids).2
          < ((exampleNamespace.IdsTimes (2 ^ 64 - 2)).Ids.1.Ids).2 := by
  generalize hm : exampleNamespace.IdsTimes (2 ^ 64 - 2) = m
  have h : m._ids = 2 ^ 64 - 2 := by
    rw [← hm]
    exact (IdsTimes_ids exampleNamespace rfl (2 ^ 64 - 2)).trans (by norm_num)
  obtain ⟨e1, e2⟩ := Ids_at_wrap m h
  refine ⟨e1, e2, ?_⟩
  rw [e1, e2]
  omega

/-- C19, amended: `Namespace.Ids` is a counter of its namespace alone. On a fresh
namespace the call number `k + 1` returns `k + 1` modulo `2 ^ 64`; of two successive
calls the second returns more than the first unless the first returned
`2 ^ 64 - 1`, after which the counter wraps to 0; and a call changes nothing but
the counter of its own namespace. -/
theorem Ids_counts_modulo (n : Namespace) :
    (∀ k, n._ids = 0 → ((n.IdsTimes k).Ids).2 = (k + 1) % 2 ^ 64)
      ∧ (n.Ids.2 ≠ 2 ^ 64 - 1 → n.Ids.2 < n.Ids.1.Ids.2)
      ∧ (n.Ids.2 = 2 ^ 64 - 1 → n.Ids.1.Ids.2 = 0)
      ∧ n.Ids.1 = { n with _ids := n.Ids.2 } := by
  refine ⟨?_, ?_, ?_, rfl⟩
  · intro k h
    simp only [Namespace.Ids, IdsTimes_ids n h k]
    rw [Nat.add_mod, Nat.mod_mod, ← Nat.add_mod]
  · intro h
    have hlt : n.Ids.2 < 2 ^ 64 := Nat.mod_lt _ (by norm_num)
    have h2 : n.Ids.1.Ids.2 = (n.Ids.2 + 1) % 2 ^ 64 := rfl
    rw [h2, Nat.mod_eq_of_lt (by omega)]
    omega
  · intro h
    have h2 : n.Ids.1.Ids.2 = (n.Ids.2 + 1) % 2 ^ 64 := rfl
    rw [h2, h]
    norm_num

/-- C19, witness: the first two calls on a fresh namespace return 1 and 2. -/
theorem Ids_counts_modulo_witness :
    ((exampleNamespace.IdsTimes 0).Ids).2 = (0 + 1) % 2 ^ 64
      ∧ exampleNamespace.Ids.2 < exampleNamespace.Ids.1.Ids.2 :=
  ⟨(Ids_counts_modulo exampleNamespace).1 0 rfl,
    (Ids_counts_modulo exampleNamespace).2.1 (by decide)⟩

/-! ## Options -/

/-- C20: `MaxDisconnectionDuration()` returns 120000 when no value was set and
returns `v` after `SetMaxDisconnectionDuration(v)`, for every `v`. -/
theorem MaxDisconnectionDuration_default_and_set (c : ConnectionStateRecovery) :
    (c.GetRawMaxDisconnectionDuration = none → c.MaxDisconnectionDuration = 120000)
      ∧ ({} : ConnectionStateRecovery).MaxDisconnectionDuration = 120000
      ∧ ∀ v : Int, (c.SetMaxDisconnectionDuration v).MaxDisconnectionDuration = v := by
  refine ⟨?_, rfl, fun v => rfl⟩
  intro h
  simp only [ConnectionStateRecovery.GetRawMaxDisconnectionDuration] at h
  simp [ConnectionStateRecovery.MaxDisconnectionDuration, h]

/-- C20, witness: the default options, and the value 5000. -/
theorem MaxDisconnectionDuration_default_and_set_witness :
    ({} : ConnectionStateRecovery).MaxDisconnectionDuration = 120000
      ∧ (({} : ConnectionStateRecovery).SetMaxDisconnectionDuration 5000).MaxDisconnectionDuration
        = 5000 :=
  ⟨(MaxDisconnectionDuration_default_and_set {}).1 rfl,
    (MaxDisconnectionDuration_default_and_set {}).2.2 5000⟩

/-! ## Lookup of a dynamic namespace: `Server._checkNamespace` -/

theorem Server.log_log (s : Server) (a b : List ServerEvent) :
    (s.log a).log b = s.log (a ++ b) := by
  simp [Server.log]

theorem fnArgs_append (a b : List ServerEvent) : fnArgs (a ++ b) = fnArgs a ++ fnArgs b := by
  induction a with
  | nil => rfl
  | cons x xs ih => cases x <;> simp [fnArgs, ih]

theorem fnArgs_predicates (name : String)
    (L : List (MatchFnKey × ParentNspNameMatchFn × ParentNamespace)) :
    fnArgs (L.map fun x => ServerEvent.predicate x.2.1.key name) = [] := by
  induction L with
  | nil => rfl
  | cons x xs ih => simpa [fnArgs] using ih

/-- The callback on an allowing call: the events of the answer are added and
`end` is cleared. -/
theorem checkNamespace_next_allow (name : String) (pnsp : ParentNamespace) (s : Server)
    (status end_ : Bool) :
    ∃ s', Server._checkNamespace.next name pnsp (s, status, end_) (none, true)
        = (s', status, false)
      ∧ s'.trace = s.trace ++ allowEvents s name pnsp
      ∧ (∀ nsp, s._nsps.Load name = some nsp → s' = s.log [ServerEvent.fn (some nsp)])
      ∧ (s._nsps.Load name = none → s'._nsps = s._nsps.Store name (NewNamespace s name)) := by
  cases h : s._nsps.Load name with
  | some nsp =>
    refine ⟨s.log [ServerEvent.fn (some nsp)], ?_, ?_, ?_, ?_⟩
    · simp [Server._checkNamespace.next, h]
    · simp [allowEvents, h, Server.log]
    · intro nsp' h'; cases h'; rfl
    · intro h'; cases h'
  | none =>
    refine ⟨((pnsp.CreateChild s name).1).log [ServerEvent.fn (some (NewNamespace s name))],
      ?_, ?_, ?_, ?_⟩
    · simp [Server._checkNamespace.next, h, ParentNamespace.CreateChild]
    · simp [allowEvents, h, Server.log, ParentNamespace.CreateChild]
    · intro nsp' h'; cases h'
    · intro _; rfl

/-- The callback on a denying call: `status` is set, nothing else changes. -/
theorem checkNamespace_next_deny (name : String) (pnsp : ParentNamespace) (s : Server)
    (status end_ : Bool) (err : Option String) (allow : Bool)
    (h : err.isSome = true ∨ allow = false) :
    Server._checkNamespace.next name pnsp (s, status, end_) (err, allow) = (s, true, end_) := by
  have : (err.isSome || !allow) = true := by
    rcases h with h | h <;> simp [h]
  simp [Server._checkNamespace.next, this]

/-- The traversal over parents whose predicates all deny: every predicate is
invoked and nothing else happens. -/
theorem checkNamespace_Range_deny (name : String) (auth : Any) :
    ∀ (L : List (MatchFnKey × ParentNspNameMatchFn × ParentNamespace)) (s : Server)
      (end_ : Bool), (∀ x ∈ L, denies name auth x.2.1) →
      Server._checkNamespace.Range name auth L (s, end_) =
        (s.log (L.map fun x => ServerEvent.predicate x.2.1.key name), end_,
          L.map fun x => x.2) := by
  intro L
  induction L with
  | nil => intro s end_ _; simp [Server._checkNamespace.Range, Server.log]
  | cons x xs ih =>
    intro s end_ h
    obtain ⟨key, nextFn, pnsp⟩ := x
    obtain ⟨err, allow, hb, _, hd⟩ := h (key, nextFn, pnsp) (List.mem_cons_self _ _)
    have hb : nextFn.before name auth = [(err, allow)] := hb
    have ih := ih (s.log [ServerEvent.predicate nextFn.key name]) end_
      (fun y hy => h y (List.mem_cons_of_mem _ hy))
    simp only [Server._checkNamespace.Range, hb, List.foldl_cons, List.foldl_nil,
      checkNamespace_next_deny name pnsp _ false end_ err allow hd, if_true, ih,
      Server.log_log]
    simp

/-- The traversal up to the first parent whose predicate allows: the predicates
before it and its own are invoked, the answer is delivered, and the traversal
stops. -/
theorem checkNamespace_Range_allow (name : String) (auth : Any)
    (x : MatchFnKey × ParentNspNameMatchFn × ParentNamespace)
    (post : List (MatchFnKey × ParentNspNameMatchFn × ParentNamespace))
    (hx : allows name auth x.2.1) :
    ∀ (pre : List (MatchFnKey × ParentNspNameMatchFn × ParentNamespace)) (s : Server)
      (end_ : Bool), (∀ y ∈ pre, denies name auth y.2.1) →
      Server._checkNamespace.Range name auth (pre ++ x :: post) (s, end_) =
        ((Server._checkNamespace.next name x.2.2
            (s.log ((pre ++ [x]).map fun y => ServerEvent.predicate y.2.1.key name), false, end_)
            (none, true)).1,
          false, (pre ++ [x]).map fun y => y.2) := by
  intro pre
  induction pre with
  | nil =>
    intro s end_ _
    obtain ⟨key, nextFn, pnsp⟩ := x
    have hb : nextFn.before name auth = [(none, true)] := hx.1
    obtain ⟨s', h1, _⟩ := checkNamespace_next_allow name pnsp
      (s.log [ServerEvent.predicate nextFn.key name]) false end_
    simp only [List.nil_append, Server._checkNamespace.Range, hb, List.foldl_cons,
      List.foldl_nil, h1, List.map_cons, List.map_nil]
    simp
  | cons y ys ih =>
    intro s end_ h
    obtain ⟨key, nextFn, pnsp⟩ := y
    obtain ⟨err, allow, hb, _, hd⟩ := h (key, nextFn, pnsp) (List.mem_cons_self _ _)
    have hb : nextFn.before name auth = [(err, allow)] := hb
    have ih := ih (s.log [ServerEvent.predicate nextFn.key name]) end_
      (fun z hz => h z (List.mem_cons_of_mem _ hz))
    simp only [List.cons_append, Server._checkNamespace.Range, hb, List.foldl_cons,
      List.foldl_nil, checkNamespace_next_deny name pnsp _ false end_ err allow hd, if_true,
      List.append_eq]
    rw [ih]
    simp [Server.log_log]

/-- Predicates that do not call their callback after they have returned leave
nothing to deliver once `_checkNamespace` is through. -/
theorem checkNamespace_no_late_calls (name : String) (auth : Any) (end_ : Bool)
    (visited : List (ParentNspNameMatchFn × ParentNamespace))
    (h : ∀ v ∈ visited, v.1.after name auth = []) (s : Server) :
    visited.foldl
      (fun s v =>
        ((v.1.after name auth).foldl (Server._checkNamespace.next name v.2)
          (s, false, end_)).1) s = s := by
  induction visited generalizing s with
  | nil => rfl
  | cons v vs ih =>
    rw [List.foldl_cons, h v (List.mem_cons_self _ _), List.foldl_nil]
    exact ih (fun w hw => h w (List.mem_cons_of_mem _ hw)) s

/-- Among predicates that each answer once, either all deny or there is a first
one that allows. -/
theorem first_allow_split (name : String) (auth : Any) :
    ∀ L : List (MatchFnKey × ParentNspNameMatchFn × ParentNamespace),
      (∀ x ∈ L, ∃ c, x.2.1.before name auth = [c] ∧ x.2.1.after name auth = []) →
      (∀ x ∈ L, denies name auth x.2.1)
        ∨ ∃ pre x post, L = pre ++ x :: post ∧ (∀ y ∈ pre, denies name auth y.2.1)
            ∧ allows name auth x.2.1 := by
  intro L
  induction L with
  | nil => intro _; exact Or.inl (by simp)
  | cons x xs ih =>
    intro h
    obtain ⟨⟨err, allow⟩, hb, ha⟩ := h x (List.mem_cons_self _ _)
    by_cases hd : err.isSome = true ∨ allow = false
    · have hx : denies name auth x.2.1 := ⟨err, allow, hb, ha, hd⟩
      rcases ih (fun y hy => h y (List.mem_cons_of_mem _ hy)) with hall | ⟨pre, z, post, e, hp, hz⟩
      · left
        intro y hy
        rcases List.mem_cons.mp hy with rfl | hy
        · exact hx
        · exact hall y hy
      · right
        refine ⟨x :: pre, z, post, by rw [e]; rfl, ?_, hz⟩
        intro y hy
        rcases List.mem_cons.mp hy with rfl | hy
        · exact hx
        · exact hp y hy
    · right
      have he : err = none := by
        cases err with
        | none => rfl
        | some e => exact absurd (Or.inl rfl) hd
      have hal : allow = true := by
        cases allow with
        | true => rfl
        | false => exact absurd (Or.inr rfl) hd
      refine ⟨[], x, xs, rfl, by simp, ?_, ha⟩
      rw [hb, he, hal]

/-- The lookup when every predicate visited denies: only `fn(nil)` is called. -/
theorem checkNamespace_of_deny (s : Server) (order : RangeOrder) (name : String) (auth : Any)
    (h : ∀ x ∈ order.visit s.parentNsps.entries, denies name auth x.2.1) :
    s._checkNamespace order name auth =
      s.log (((order.visit s.parentNsps.entries).map
        fun x => ServerEvent.predicate x.2.1.key name) ++ [ServerEvent.fn none]) := by
  simp only [Server._checkNamespace,
    checkNamespace_Range_deny name auth _ s true h, if_true, Server.log_log]
  apply checkNamespace_no_late_calls
  intro v hv
  obtain ⟨x, hx, rfl⟩ := List.mem_map.mp hv
  obtain ⟨_, _, _, ha, _⟩ := h x hx
  exact ha

/-- The lookup when a predicate allows after the predicates visited before it
have denied: the events, and the registry afterwards. -/
theorem checkNamespace_of_allow (s : Server) (order : RangeOrder) (name : String) (auth : Any)
    (pre : List (MatchFnKey × ParentNspNameMatchFn × ParentNamespace))
    (x : MatchFnKey × ParentNspNameMatchFn × ParentNamespace)
    (post : List (MatchFnKey × ParentNspNameMatchFn × ParentNamespace))
    (hL : order.visit s.parentNsps.entries = pre ++ x :: post)
    (hpre : ∀ y ∈ pre, denies name auth y.2.1) (hx : allows name auth x.2.1) :
    (s._checkNamespace order name auth).trace =
        s.trace ++ ((pre ++ [x]).map fun y => ServerEvent.predicate y.2.1.key name)
          ++ allowEvents s name x.2.2
      ∧ (s._nsps.Load name = none →
          (s._checkNamespace order name auth)._nsps = s._nsps.Store name (NewNamespace s name))
      ∧ (∀ nsp, s._nsps.Load name = some nsp →
          (s._checkNamespace order name auth)._nsps = s._nsps) := by
  obtain ⟨s', h1, h2, h3, h4⟩ := checkNamespace_next_allow name x.2.2
    (s.log ((pre ++ [x]).map fun y => ServerEvent.predicate y.2.1.key name)) false true
  have hrun : s._checkNamespace order name auth = s' := by
    simp only [Server._checkNamespace, hL,
      checkNamespace_Range_allow name auth x post hx pre s true hpre, h1]
    simp only [Bool.false_eq_true, if_false]
    apply checkNamespace_no_late_calls
    intro v hv
    obtain ⟨y, hy, rfl⟩ := List.mem_map.mp hv
    rcases List.mem_append.mp hy with hy | hy
    · obtain ⟨_, _, _, ha, _⟩ := hpre y hy
      exact ha
    · rw [List.mem_singleton.mp hy]
      exact hx.2
  rw [hrun]
  refine ⟨?_, ?_, ?_⟩
  · rw [h2]
    simp [Server.log, allowEvents, NewNamespace, Server.Adapter, Server.Opts]
  · intro hnone
    exact h4 hnone
  · intro nsp hsome
    rw [h3 nsp hsome]
    rfl

theorem not_denies_of_allows (name : String) (auth : Any) (f : ParentNspNameMatchFn)
    (ha : allows name auth f) : ¬ denies name auth f := by
  rintro ⟨err, allow, hb, _, hd⟩
  rw [ha.1] at hb
  simp only [List.cons.injEq, Prod.mk.injEq, and_true] at hb
  obtain ⟨h1, h2⟩ := hb
  subst h1 h2
  simp at hd

/-- C12: for predicates that each call their callback once before they return,
`Server._checkNamespace` calls `fn` once. It calls it with nil if and only if
there is no parent namespace or every predicate reports an error or denies;
otherwise it calls it with the namespace already registered under the name if
there is one, and else with a child that an allowing parent creates and that is
registered under the name. -/
theorem checkNamespace_calls_fn_once (s : Server) (order : RangeOrder) (name : String)
    (auth : Any)
    (honce : ∀ e ∈ s.parentNsps.entries,
      ∃ c, e.2.1.before name auth = [c] ∧ e.2.1.after name auth = []) :
    ∃ added r, (s._checkNamespace order name auth).trace = s.trace ++ added
      ∧ fnArgs added = [r]
      ∧ (r = none ↔ ∀ e ∈ s.parentNsps.entries, denies name auth e.2.1)
      ∧ (∀ nsp, r = some nsp →
          s._nsps.Load name = some nsp
            ∨ (s._nsps.Load name = none ∧ nsp = NewNamespace s name
              ∧ (∃ e ∈ s.parentNsps.entries, allows name auth e.2.1
                  ∧ ServerEvent.CreateChild e.2.2.name name ∈ added)
              ∧ (s._checkNamespace order name auth)._nsps.Load name = some nsp)) := by
  have hmem : ∀ e, e ∈ order.visit s.parentNsps.entries ↔ e ∈ s.parentNsps.entries :=
    fun e => (order.perm s.parentNsps.entries).mem_iff
  rcases first_allow_split name auth (order.visit s.parentNsps.entries)
      (fun x hx => honce x ((hmem x).mp hx)) with hall | ⟨pre, x, post, hL, hpre, hx⟩
  · refine ⟨((order.visit s.parentNsps.entries).map
        fun x => ServerEvent.predicate x.2.1.key name) ++ [ServerEvent.fn none], none,
      ?_, ?_, ?_, ?_⟩
    · rw [checkNamespace_of_deny s order name auth hall]; rfl
    · rw [fnArgs_append, fnArgs_predicates]; rfl
    · exact ⟨fun _ e he => hall e ((hmem e).mpr he), fun _ => rfl⟩
    · intro nsp h; cases h
  · obtain ⟨h1, h2, h3⟩ := checkNamespace_of_allow s order name auth pre x post hL hpre hx
    have hxmem : x ∈ s.parentNsps.entries := (hmem x).mp (by rw [hL]; simp)
    cases hload : s._nsps.Load name with
    | some nsp =>
      refine ⟨((pre ++ [x]).map fun y => ServerEvent.predicate y.2.1.key name)
          ++ allowEvents s name x.2.2, some nsp, h1.trans (List.append_assoc _ _ _), ?_, ?_, ?_⟩
      · rw [fnArgs_append, fnArgs_predicates]
        simp [allowEvents, hload, fnArgs]
      · constructor
        · intro h; cases h
        · intro h; exact absurd (h x hxmem) (not_denies_of_allows name auth x.2.1 hx)
      · intro nsp' h
        cases h
        exact Or.inl rfl
    | none =>
      refine ⟨((pre ++ [x]).map fun y => ServerEvent.predicate y.2.1.key name)
          ++ allowEvents s name x.2.2, some (NewNamespace s name),
        h1.trans (List.append_assoc _ _ _), ?_, ?_, ?_⟩
      · rw [fnArgs_append, fnArgs_predicates]
        simp [allowEvents, hload, fnArgs]
      · constructor
        · intro h; cases h
        · intro h; exact absurd (h x hxmem) (not_denies_of_allows name auth x.2.1 hx)
      · intro nsp' h
        cases h
        refine Or.inr ⟨rfl, rfl, ⟨x, hxmem, hx, ?_⟩, ?_⟩
        · simp [allowEvents, hload]
        · rw [h2 hload]
          exact Map.Load_Store _ _ _

/-- C12, witness: two parents whose predicates allow every name. -/
theorem checkNamespace_calls_fn_once_witness :
    ∃ added r,
      (twoParentsServer._checkNamespace newestFirst "/dyn-1" Any.nil).trace =
          twoParentsServer.trace ++ added
      ∧ fnArgs added = [r]
      ∧ (r = none ↔ ∀ e ∈ twoParentsServer.parentNsps.entries, denies "/dyn-1" Any.nil e.2.1)
      ∧ (∀ nsp, r = some nsp →
          twoParentsServer._nsps.Load "/dyn-1" = some nsp
            ∨ (twoParentsServer._nsps.Load "/dyn-1" = none
              ∧ nsp = NewNamespace twoParentsServer "/dyn-1"
              ∧ (∃ e ∈ twoParentsServer.parentNsps.entries, allows "/dyn-1" Any.nil e.2.1
                  ∧ ServerEvent.CreateChild e.2.2.name "/dyn-1" ∈ added)
              ∧ (twoParentsServer._checkNamespace newestFirst "/dyn-1" Any.nil)._nsps.Load
                  "/dyn-1" = some nsp)) :=
  checkNamespace_calls_fn_once twoParentsServer newestFirst "/dyn-1" Any.nil
    (by
      intro e he
      have hentries : twoParentsServer.parentNsps.entries =
          [(MatchFnKey.ptr 2, allowAll 2, ⟨"/_1", []⟩),
            (MatchFnKey.ptr 1, allowAll 1, ⟨"/_0", []⟩)] := rfl
      rw [hentries] at he
      simp only [List.mem_cons, List.mem_singleton, List.not_mem_nil, or_false] at he
      rcases he with h | h <;> rw [h] <;> exact ⟨_, rfl, rfl⟩)

theorem find_first_match {α : Type} (p : α → Bool) (x : α) (post : List α) (hx : p x = true) :
    ∀ pre : List α, (∀ y ∈ pre, p y = false) → (pre ++ x :: post).find? p = some x := by
  intro pre
  induction pre with
  | nil => intro _; simp [hx]
  | cons y ys ih =>
    intro h
    rw [List.cons_append, List.find?_cons, h y (List.mem_cons_self _ _)]
    exact ih (fun z hz => h z (List.mem_cons_of_mem _ hz))

/-- C13, as the claim states it, fails: of two parents registered one after the
other whose predicates both allow, a traversal that visits the later one first
creates the namespace as a child of the later one, and the predicate of the
earlier one is not consulted. -/
theorem checkNamespace_not_in_registration_order :
    allows "/dyn-1" Any.nil (allowAll 1) ∧ allows "/dyn-1" Any.nil (allowAll 2)
      ∧ (emptyServer.Of newestFirst (Name.matchFn (allowAll 1)) none).1.parentNsps.entries =
          [(MatchFnKey.ptr 1, allowAll 1, ⟨"/_0", []⟩)]
      ∧ twoParentsServer.parentNsps.entries =
          [(MatchFnKey.ptr 2, allowAll 2, ⟨"/_1", []⟩),
            (MatchFnKey.ptr 1, allowAll 1, ⟨"/_0", []⟩)]
      ∧ (twoParentsServer._checkNamespace newestFirst "/dyn-1" Any.nil).trace =
          [ServerEvent.predicate (MatchFnKey.ptr 2) "/dyn-1",
            ServerEvent.CreateChild "/_1" "/dyn-1",
            ServerEvent.fn (some (NewNamespace twoParentsServer "/dyn-1"))] :=
  ⟨⟨rfl, rfl⟩, ⟨rfl, rfl⟩, rfl, rfl, rfl⟩

/-- C13, amended: the lookup of a dynamic namespace is first-match-wins over the
parent namespaces in the order in which `Range` visits the registry. When the
predicates visited before `x` deny and the predicate of `x` allows a name that
is not registered, the namespace is the child of the parent of `x`, and no
parent visited after `x` is consulted; likewise `Server.Of` takes the parent of
the first regular expression visited that matches the name. -/
theorem checkNamespace_first_match_in_visit_order (s : Server) (order : RangeOrder)
    (name : String) (auth : Any)
    (pre : List (MatchFnKey × ParentNspNameMatchFn × ParentNamespace))
    (x : MatchFnKey × ParentNspNameMatchFn × ParentNamespace)
    (post : List (MatchFnKey × ParentNspNameMatchFn × ParentNamespace))
    (hL : order.visit s.parentNsps.entries = pre ++ x :: post)
    (hpre : ∀ y ∈ pre, denies name auth y.2.1) (hx : allows name auth x.2.1)
    (hnew : s._nsps.Load name = none) :
    (s._checkNamespace order name auth).trace =
        s.trace ++ ((pre ++ [x]).map fun y => ServerEvent.predicate y.2.1.key name)
          ++ [ServerEvent.CreateChild x.2.2.name name,
              ServerEvent.fn (some (NewNamespace s name))]
      ∧ ∀ (n : String) (fn : Option Listener) (preR : List (Nat × Regexp × ParentNamespace))
          (xR : Nat × Regexp × ParentNamespace) (postR : List (Nat × Regexp × ParentNamespace)),
          order.visit s.parentNamespacesFromRegExp.entries = preR ++ xR :: postR →
          (∀ y ∈ preR, y.2.1.MatchString (Server.Of.n (Name.string n)) = false) →
          xR.2.1.MatchString (Server.Of.n (Name.string n)) = true →
          s._nsps.Load (Server.Of.n (Name.string n)) = none →
          s.Of order (Name.string n) fn =
            ((xR.2.2.CreateChild s (Server.Of.n (Name.string n))).1,
              NamespaceInterface.nsp (xR.2.2.CreateChild s (Server.Of.n (Name.string n))).2) := by
  constructor
  · have h := (checkNamespace_of_allow s order name auth pre x post hL hpre hx).1
    rw [h]
    simp [allowEvents, hnew]
  · intro n fn preR xR postR hR hpreR hxR hload
    have hfind := find_first_match (fun e : Nat × Regexp × ParentNamespace =>
      e.2.1.MatchString (Server.Of.n (Name.string n))) xR postR hxR preR hpreR
    simp only [Server.Of, hload, hR, hfind]

/-- C13, witness: with a traversal in the order of the stores, the first of two
allowing parents creates the child. -/
theorem checkNamespace_first_match_in_visit_order_witness :
    (twoParentsServer._checkNamespace oldestFirst "/dyn-1" Any.nil).trace =
      twoParentsServer.trace ++ [ServerEvent.predicate (MatchFnKey.ptr 1) "/dyn-1"]
        ++ [ServerEvent.CreateChild "/_0" "/dyn-1",
            ServerEvent.fn (some (NewNamespace twoParentsServer "/dyn-1"))] :=
  (checkNamespace_first_match_in_visit_order twoParentsServer oldestFirst "/dyn-1" Any.nil []
    (MatchFnKey.ptr 1, allowAll 1, ⟨"/_0", []⟩) [(MatchFnKey.ptr 2, allowAll 2, ⟨"/_1", []⟩)]
    rfl (by simp) ⟨rfl, rfl⟩ rfl).1

/-- C14: a predicate that delivers its allow decision only after it has returned
makes `Server._checkNamespace` call `fn` twice: at once with nil, because `end`
is still set when the traversal is over, and with the created namespace when
the decision arrives. -/
theorem checkNamespace_async_predicate_gets_nil :
    (asyncServer._checkNamespace newestFirst "/dyn-1" Any.nil).trace =
        [ServerEvent.predicate (MatchFnKey.ptr 1) "/dyn-1", ServerEvent.fn none,
          ServerEvent.CreateChild "/_0" "/dyn-1",
          ServerEvent.fn (some (NewNamespace asyncServer "/dyn-1"))]
      ∧ fnArgs (asyncServer._checkNamespace newestFirst "/dyn-1" Any.nil).trace =
        [none, some (NewNamespace asyncServer "/dyn-1")] :=
  ⟨rfl, rfl⟩

/-- C18: for a string that matches a registered regular-expression parent and is
not yet registered, `Server.Of` returns the child as soon as it is created: the
handler `fn` is not registered on it, neither on the namespace returned nor on
the one in the registry. For a plain string the handler is registered. -/
theorem Of_drops_handler_of_regexp_child :
    (regexServer.Of newestFirst (Name.string "/dyn-1") (some (idleListener 7))).2 =
        NamespaceInterface.nsp (NewNamespace regexServer "/dyn-1")
      ∧ (NewNamespace regexServer "/dyn-1").listeners = []
      ∧ ((regexServer.Of newestFirst (Name.string "/dyn-1") (some (idleListener 7))).1._nsps.Load
          "/dyn-1").map Namespace.listeners = some []
      ∧ (emptyServer.Of newestFirst (Name.string "/chat") (some (idleListener 7))).2 =
        NamespaceInterface.nsp
          ((NewNamespace emptyServer "/chat").On "connect" (idleListener 7))
      ∧ ((NewNamespace emptyServer "/chat").On "connect" (idleListener 7)).listeners =
        [("connect", idleListener 7)] :=
  ⟨rfl, rfl, rfl, rfl, rfl⟩

/-! ## The registry: `Server.Of` and `Server.SetAdapter` -/

theorem Map.Store_keys_nodup {κ ν : Type} [DecidableEq κ] (m : Map κ ν) (key : κ) (value : ν)
    (h : (m.entries.map Prod.fst).Nodup) : ((m.Store key value).entries.map Prod.fst).Nodup := by
  simp only [Map.Store, Map.Delete, List.map_cons, List.nodup_cons]
  constructor
  · intro hmem
    obtain ⟨e, he, hk⟩ := List.mem_map.mp hmem
    have := (List.mem_filter.mp he).2
    simp [hk] at this
  · exact (List.filter_sublist _).map Prod.fst |>.nodup h

theorem Map.Store_count {κ ν : Type} [DecidableEq κ] (m : Map κ ν) (key : κ) (value : ν) :
    ((m.Store key value).entries.filter fun e => decide (e.1 = key)).length = 1 := by
  simp only [Map.Store, Map.Delete, List.filter_cons, decide_True, if_true, List.length_cons,
    List.filter_filter]
  have : (m.entries.filter fun e => decide (e.1 = key) && !decide (e.1 = key)) = [] := by
    rw [List.filter_eq_nil_iff]
    intro e _
    simp
  rw [this]
  rfl

theorem Map.count_of_Load {κ ν : Type} [DecidableEq κ] (m : Map κ ν) (key : κ) (value : ν)
    (hnodup : (m.entries.map Prod.fst).Nodup) (hload : m.Load key = some value) :
    (m.entries.filter fun e => decide (e.1 = key)).length = 1 := by
  obtain ⟨entries⟩ := m
  simp only [Map.Load] at hload
  simp only at hnodup
  induction entries with
  | nil => simp at hload
  | cons e es ih =>
    rw [List.map_cons, List.nodup_cons] at hnodup
    by_cases hk : e.1 = key
    · have hnone : (es.filter fun e => decide (e.1 = key)) = [] := by
        rw [List.filter_eq_nil_iff]
        intro x hx hdec
        have hx1 : x.1 = key := by simpa using hdec
        exact hnodup.1 (List.mem_map.mpr ⟨x, hx, by rw [hx1, hk]⟩)
      simp [List.filter_cons, hk, hnone]
    · have hload' : Option.map Prod.snd (es.find? fun e => decide (e.1 = key)) = some value := by
        simpa [List.find?_cons, hk] using hload
      simpa [List.filter_cons, hk] using ih hnodup.2 hload'

/-- `Server.Of` on a name that is registered: the namespace of the registry, with
the handler registered on it if there is one. -/
theorem Of_registered (s : Server) (order : RangeOrder) (name : String) (fn : Option Listener)
    (nsp : Namespace) (h : s._nsps.Load (Server.Of.n (Name.string name)) = some nsp) :
    s.Of order (Name.string name) fn =
      match fn with
      | some fn =>
        ({ s with _nsps := s._nsps.Store (Server.Of.n (Name.string name)) (nsp.On "connect" fn) },
          NamespaceInterface.nsp (nsp.On "connect" fn))
      | none => (s, NamespaceInterface.nsp nsp) := by
  cases fn <;> simp [Server.Of, h]

/-- After `Server.Of` on a string the namespace returned is the one registered
under the name. -/
theorem Of_registers (s : Server) (order : RangeOrder) (name : String) (fn : Option Listener)
    (hkeys : (s._nsps.entries.map Prod.fst).Nodup) :
    ∃ nsp, (s.Of order (Name.string name) fn).2 = NamespaceInterface.nsp nsp
      ∧ (s.Of order (Name.string name) fn).1._nsps.Load (Server.Of.n (Name.string name))
          = some nsp
      ∧ ((s.Of order (Name.string name) fn).1._nsps.entries.map Prod.fst).Nodup := by
  cases hload : s._nsps.Load (Server.Of.n (Name.string name)) with
  | some nsp =>
    rw [Of_registered s order name fn nsp hload]
    cases fn with
    | none => exact ⟨nsp, rfl, hload, hkeys⟩
    | some fn =>
      exact ⟨nsp.On "connect" fn, rfl, Map.Load_Store _ _ _, Map.Store_keys_nodup _ _ _ hkeys⟩
  | none =>
    cases hfind : (order.visit s.parentNamespacesFromRegExp.entries).find?
        fun e => e.2.1.MatchString (Server.Of.n (Name.string name)) with
    | some x =>
      obtain ⟨k, r, p⟩ := x
      refine ⟨NewNamespace s (Server.Of.n (Name.string name)), ?_, ?_, ?_⟩
      · simp [Server.Of, hload, hfind, ParentNamespace.CreateChild]
      · simp only [Server.Of, hload, hfind, ParentNamespace.CreateChild]
        exact Map.Load_Store _ _ _
      · simp only [Server.Of, hload, hfind, ParentNamespace.CreateChild]
        exact Map.Store_keys_nodup _ _ _ hkeys
    | none =>
      refine ⟨match fn with
        | some fn => (NewNamespace s (Server.Of.n (Name.string name))).On "connect" fn
        | none => NewNamespace s (Server.Of.n (Name.string name)), ?_, ?_, ?_⟩
      · simp [Server.Of, hload, hfind]
      · simp only [Server.Of, hload, hfind]
        split <;> exact Map.Load_Store _ _ _
      · simp only [Server.Of, hload, hfind]
        split <;> exact Map.Store_keys_nodup _ _ _ hkeys

/-- C15: `Server.Of` caches namespaces by exact name. For every string, a second
`Of` of the same name returns the namespace that the first call returned (with
the handler of the second call registered on it, if one is given), creates no
namespace, and leaves one entry for the name in the registry. -/
theorem Of_caches_by_name (s : Server) (order : RangeOrder) (name : String)
    (fn1 fn2 : Option Listener) (hkeys : (s._nsps.entries.map Prod.fst).Nodup) :
    ∃ nsp1, (s.Of order (Name.string name) fn1).2 = NamespaceInterface.nsp nsp1
      ∧ ((s.Of order (Name.string name) fn1).1.Of order (Name.string name) fn2).2 =
          NamespaceInterface.nsp
            (match fn2 with
            | some fn => nsp1.On "connect" fn
            | none => nsp1)
      ∧ ((s.Of order (Name.string name) fn1).1.Of order (Name.string name) fn2).1.trace =
          (s.Of order (Name.string name) fn1).1.trace
      ∧ (((s.Of order (Name.string name) fn1).1.Of order (Name.string name) fn2).1._nsps.entries.filter
          fun e => decide (e.1 = Server.Of.n (Name.string name))).length = 1
      ∧ (fn2 = none →
          ((s.Of order (Name.string name) fn1).1.Of order (Name.string name) fn2).1 =
            (s.Of order (Name.string name) fn1).1) := by
  obtain ⟨nsp1, h1, h2, h3⟩ := Of_registers s order name fn1 hkeys
  refine ⟨nsp1, h1, ?_⟩
  rw [Of_registered _ order name fn2 nsp1 h2]
  cases fn2 with
  | none => exact ⟨rfl, rfl, Map.count_of_Load _ _ _ h3 h2, fun _ => rfl⟩
  | some fn => exact ⟨rfl, rfl, Map.Store_count _ _ _, fun h => by cases h⟩

/-- C15, witness: `Of("chat")` twice on a server without namespaces. -/
theorem Of_caches_by_name_witness :
    ∃ nsp1, (emptyServer.Of newestFirst (Name.string "chat") none).2 = NamespaceInterface.nsp nsp1
      ∧ ((emptyServer.Of newestFirst (Name.string "chat") none).1.Of newestFirst
          (Name.string "chat") none).2 =
          NamespaceInterface.nsp
            (match (none : Option Listener) with
            | some fn => nsp1.On "connect" fn
            | none => nsp1)
      ∧ ((emptyServer.Of newestFirst (Name.string "chat") none).1.Of newestFirst
          (Name.string "chat") none).1.trace =
          (emptyServer.Of newestFirst (Name.string "chat") none).1.trace
      ∧ (((emptyServer.Of newestFirst (Name.string "chat") none).1.Of newestFirst
          (Name.string "chat") none).1._nsps.entries.filter
          fun e => decide (e.1 = Server.Of.n (Name.string "chat"))).length = 1
      ∧ ((none : Option Listener) = none →
          ((emptyServer.Of newestFirst (Name.string "chat") none).1.Of newestFirst
            (Name.string "chat") none).1 =
            (emptyServer.Of newestFirst (Name.string "chat") none).1) :=
  Of_caches_by_name emptyServer newestFirst "chat" none none List.nodup_nil

/-- C16: after `Server.SetAdapter(v)`, `Adapter()` returns `v`, and every
namespace of the registry has been initialised anew, once: its adapter is
`v.New` of the namespace, and nothing else in the registry has changed. -/
theorem SetAdapter_reinitialises (s : Server) (order : RangeOrder) (v : AdapterConstructor) :
    (s.SetAdapter order v).Adapter = v
      ∧ (s.SetAdapter order v)._nsps.entries =
          s._nsps.entries.map (fun (e : String × Namespace) =>
            (e.1, { e.2 with adapter := v.New e.2.name }))
      ∧ (∀ e ∈ (s.SetAdapter order v)._nsps.entries, e.2.adapter = v.New e.2.name)
      ∧ ∃ added, (s.SetAdapter order v).trace = s.trace ++ added
          ∧ added.Perm (s._nsps.entries.map fun (e : String × Namespace) =>
              ServerEvent.InitAdapter e.1) := by
  refine ⟨rfl, rfl, ?_, ?_⟩
  · intro e he
    have he : e ∈ s._nsps.entries.map fun (e : String × Namespace) =>
        (e.1, { e.2 with adapter := v.New e.2.name }) := he
    obtain ⟨e', _, rfl⟩ := List.mem_map.mp he
    rfl
  · exact ⟨_, rfl, (order.perm s._nsps.entries).map _⟩

/-- C16, witness: the server with the namespace `/chat` gets another adapter. -/
theorem SetAdapter_reinitialises_witness :
    (chatServer.SetAdapter newestFirst otherConstructor).Adapter = otherConstructor
      ∧ ∀ e ∈ (chatServer.SetAdapter newestFirst otherConstructor)._nsps.entries,
          e.2.adapter = otherConstructor.New e.2.name :=
  ⟨(SetAdapter_reinitialises chatServer newestFirst otherConstructor).1,
    (SetAdapter_reinitialises chatServer newestFirst otherConstructor).2.2.1⟩

/-! ## A connection that is closed when the chain ends -/

/-- The goroutines of a list of final calls on a connection that is not open:
each of them cleans the socket up and does nothing else. -/
theorem Add_go_foldl_closed (client : Client) (socket : Socket) (fn : Option Effect)
    (hclosed : client.conn.readyState ≠ "open") :
    ∀ (calls : List (Option ExtendedError)) (n0 : Namespace),
      (calls.foldl (fun m err => Namespace.Add.go m client socket fn err) n0).trace =
          n0.trace ++ List.replicate calls.length (Action.cleanup socket.Id)
        ∧ (calls ≠ [] →
            (calls.foldl (fun m err => Namespace.Add.go m client socket fn err) n0).sockets =
              n0.sockets.Delete socket.Id)
        ∧ (calls = [] →
            (calls.foldl (fun m err => Namespace.Add.go m client socket fn err) n0).sockets =
              n0.sockets) := by
  intro calls
  induction calls with
  | nil => intro n0; simp
  | cons c cs ih =>
    intro n0
    obtain ⟨h1, h2, h3⟩ := ih (Namespace.Add.go n0 client socket fn c)
    rw [List.foldl_cons]
    have hgo := Add_go_closed n0 client socket fn c hclosed
    refine ⟨?_, ?_, ?_⟩
    · rw [h1, hgo]
      simp [Socket._cleanup, Namespace.log, Namespace.remove, List.replicate_succ]
    · intro _
      by_cases hcs : cs = []
      · rw [h3 hcs, hgo]; rfl
      · rw [h2 hcs, hgo]
        simp [Socket._cleanup, Namespace.log, Namespace.remove, Map.Delete_Delete]
    · intro h; cases h

/-- C28: if the connection is not `open` when the final callback of the chain is
called, `Namespace.Add` only cleans the socket up, whether or not the chain
ended with an error: after the events of the chain there is one `_cleanup` for
each call of the final callback and nothing else, so no connection-error is
sent, the socket is not stored, the caller's callback is not called and neither
`connect` nor `connection` is emitted. -/
theorem Add_closed_only_cleans_up (n : Namespace) (client : Client) (later : Conn)
    (auth : Auth) (fn : Option Effect)
    (hchain : (n.serverOpts.ConnectionStateRecovery.SkipMiddlewares
      && (n._createSocket client auth).Recovered && client.conn.readyState == "open") = false)
    (hclosed : later.readyState ≠ "open") :
    (n.Add client later auth fn).trace =
        n.trace ++ (n.run (n._createSocket client auth)).map Action.chain
          ++ List.replicate (fnCalls (n.run (n._createSocket client auth))).length
              (Action.cleanup (n._createSocket client auth).Id)
      ∧ (∀ id payload, Action.error id payload ∉
          List.replicate (fnCalls (n.run (n._createSocket client auth))).length
            (Action.cleanup (n._createSocket client auth).Id))
      ∧ (∀ id, Action.store id ∉
          List.replicate (fnCalls (n.run (n._createSocket client auth))).length
            (Action.cleanup (n._createSocket client auth).Id))
      ∧ (fnCalls (n.run (n._createSocket client auth)) ≠ [] →
          (n.Add client later auth fn).sockets.Load (n._createSocket client auth).Id = none) := by
  obtain ⟨h1, h2, _⟩ := Add_go_foldl_closed { client with conn := later }
    (n._createSocket client auth) fn hclosed (fnCalls (n.run (n._createSocket client auth)))
    (n.log ((n.run (n._createSocket client auth)).map Action.chain))
  rw [Add_chain n client later auth fn hchain]
  refine ⟨by rw [h1]; rfl, ?_, ?_, ?_⟩
  · intro id payload hmem
    cases (List.eq_of_mem_replicate hmem)
  · intro id hmem
    cases (List.eq_of_mem_replicate hmem)
  · intro hne
    rw [h2 hne]
    exact Map.Load_Delete _ _

/-- C28, witness: the chain `[pass, pass]` accepts, but the connection is closed
by then. -/
theorem Add_closed_only_cleans_up_witness :
    (((exampleNamespace.Use pass).Use pass).Add exampleClient ⟨"closed", 4⟩ exampleAuth
        none).trace =
      [Action.chain (RunEvent.middleware 0), Action.chain (RunEvent.next 0 none),
        Action.chain (RunEvent.middleware 1), Action.chain (RunEvent.next 1 none),
        Action.chain (RunEvent.fn none), Action.cleanup "sid-1"] :=
  (Add_closed_only_cleans_up ((exampleNamespace.Use pass).Use pass) exampleClient
    ⟨"closed", 4⟩ exampleAuth none rfl (by decide)).1

/-! ## Names of namespaces -/

theorem String.front_cons (c : Char) (cs : List Char) : (String.mk (c :: cs)).front = c := by
  rfl

/-- The name under which `Server.Of` looks a string up, by cases on the string. -/
theorem Of_n_string (n : String) :
    Server.Of.n (Name.string n) =
      match n.data with
      | [] => "/"
      | c :: _ => if c = '/' then n else "/" ++ n := by
  obtain ⟨data⟩ := n
  cases data with
  | nil => rfl
  | cons c cs =>
    have hlen : (String.mk (c :: cs)).length > 0 := by
      simp [String.length]
    simp only [Server.Of.n, hlen, if_true, String.front_cons]
    by_cases hc : c = '/'
    · simp [hc]
    · simp [hc]

theorem slash_append_data (rest : String) : ("/" ++ rest).data = '/' :: rest.data := by
  obtain ⟨data⟩ := rest
  rfl

/-- C27: `Server.Of` normalises the name before it looks it up. A string that
begins with `/` is used unchanged, a non-empty string that does not begin with
`/` gets `/` prepended, and the empty string or a value that is neither a
string, a regular expression nor a predicate denotes `/`. The name obtained
begins with `/`, normalising it again changes nothing, and two strings with the
same normalised name denote the same namespace, so `Of("x")` is `Of("/x")`. -/
theorem Of_normalises_name :
    (∀ rest : String, Server.Of.n (Name.string ("/" ++ rest)) = "/" ++ rest)
      ∧ (∀ n : String, n ≠ "" → (∀ rest : String, n ≠ "/" ++ rest) →
          Server.Of.n (Name.string n) = "/" ++ n)
      ∧ Server.Of.n (Name.string "") = "/"
      ∧ Server.Of.n Name.other = "/"
      ∧ (∀ name : Name, ∃ rest : String, Server.Of.n name = "/" ++ rest)
      ∧ (∀ name : Name, Server.Of.n (Name.string (Server.Of.n name)) = Server.Of.n name)
      ∧ (∀ (s : Server) (order : RangeOrder) (fn : Option Listener) (a b : String),
          Server.Of.n (Name.string a) = Server.Of.n (Name.string b) →
          s.Of order (Name.string a) fn = s.Of order (Name.string b) fn)
      ∧ (∀ (s : Server) (order : RangeOrder) (fn : Option Listener),
          s.Of order (Name.string "x") fn = s.Of order (Name.string "/x") fn) := by
  have hslash : ∀ rest : String, Server.Of.n (Name.string ("/" ++ rest)) = "/" ++ rest := by
    intro rest
    rw [Of_n_string, slash_append_data]
    simp
  have hbegins : ∀ name : Name, ∃ rest : String, Server.Of.n name = "/" ++ rest := by
    intro name
    cases name with
    | matchFn p => exact ⟨"", rfl⟩
    | regexp r => exact ⟨"", rfl⟩
    | other => exact ⟨"", rfl⟩
    | string n =>
      rw [Of_n_string]
      obtain ⟨data⟩ := n
      cases data with
      | nil => exact ⟨"", rfl⟩
      | cons c cs =>
        by_cases hc : c = '/'
        · subst hc
          exact ⟨String.mk cs, by simp; rfl⟩
        · exact ⟨String.mk (c :: cs), by simp [hc]⟩
  have hsame : ∀ (s : Server) (order : RangeOrder) (fn : Option Listener) (a b : String),
      Server.Of.n (Name.string a) = Server.Of.n (Name.string b) →
      s.Of order (Name.string a) fn = s.Of order (Name.string b) fn := by
    intro s order fn a b h
    simp only [Server.Of, h]
  refine ⟨hslash, ?_, rfl, rfl, hbegins, ?_, hsame, ?_⟩
  · intro n hne hno
    rw [Of_n_string]
    obtain ⟨data⟩ := n
    cases data with
    | nil => exact absurd rfl hne
    | cons c cs =>
      by_cases hc : c = '/'
      · subst hc
        exact absurd (show String.mk ('/' :: cs) = "/" ++ String.mk cs from rfl) (hno _)
      · simp [hc]
  · intro name
    obtain ⟨rest, h⟩ := hbegins name
    rw [h]
    exact hslash rest
  · intro s order fn
    exact hsame s order fn "x" "/x" (by decide)

/-- C27, witness: the names `x` and `/x`. -/
theorem Of_normalises_name_witness :
    Server.Of.n (Name.string "x") = "/" ++ "x"
      ∧ emptyServer.Of newestFirst (Name.string "x") none =
        emptyServer.Of newestFirst (Name.string "/x") none :=
  ⟨Of_normalises_name.2.1 "x" (by decide)
      (by
        intro rest h
        have := congrArg String.data h
        rw [slash_append_data] at this
        simp at this),
    Of_normalises_name.2.2.2.2.2.2.1 emptyServer newestFirst none "x" "/x" (by decide)⟩

/-! ## Construction and attachment of the server -/

/-- `Server.Of` on a string leaves the adapter constructor of the server as it is. -/
theorem Of_string_adapter (s : Server) (order : RangeOrder) (n : String) (fn : Option Listener) :
    (s.Of order (Name.string n) fn).1._adapter = s._adapter := by
  cases hload : s._nsps.Load (Server.Of.n (Name.string n)) with
  | some nsp =>
    rw [Of_registered s order n fn nsp hload]
    cases fn <;> rfl
  | none =>
    cases hfind : (order.visit s.parentNamespacesFromRegExp.entries).find?
        fun e => e.2.1.MatchString (Server.Of.n (Name.string n)) with
    | some x =>
      obtain ⟨k, r, p⟩ := x
      simp [Server.Of, hload, hfind, ParentNamespace.CreateChild, Server.log]
    | none =>
      simp only [Server.Of, hload, hfind]
      split <;> rfl

/-- `Server.Attach` leaves the adapter constructor of the server as it is. -/
theorem Attach_adapter (s s' : Server) (srv : Srv) (opts : Option ServerOptions)
    (h : s.Attach srv opts = some s') : s'._adapter = s._adapter := by
  cases srv <;> simp only [Server.Attach] at h <;> cases h <;> rfl

/-- The adapter constructor of a constructed server, as `Construct` computes it. -/
theorem Construct_adapter (s : Server) (order : RangeOrder) (builders : Builders)
    (srv : Option Srv) (opts : Option ServerOptions) (s' : Server)
    (h : s.Construct order builders srv opts = some s') :
    s'._adapter =
      if (opts.getD DefaultServerOptions).GetRawAdapter.isSome then
        (opts.getD DefaultServerOptions).Adapter builders.AdapterBuilder
      else
        if (opts.getD DefaultServerOptions).GetRawConnectionStateRecovery.isSome then
          builders.SessionAwareAdapterBuilder
        else builders.AdapterBuilder := by
  cases opts <;> cases srv <;> simp only [Server.Construct, Option.getD] at h ⊢
  all_goals first
    | (rw [Attach_adapter _ s' _ none h, Of_string_adapter]; split_ifs <;> rfl)
    | (cases h; rw [Of_string_adapter]; split_ifs <;> rfl)

/-- C25: `Server.Construct` chooses the adapter constructor by a fixed rule: the
adapter set in the options if there is one; otherwise the session-aware adapter
when connection-state recovery is configured in the options; otherwise the
in-memory adapter. Nil options are the default options. -/
theorem Construct_chooses_adapter (s : Server) (order : RangeOrder) (builders : Builders)
    (srv : Option Srv) (opts : Option ServerOptions) (s' : Server)
    (h : s.Construct order builders srv opts = some s') :
    (∀ adapter, (opts.getD DefaultServerOptions).GetRawAdapter = some adapter →
        s'.Adapter = adapter)
      ∧ ((opts.getD DefaultServerOptions).GetRawAdapter = none →
          (opts.getD DefaultServerOptions).GetRawConnectionStateRecovery.isSome = true →
          s'.Adapter = builders.SessionAwareAdapterBuilder)
      ∧ ((opts.getD DefaultServerOptions).GetRawAdapter = none →
          (opts.getD DefaultServerOptions).GetRawConnectionStateRecovery = none →
          s'.Adapter = builders.AdapterBuilder) := by
  have hadapter := Construct_adapter s order builders srv opts s' h
  generalize opts.getD DefaultServerOptions = o at hadapter ⊢
  refine ⟨?_, ?_, ?_⟩
  · intro adapter ha
    have hsome : o.GetRawAdapter.isSome = true := by rw [ha]; rfl
    rw [Server.Adapter, hadapter, if_pos hsome]
    simp [ServerOptions.Adapter, show o.adapter = some adapter from ha]
  · intro ha hr
    have hnone : ¬ o.GetRawAdapter.isSome = true := by rw [ha]; simp
    rw [Server.Adapter, hadapter, if_neg hnone, if_pos hr]
  · intro ha hr
    have hnone : ¬ o.GetRawAdapter.isSome = true := by rw [ha]; simp
    have hrn : ¬ o.GetRawConnectionStateRecovery.isSome = true := by rw [hr]; simp
    rw [Server.Adapter, hadapter, if_neg hnone, if_neg hrn]

/-- C25, witness: options with connection-state recovery and no adapter. -/
theorem Construct_chooses_adapter_witness :
    ((emptyServer.Construct newestFirst exampleBuilders none
        (some { connectionStateRecovery := some {} })).map Server.Adapter)
      = some exampleBuilders.SessionAwareAdapterBuilder := by
  cases h : emptyServer.Construct newestFirst exampleBuilders none
      (some { connectionStateRecovery := some {} }) with
  | none => cases h
  | some s' =>
    have := (Construct_chooses_adapter emptyServer newestFirst exampleBuilders none
      (some { connectionStateRecovery := some {} }) s' h).2.1 rfl rfl
    simp [this]

/-- C26: the options handed to the engine do not carry the current `Path()` of
the server. `Assign` has already set the path of the options to the path of the
options of the server, so `opts.SetPath(s._path)` is never reached: a server
constructed with the path `/custom/` has `Path()` equal to `/custom` and hands
`/custom/` to the engine, and a server whose path was set to `/moved` after its
construction hands `/socket.io` to the engine, through `Attach` and through
`ServeHandler`. -/
theorem Attach_engine_path_is_not_server_path :
    customPathServer.map Server.Path = some "/custom"
      ∧ (customPathServer.bind fun s => s.Attach Srv.httpServer none).map
          (fun s => s.eio.map ServerOptions.Path) = some (some "/custom/")
      ∧ customPathServer.map (fun s => (s.ServeHandler none).2.Path) = some "/custom/"
      ∧ movedPathServer.map Server.Path = some "/moved"
      ∧ (movedPathServer.bind fun s => s.Attach Srv.httpServer none).map
          (fun s => s.eio.map ServerOptions.Path) = some (some "/socket.io")
      ∧ movedPathServer.map (fun s => (s.ServeHandler (some {})).2.Path) = some "/socket.io" :=
  ⟨rfl, rfl, rfl, rfl, rfl, rfl⟩

/-! ## The room registry -/

theorem find_filter_ne {κ ν : Type} [DecidableEq κ] (key key' : κ) (hne : ¬ key = key') :
    ∀ es : List (κ × ν),
      (es.filter fun e => !decide (e.1 = key)).find? (fun e => decide (e.1 = key')) =
        es.find? fun e => decide (e.1 = key') := by
  intro es
  induction es with
  | nil => rfl
  | cons e es ih =>
    by_cases he : e.1 = key
    · have hd : (!decide (e.1 = key)) = false := by simp [he]
      have hd' : (decide (e.1 = key')) = false := by
        rw [he]; simpa using hne
      simp only [List.filter_cons, hd, List.find?_cons, hd', Bool.false_eq_true, if_false]
      exact ih
    · have hd : (!decide (e.1 = key)) = true := by simp [he]
      by_cases he' : e.1 = key'
      · have hp : (decide (e.1 = key')) = true := by simp [he']
        simp only [List.filter_cons, hd, List.find?_cons, hp, if_true]
      · have hp : (decide (e.1 = key')) = false := by simp [he']
        simp only [List.filter_cons, hd, List.find?_cons, hp, if_true]
        exact ih

theorem Map.Load_Store_ne {κ ν : Type} [DecidableEq κ] (m : Map κ ν) (key key' : κ) (value : ν)
    (h : key' ≠ key) : (m.Store key value).Load key' = m.Load key' := by
  obtain ⟨entries⟩ := m
  have hne : ¬ key = key' := fun e => h e.symm
  have hp : (decide (key = key')) = false := by simpa using hne
  simp only [Map.Load, Map.Store, Map.Delete, List.find?_cons, hp]
  rw [find_filter_ne key key' hne]

theorem Map.Load_Delete_ne {κ ν : Type} [DecidableEq κ] (m : Map κ ν) (key key' : κ)
    (h : key' ≠ key) : (m.Delete key).Load key' = m.Load key' := by
  obtain ⟨entries⟩ := m
  have hne : ¬ key = key' := fun e => h e.symm
  simp only [Map.Load, Map.Delete]
  rw [find_filter_ne key key' hne]

/-- Taking a socket out of a room removes this one membership and no other. -/
theorem mem_del (rooms : Map Room (List SocketId)) (room r : Room) (id x : SocketId) :
    x ∈ ((RoomRegistry._del rooms room id).Load r).getD [] ↔
      x ∈ (rooms.Load r).getD [] ∧ ¬ (r = room ∧ x = id) := by
  unfold RoomRegistry._del
  cases hload : rooms.Load room with
  | none =>
    by_cases hr : r = room
    · subst hr; simp [hload]
    · simp [hr]
  | some ids =>
    by_cases hr : r = room
    · subst hr
      by_cases hempty : (ids.filter fun y => y != id).isEmpty = true
      · simp only [hempty, if_true, Map.Load_Delete, hload, Option.getD_none, Option.getD_some,
          List.not_mem_nil, true_and, false_iff, not_and, not_not]
        intro hx
        have hnil : (ids.filter fun y => y != id) = [] := List.isEmpty_iff.mp hempty
        rw [List.filter_eq_nil_iff] at hnil
        simpa using hnil x hx
      · simp only [hempty, Bool.false_eq_true, if_false, Map.Load_Store, hload,
          Option.getD_some, List.mem_filter, true_and]
        simp
    · by_cases hempty : (ids.filter fun y => y != id).isEmpty = true
      · simp only [hempty, if_true]
        rw [Map.Load_Delete_ne _ _ _ hr]
        simp [hr]
      · simp only [hempty, Bool.false_eq_true, if_false]
        rw [Map.Load_Store_ne _ _ _ _ hr]
        simp [hr]

/-- The sockets of the rooms after `AddAll`. -/
theorem mem_socketsOf_AddAll (id : SocketId) (rooms : List Room) :
    ∀ (a : RoomRegistry) (x : SocketId) (r : Room),
      x ∈ (a.AddAll id rooms).socketsOf r ↔ x ∈ a.socketsOf r ∨ (x = id ∧ r ∈ rooms) := by
  have hfold : ∀ (rs : List Room) (a : RoomRegistry) (x : SocketId) (r : Room),
      x ∈ (rs.foldl
          (fun a room =>
            ({ rooms := a.rooms.Store room ((a.socketsOf room).insert id),
               sids := a.sids.Store id ((a.SocketRooms id).insert room) } : RoomRegistry))
          a).socketsOf r ↔ x ∈ a.socketsOf r ∨ (x = id ∧ r ∈ rs) := by
    intro rs
    induction rs with
    | nil => intro a x r; simp
    | cons room rs ih =>
      intro a x r
      rw [List.foldl_cons, ih]
      by_cases hr : r = room
      · subst hr
        simp only [RoomRegistry.socketsOf, Map.Load_Store, Option.getD_some, List.mem_insert_iff,
          List.mem_cons, true_or, and_true]
        tauto
      · simp only [RoomRegistry.socketsOf, Map.Load_Store_ne _ _ _ _ hr, List.mem_cons, hr,
          false_or]
  intro a x r
  unfold RoomRegistry.AddAll
  rw [hfold]
  rfl

/-- The rooms of the sockets after `AddAll`. -/
theorem mem_SocketRooms_AddAll (id : SocketId) (rooms : List Room) :
    ∀ (a : RoomRegistry) (x : SocketId) (r : Room),
      r ∈ (a.AddAll id rooms).SocketRooms x ↔ r ∈ a.SocketRooms x ∨ (x = id ∧ r ∈ rooms) := by
  have hfold : ∀ (rs : List Room) (a : RoomRegistry) (x : SocketId) (r : Room),
      r ∈ (rs.foldl
          (fun a room =>
            ({ rooms := a.rooms.Store room ((a.socketsOf room).insert id),
               sids := a.sids.Store id ((a.SocketRooms id).insert room) } : RoomRegistry))
          a).SocketRooms x ↔ r ∈ a.SocketRooms x ∨ (x = id ∧ r ∈ rs) := by
    intro rs
    induction rs with
    | nil => intro a x r; simp
    | cons room rs ih =>
      intro a x r
      rw [List.foldl_cons, ih]
      by_cases hx : x = id
      · subst hx
        simp only [RoomRegistry.SocketRooms, Map.Load_Store, Option.getD_some,
          List.mem_insert_iff, List.mem_cons, true_and]
        tauto
      · simp only [RoomRegistry.SocketRooms, Map.Load_Store_ne _ _ _ _ hx, hx, false_and,
          or_false]
  intro a x r
  unfold RoomRegistry.AddAll
  rw [hfold]
  by_cases hx : x = id
  · subst hx
    simp [RoomRegistry.SocketRooms, Map.Load_Store]
  · simp [RoomRegistry.SocketRooms, Map.Load_Store_ne _ _ _ _ hx]

/-- The sockets of the rooms after `Del`. -/
theorem mem_socketsOf_Del (a : RoomRegistry) (id : SocketId) (room : Room) (x : SocketId)
    (r : Room) :
    x ∈ (a.Del id room).socketsOf r ↔ x ∈ a.socketsOf r ∧ ¬ (r = room ∧ x = id) :=
  mem_del a.rooms room r id x

/-- The rooms of the sockets after `Del`. -/
theorem mem_SocketRooms_Del (a : RoomRegistry) (id : SocketId) (room : Room) (x : SocketId)
    (r : Room) :
    r ∈ (a.Del id room).SocketRooms x ↔ r ∈ a.SocketRooms x ∧ ¬ (r = room ∧ x = id) := by
  unfold RoomRegistry.Del RoomRegistry.SocketRooms
  cases hload : a.sids.Load id with
  | none =>
    by_cases hx : x = id
    · subst hx; simp [hload]
    · simp [hx]
  | some rooms =>
    by_cases hx : x = id
    · subst hx
      simp only [Map.Load_Store, hload, Option.getD_some, List.mem_filter, and_true]
      simp
    · simp only [Map.Load_Store_ne _ _ _ _ hx]
      simp [hx]

/-- The room-to-sockets map after a socket was taken out of a list of rooms. -/
theorem mem_del_foldl (id : SocketId) (rs : List Room) :
    ∀ (m : Map Room (List SocketId)) (x : SocketId) (r : Room),
      x ∈ ((rs.foldl (fun m room => RoomRegistry._del m room id) m).Load r).getD [] ↔
        x ∈ (m.Load r).getD [] ∧ ¬ (r ∈ rs ∧ x = id) := by
  induction rs with
  | nil => intro m x r; simp
  | cons room rs ih =>
    intro m x r
    rw [List.foldl_cons, ih, mem_del]
    simp only [List.mem_cons]
    tauto

/-- The sockets of the rooms after `DelAll`. -/
theorem mem_socketsOf_DelAll (a : RoomRegistry) (id x : SocketId) (r : Room) :
    x ∈ (a.DelAll id).socketsOf r ↔
      x ∈ a.socketsOf r ∧ ¬ (r ∈ a.SocketRooms id ∧ x = id) := by
  unfold RoomRegistry.DelAll RoomRegistry.SocketRooms
  cases hload : a.sids.Load id with
  | none => simp
  | some rooms => exact mem_del_foldl id rooms a.rooms x r

/-- The rooms of the sockets after `DelAll`. -/
theorem mem_SocketRooms_DelAll (a : RoomRegistry) (id x : SocketId) (r : Room) :
    r ∈ (a.DelAll id).SocketRooms x ↔ r ∈ a.SocketRooms x ∧ x ≠ id := by
  unfold RoomRegistry.DelAll
  cases hload : a.sids.Load id with
  | none =>
    by_cases hx : x = id
    · subst hx; simp [RoomRegistry.SocketRooms, hload]
    · simp [hx]
  | some rooms =>
    by_cases hx : x = id
    · subst hx; simp [RoomRegistry.SocketRooms, Map.Load_Delete]
    · simp [RoomRegistry.SocketRooms, Map.Load_Delete_ne _ _ _ hx, hx]

/-- Every operation keeps the two maps of the registry in agreement. -/
theorem registry_symmetric_apply (a : RoomRegistry) (op : RegistryOp)
    (h : ∀ x r, r ∈ a.SocketRooms x ↔ x ∈ a.socketsOf r) :
    ∀ x r, r ∈ (a.apply op).SocketRooms x ↔ x ∈ (a.apply op).socketsOf r := by
  intro x r
  cases op with
  | AddAll id rooms =>
    simp only [RoomRegistry.apply, mem_SocketRooms_AddAll, mem_socketsOf_AddAll, h]
  | Del id room =>
    simp only [RoomRegistry.apply, mem_SocketRooms_Del, mem_socketsOf_Del, h]
  | DelAll id =>
    simp only [RoomRegistry.apply, mem_SocketRooms_DelAll, mem_socketsOf_DelAll, h]
    constructor
    · rintro ⟨h1, h2⟩
      exact ⟨h1, fun h3 => h2 h3.2⟩
    · rintro ⟨h1, h2⟩
      refine ⟨h1, fun h3 => h2 ⟨?_, h3⟩⟩
      rw [h3] at h1
      exact h1

/-- After every sequence of operations the two maps of the registry agree. -/
theorem registry_symmetric_after (ops : List RegistryOp) :
    ∀ x r, r ∈ (RoomRegistry.after ops).SocketRooms x ↔
      x ∈ (RoomRegistry.after ops).socketsOf r := by
  have hfold : ∀ (ops : List RegistryOp) (a : RoomRegistry),
      (∀ x r, r ∈ a.SocketRooms x ↔ x ∈ a.socketsOf r) →
      ∀ x r, r ∈ (ops.foldl RoomRegistry.apply a).SocketRooms x ↔
        x ∈ (ops.foldl RoomRegistry.apply a).socketsOf r := by
    intro ops
    induction ops with
    | nil => intro a h; exact h
    | cons op ops ih =>
      intro a h
      rw [List.foldl_cons]
      exact ih (a.apply op) (registry_symmetric_apply a op h)
  exact hfold ops RoomRegistry.empty (by
    intro x r
    simp [RoomRegistry.empty, RoomRegistry.SocketRooms, RoomRegistry.socketsOf, Map.Load])

theorem mem_Sockets_singleton (a : RoomRegistry) (x : SocketId) (r : Room) :
    x ∈ a.Sockets [r] ↔ x ∈ a.socketsOf r := by
  simp [RoomRegistry.Sockets, RoomRegistry.inRooms]

/-- C22: room registry symmetry. After every sequence of `AddAll`, `Del` and
`DelAll` on the registry of a new adapter, a room `r` is in `SocketRooms(id)` if
and only if `id` is in `Sockets({r})`: the room-to-sockets map and the
socket-to-rooms map do not disagree. -/
theorem registry_symmetry (ops : List RegistryOp) (id : SocketId) (r : Room) :
    (r ∈ (RoomRegistry.after ops).SocketRooms id ↔ id ∈ (RoomRegistry.after ops).Sockets [r])
      ∧ (r ∈ ((RoomRegistry.after ops).sids.Load id).getD [] ↔
          id ∈ ((RoomRegistry.after ops).rooms.Load r).getD []) := by
  constructor
  · rw [mem_Sockets_singleton]
    exact registry_symmetric_after ops id r
  · exact registry_symmetric_after ops id r

theorem mem_Resolve (a : RoomRegistry) (opts : BroadcastOptions) (x : SocketId) :
    x ∈ a.Resolve opts ↔
      x ∈ a.Sockets opts.Rooms ∧ ∀ room ∈ opts.Except, x ∉ a.socketsOf room := by
  simp [RoomRegistry.Resolve]

/-- C24: resolution of a broadcast target. For `Rooms = {A, B}` and
`Except = {B}` the receivers are the sockets in `A` or `B` that are not in `B`,
so a socket in both is excluded; in general a socket that is in a room of
`Except` is not a receiver; and with no room in `Rooms` every known socket that
is in no room of `Except` is a receiver. -/
theorem Resolve_target (a : RoomRegistry) (x : SocketId) :
    (∀ A B : Room, x ∈ a.Resolve { Rooms := [A, B], Except := [B] } ↔
        (x ∈ a.socketsOf A ∨ x ∈ a.socketsOf B) ∧ x ∉ a.socketsOf B)
      ∧ (∀ A B : Room, x ∈ a.socketsOf A → x ∈ a.socketsOf B →
          x ∉ a.Resolve { Rooms := [A, B], Except := [B] })
      ∧ (∀ (opts : BroadcastOptions) (room : Room), room ∈ opts.Except →
          x ∈ a.socketsOf room → x ∉ a.Resolve opts)
      ∧ (∀ opts : BroadcastOptions, opts.Rooms = [] →
          (x ∈ a.Resolve opts ↔
            x ∈ a.sids.entries.map Prod.fst ∧ ∀ room ∈ opts.Except, x ∉ a.socketsOf room)) := by
  have hAB : ∀ A B : Room, x ∈ a.Resolve { Rooms := [A, B], Except := [B] } ↔
      (x ∈ a.socketsOf A ∨ x ∈ a.socketsOf B) ∧ x ∉ a.socketsOf B := by
    intro A B
    rw [mem_Resolve]
    simp [RoomRegistry.Sockets, RoomRegistry.inRooms]
  refine ⟨hAB, ?_, ?_, ?_⟩
  · intro A B _ hB h
    exact ((hAB A B).mp h).2 hB
  · intro opts room hroom hx h
    exact ((mem_Resolve a opts x).mp h).2 room hroom hx
  · intro opts hrooms
    rw [mem_Resolve, hrooms]
    simp [RoomRegistry.Sockets]

/-- C24, witness: `s1` is in `A` and in `B`, `s2` in `A`, `s3` in `B`. -/
theorem Resolve_target_witness :
    exampleRegistry.Resolve { Rooms := ["A", "B"], Except := ["B"] } = ["s2"]
      ∧ "s1" ∉ exampleRegistry.Resolve { Rooms := ["A", "B"], Except := ["B"] } :=
  ⟨by decide,
    (Resolve_target exampleRegistry "s1").2.1 "A" "B" (by decide) (by decide)⟩

/-! ## The session store -/

/-- The packets to replay are those recorded after the first packet whose id is
the offset. -/
theorem missedAfter_split (offset : String) (p : PersistedPacket) (post : List PersistedPacket)
    (hp : p.Id = offset) :
    ∀ pre : List PersistedPacket, (∀ q ∈ pre, q.Id ≠ offset) →
      missedAfter (pre ++ p :: post) offset = post := by
  intro pre hpre
  have hany : ((pre ++ p :: post).any fun q => q.Id == offset) = true := by
    simp [hp]
  have hdrop : ∀ pre : List PersistedPacket, (∀ q ∈ pre, q.Id ≠ offset) →
      ((pre ++ p :: post).dropWhile fun q => q.Id != offset) = p :: post := by
    intro pre
    induction pre with
    | nil => intro _; simp [List.dropWhile_cons, hp]
    | cons q qs ih =>
      intro h
      have hq : (q.Id != offset) = true := by
        simpa using h q (List.mem_cons_self _ _)
      rw [List.cons_append, List.dropWhile_cons, hq]
      simpa using ih (fun z hz => h z (List.mem_cons_of_mem _ hz))
  simp only [missedAfter, hany, if_true, hdrop pre hpre, List.tail_cons]

/-- C23: recovery replay. When the store holds an unexpired session whose missed
packets are `pre ++ p :: post`, where `p` is the first packet whose id is the
offset, `RestoreSession(pid, offset)` returns, with no error, the session with
exactly the packets of `post`, in order; so for the packets P1, P2, P3 and the
offset `P1.Id` the packets replayed are P2 and P3. -/
theorem RestoreSession_replays_suffix (store : SessionStore) (now : Int)
    (pid : PrivateSessionId) (session : RecoverableSession)
    (hload : store.sessions.Load pid = some session)
    (hfresh : ¬ session.DisconnectedAt + store.maxDisconnectionDuration < now) :
    (∀ (offset : String) (pre : List PersistedPacket) (p : PersistedPacket)
        (post : List PersistedPacket),
        session.missedPackets = pre ++ p :: post → p.Id = offset →
        (∀ q ∈ pre, q.Id ≠ offset) →
        (store.RestoreSession now pid offset).2 =
          (some ⟨session.toPersist, post.map fun q => q.Data⟩, none))
      ∧ (∀ P1 P2 P3 : PersistedPacket, session.missedPackets = [P1, P2, P3] →
          (store.RestoreSession now pid P1.Id).2 =
            (some ⟨session.toPersist, [P2.Data, P3.Data]⟩, none)) := by
  have hgen : ∀ (offset : String) (pre : List PersistedPacket) (p : PersistedPacket)
      (post : List PersistedPacket),
      session.missedPackets = pre ++ p :: post → p.Id = offset →
      (∀ q ∈ pre, q.Id ≠ offset) →
      (store.RestoreSession now pid offset).2 =
        (some ⟨session.toPersist, post.map fun q => q.Data⟩, none) := by
    intro offset pre p post hbuf hp hpre
    simp only [SessionStore.RestoreSession, hload, hfresh, if_false, hbuf,
      missedAfter_split offset p post hp pre hpre]
  refine ⟨hgen, ?_⟩
  intro P1 P2 P3 hbuf
  exact hgen P1.Id [] P1 [P2, P3] hbuf rfl (by simp)

/-- C23, witness: the packets `p1`, `p2`, `p3` and the offset `p1`. -/
theorem RestoreSession_replays_suffix_witness :
    (exampleStore.RestoreSession 2000 "pid-0" "p1").2 =
      (some ⟨⟨"sid-0", "pid-0", ["room-1"], Any.nil⟩, [Any.str "two", Any.str "three"]⟩, none) :=
  (RestoreSession_replays_suffix exampleStore 2000 "pid-0"
    ⟨⟨"sid-0", "pid-0", ["room-1"], Any.nil⟩, 1000, examplePackets⟩ rfl (by decide)).2
    ⟨"p1", 1, Any.str "one", none⟩ ⟨"p2", 2, Any.str "two", none⟩
    ⟨"p3", 3, Any.str "three", none⟩ rfl
end socket
